import Mathlib

/-!
# A shallow embedding of `myMalloc.c`

The allocator keeps all of its data inside raw memory: block headers are laid
over the bytes obtained from `sbrk`, the free-list sentinels are a global array
of headers, and every link is a machine address.  The embedding therefore works
on a flat memory of 64-bit words indexed by byte address.  Pointer and `size_t`
arithmetic is taken modulo `2^64`.

Every access the allocator makes is a whole-word access to a header field.  Two
accesses whose addresses differ never touch the same bytes as long as all the
headers of a region are congruent modulo 8, which holds for every region the
allocator lays out itself (all its sizes are multiples of 8).
-/

namespace MyMalloc

/-- The number of values of a 64-bit machine word (`size_t`, pointers). -/
def WORD : Nat := 18446744073709551616

/-- The number of segregated free lists, `N_LISTS`. -/
def N_LISTS : Nat := 59

/-- The offset from a block header to its payload, `ALLOC_HEADER_SIZE`. -/
def ALLOC_HEADER_SIZE : Nat := 16

/-- Modelled from the spec: the three block states of `enum state`, whose
declaration is in the missing header `myMalloc.h`; numbered in the order the
spec lists them. -/
def UNALLOCATED : Nat := 0

/-- Modelled from the spec: see `UNALLOCATED`. -/
def ALLOCATED : Nat := 1

/-- Modelled from the spec: see `UNALLOCATED`. -/
def FENCEPOST : Nat := 2

/-- The null pointer. -/
def NULL : Nat := 0

/-- The constants the missing header `myMalloc.h` and the linker fix:
`ARENA_SIZE`, `MAX_OS_CHUNKS` and the address of the global array
`freelistSentinels`. -/
structure Config where
  ARENA_SIZE : Nat
  MAX_OS_CHUNKS : Nat
  freelistSentinels : Nat

/-- Memory: one 64-bit word per byte address. -/
abbrev Mem := Nat → Nat

/-- Write the word `v` at address `a`. -/
def store (m : Mem) (a v : Nat) : Mem := fun x => if x = a then v else m x

/-- Pointer plus byte offset, `(char *) p + off`. -/
def padd (p off : Nat) : Nat := (p + off) % WORD

/-- Pointer minus byte offset, `(char *) p - off`. -/
def psub (p off : Nat) : Nat := (p + (WORD - off % WORD)) % WORD

/-- Addition of `size_t` values. -/
def uadd (a b : Nat) : Nat := (a + b) % WORD

/-- Subtraction of `size_t` values. -/
def usub (a b : Nat) : Nat := (a % WORD + (WORD - b % WORD)) % WORD

/-- Multiplication of `size_t` values. -/
def umul (a b : Nat) : Nat := (a * b) % WORD

/-- Modelled from the spec: `get_size` of the missing header `myMalloc.h`.  Size
and state share the first word of a header, the state in the low 2 bits. -/
def get_size (m : Mem) (h : Nat) : Nat := m h / 4 * 4

/-- Modelled from the spec: `get_state` of the missing header `myMalloc.h`. -/
def get_state (m : Mem) (h : Nat) : Nat := m h % 4

/-- Modelled from the spec: `set_size` of the missing header `myMalloc.h`; the
state bits are kept. -/
def set_size (m : Mem) (h size : Nat) : Mem := store m h (size / 4 * 4 + m h % 4)

/-- Modelled from the spec: `set_state` of the missing header `myMalloc.h`; the
size bits are kept. -/
def set_state (m : Mem) (h st : Nat) : Mem := store m h (m h / 4 * 4 + st)

/-- Modelled from the spec: the field `left_size` of `struct header` (declared
in the missing header), the second word of a header. -/
def left_size (m : Mem) (h : Nat) : Nat := m (padd h 8)

/-- Modelled from the spec: `h->left_size = v`. -/
def set_left_size (m : Mem) (h v : Nat) : Mem := store m (padd h 8) v

/-- Modelled from the spec: the field `next` of `struct header`, which shares
its bytes with the payload (offset `ALLOC_HEADER_SIZE`). -/
def next (m : Mem) (h : Nat) : Nat := m (padd h 16)

/-- Modelled from the spec: `h->next = v`. -/
def set_next (m : Mem) (h v : Nat) : Mem := store m (padd h 16) v

/-- Modelled from the spec: the field `prev` of `struct header`, the word after
`next`. -/
def prev (m : Mem) (h : Nat) : Nat := m (padd h 24)

/-- Modelled from the spec: `h->prev = v`. -/
def set_prev (m : Mem) (h v : Nat) : Mem := store m (padd h 24) v

/-- The address `&freelistSentinels[i]`; a header is 32 bytes. -/
def sentinel (c : Config) (i : Nat) : Nat := padd c.freelistSentinels (32 * i)

/-- The function `insert_helper`. -/
def insert_helper (c : Config) (m : Mem) (h : Nat) : Mem :=
  let sent :=
    if 58 ≤ usub (get_size m h / 8) 3 then sentinel c 58
    else sentinel c (usub (get_size m h / 8) 3)
  let m1 := set_prev m (next m sent) h
  let m2 := set_next m1 h (next m1 sent)
  let m3 := set_next m2 sent h
  set_prev m3 h sent

/-- The function `break_helper`. -/
def break_helper (m : Mem) (h : Nat) : Mem :=
  let m1 := set_next m (prev m h) (next m h)
  let m2 := set_prev m1 (next m1 h) (prev m1 h)
  let m3 := set_next m2 h NULL
  set_prev m3 h NULL

/-- The function `get_header_from_offset`; a negative offset is passed as its
two-s complement. -/
def get_header_from_offset (ptr off : Nat) : Nat := padd ptr off

/-- The function `get_right_header`. -/
def get_right_header (m : Mem) (h : Nat) : Nat := get_header_from_offset h (get_size m h)

/-- The function `get_left_header`. -/
def get_left_header (m : Mem) (h : Nat) : Nat :=
  get_header_from_offset h (usub 0 (left_size m h))

/-- The function `initialize_fencepost`. -/
def initialize_fencepost (m : Mem) (fp left : Nat) : Mem :=
  let m1 := set_state m fp FENCEPOST
  let m2 := set_size m1 fp ALLOC_HEADER_SIZE
  set_left_size m2 fp left

/-- The function `insert_fenceposts`. -/
def insert_fenceposts (m : Mem) (raw_mem size : Nat) : Mem :=
  let leftFencePost := raw_mem
  let m1 := initialize_fencepost m leftFencePost ALLOC_HEADER_SIZE
  let rightFencePost := get_header_from_offset raw_mem (usub size ALLOC_HEADER_SIZE)
  initialize_fencepost m1 rightFencePost (usub size (umul 2 ALLOC_HEADER_SIZE))

/-- The allocator state: the memory, the globals `lastFencePost`, `base`,
`osChunkList` (its length is `numOsChunks`), and the environment `os`, the
addresses the coming calls of `sbrk` return. -/
structure Alloc where
  mem : Mem
  lastFencePost : Nat
  base : Nat
  osChunkList : List Nat
  os : List Nat

/-- The system call `sbrk`: the next address of the environment, or the failure
value `(void *) -1` when the environment has none left. -/
def sbrk (s : Alloc) : Nat × Alloc :=
  match s.os with
  | [] => (WORD - 1, s)
  | a :: rest => (a % WORD, { s with os := rest })

/-- The function `insert_os_chunk`. -/
def insert_os_chunk (c : Config) (s : Alloc) (hdr : Nat) : Alloc :=
  if s.osChunkList.length < c.MAX_OS_CHUNKS then
    { s with osChunkList := s.osChunkList ++ [hdr] }
  else s

/-- The function `allocate_chunk`. -/
def allocate_chunk (s : Alloc) (size : Nat) : Nat × Alloc :=
  let r := sbrk s
  let m1 := insert_fenceposts r.2.mem r.1 size
  let hdr := padd r.1 ALLOC_HEADER_SIZE
  let m2 := set_state m1 hdr UNALLOCATED
  let m3 := set_size m2 hdr (usub size (umul 2 ALLOC_HEADER_SIZE))
  let m4 := set_left_size m3 hdr ALLOC_HEADER_SIZE
  (hdr, { r.2 with mem := m4 })

/-- The computation of `required` at the head of `allocate_object`, for a
nonzero request. -/
def required_size (raw_size : Nat) : Nat :=
  let t := uadd raw_size 16
  let r := if t % 8 = 0 then t else umul (uadd (t / 8) 1) 8
  if r ≤ 32 then 32 else r

/-- The tail carving shared by the split paths of `allocate_object`: the block
right of the shrunk `block` becomes the allocated block. -/
def carve (m : Mem) (block required : Nat) : Nat × Mem :=
  let split := get_right_header m block
  let m1 := set_size m split required
  let m2 := set_state m1 split ALLOCATED
  let m3 := set_left_size m2 split (get_size m2 block)
  let m4 := set_left_size m3 (get_right_header m3 split) (get_size m3 split)
  (padd split ALLOC_HEADER_SIZE, m4)

/-- The `while` loop of `allocate_object` over the last free list.  The result
is `none` when the fuel runs out, `some none` when the loop ends without a
fit, and `some (some (p, m))` when it returns the payload `p`. -/
def scan_last (c : Config) (required : Nat) : Nat → Mem → Nat → Option (Option (Nat × Mem))
  | 0, _, _ => none
  | fuel + 1, m, block =>
    if get_size m block ≠ 0 then
      if required < get_size m block then
        let m1 :=
          if 488 ≤ usub (get_size m block) required then
            set_size m block (usub (get_size m block) required)
          else
            let ma := break_helper m block
            let mb := set_size ma block (usub (get_size ma block) required)
            insert_helper c mb block
        some (some (carve m1 block required))
      else if get_size m block = required then
        let m1 := break_helper m block
        let m2 := set_state m1 block ALLOCATED
        some (some (padd block ALLOC_HEADER_SIZE, m2))
      else scan_last c required fuel m (next m block)
    else some none

/-- The `for` loop of `allocate_object` from list `i` on, with `k` lists left
to visit. -/
def scan_lists (c : Config) (fuel required : Nat) (m : Mem) :
    Nat → Nat → Option (Option (Nat × Mem))
  | _, 0 => some none
  | i, k + 1 =>
    let nonempty := sentinel c i
    if get_size m (next m nonempty) = required then
      let block := next m nonempty
      let m1 := break_helper m block
      let m2 := set_state m1 block ALLOCATED
      some (some (padd block ALLOC_HEADER_SIZE, m2))
    else if i < 58 ∧ required < get_size m (next m nonempty) then
      let newp := sentinel c i
      let block := next m newp
      let m1 := break_helper m block
      let m2 := set_size m1 block (usub (get_size m1 block) required)
      let m3 := insert_helper c m2 block
      some (some (carve m3 block required))
    else if i = 58 ∧ get_size m (next m nonempty) ≠ 0 then
      match scan_last c required fuel m (next m nonempty) with
      | none => none
      | some (some r) => some (some r)
      | some none => scan_lists c fuel required m (i + 1) k
    else scan_lists c fuel required m (i + 1) k

/-- The growth part of `allocate_object`, entered when the `for` loop ends
without a return.  The result is `none` when control reaches the end of the
function without a `return`. -/
def grow (c : Config) (s : Alloc) (required : Nat) : Option (Nat × Alloc) :=
  let r := allocate_chunk s c.ARENA_SIZE
  let new_chunk := r.1
  let s1 := r.2
  let m := s1.mem
  if get_left_header m (get_left_header m new_chunk) ≠ s1.lastFencePost then
    let s2 := insert_os_chunk c s1 (get_left_header m new_chunk)
    let m1 := set_size m new_chunk (usub (get_size m new_chunk) required)
    let m2 := set_state m1 new_chunk UNALLOCATED
    let m3 := insert_helper c m2 new_chunk
    let new_allocated := get_right_header m3 new_chunk
    let m4 := set_size m3 new_allocated required
    let m5 := set_state m4 new_allocated ALLOCATED
    let m6 := set_left_size m5 new_allocated (get_size m5 new_chunk)
    let lfp := get_right_header m6 new_allocated
    let m7 := set_left_size m6 lfp (get_size m6 new_allocated)
    some (padd new_allocated ALLOC_HEADER_SIZE, { s2 with mem := m7, lastFencePost := lfp })
  else if get_state m (get_left_header m s1.lastFencePost) = ALLOCATED then
    let n := s1.lastFencePost
    let m1 := set_size m n
      (usub (uadd (uadd (get_size m n) (get_size m (get_left_header m new_chunk)))
        (get_size m new_chunk)) required)
    let m2 := set_state m1 n UNALLOCATED
    let m3 := insert_helper c m2 n
    let new_allocated := get_right_header m3 n
    let m4 := set_size m3 new_allocated required
    let m5 := set_state m4 new_allocated ALLOCATED
    let m6 := set_left_size m5 new_allocated (get_size m5 n)
    let lfp := get_right_header m6 new_allocated
    let m7 := set_left_size m6 lfp (get_size m6 new_allocated)
    some (padd new_allocated ALLOC_HEADER_SIZE, { s1 with mem := m7, lastFencePost := lfp })
  else if get_state m (get_left_header m s1.lastFencePost) = UNALLOCATED then
    let left := get_left_header m (get_left_header m (get_left_header m new_chunk))
    let m1 := break_helper m left
    let m2 := set_size m1 left
      (usub (uadd (uadd (uadd (get_size m1 left)
        (get_size m1 (get_left_header m1 (get_left_header m1 new_chunk))))
        (get_size m1 (get_left_header m1 new_chunk))) (get_size m1 new_chunk)) required)
    let m3 := set_state m2 left UNALLOCATED
    let m4 := insert_helper c m3 left
    let new_allocated := get_right_header m4 left
    let m5 := set_size m4 new_allocated required
    let m6 := set_state m5 new_allocated ALLOCATED
    let m7 := set_left_size m6 new_allocated (get_size m6 left)
    let m8 := set_left_size m7 (get_right_header m7 new_allocated) (get_size m7 new_allocated)
    let lfp := get_right_header m8 new_allocated
    some (padd new_allocated ALLOC_HEADER_SIZE, { s1 with mem := m8, lastFencePost := lfp })
  else none

/-- The function `allocate_object`; `fuel` bounds the iterations of the `while`
loop over the last list.  The result is `none` when the function yields no
value: the loop outruns the fuel, or control reaches the end of the function
without a `return`. -/
def allocate_object (c : Config) (fuel : Nat) (s : Alloc) (raw_size : Nat) :
    Option (Nat × Alloc) :=
  if raw_size % WORD = 0 then some (NULL, s)
  else
    let required := required_size (raw_size % WORD)
    match scan_lists c fuel required s.mem 0 N_LISTS with
    | none => none
    | some (some r) => some (r.1, { s with mem := r.2 })
    | some none => grow c s required

/-- How a call of `deallocate_object` ends: it returns, leaving a state, or it
reaches the double-free diagnostic and aborts, in the state it was called in. -/
inductive FreeResult where
  | returned (s : Alloc)
  | aborted (s : Alloc)

/-- The coalescing part of `deallocate_object`, after `d` is marked
`UNALLOCATED`. -/
def coalesce (c : Config) (m : Mem) (d : Nat) : Mem :=
  if get_state m (get_right_header m d) ≠ UNALLOCATED ∧
      get_state m (get_left_header m d) ≠ UNALLOCATED then
    insert_helper c m d
  else if get_state m (get_right_header m d) = UNALLOCATED ∧
      get_state m (get_left_header m d) ≠ UNALLOCATED then
    let m1 := break_helper m (get_right_header m d)
    let m2 := set_size m1 d (uadd (get_size m1 d) (get_size m1 (get_right_header m1 d)))
    let m3 := set_left_size m2 (get_right_header m2 d) (get_size m2 d)
    insert_helper c m3 d
  else if get_state m (get_right_header m d) ≠ UNALLOCATED ∧
      get_state m (get_left_header m d) = UNALLOCATED then
    let left := get_left_header m d
    if 488 ≤ get_size m (get_left_header m d) then
      let m1 := set_size m left (uadd (get_size m (get_left_header m d)) (get_size m d))
      set_left_size m1 (get_right_header m1 left) (get_size m1 left)
    else
      let m1 := break_helper m (get_left_header m d)
      let m2 := set_size m1 left (uadd (get_size m1 (get_left_header m1 d)) (get_size m1 d))
      let m3 := set_left_size m2 (get_right_header m2 left) (get_size m2 left)
      insert_helper c m3 (get_left_header m3 d)
  else if get_state m (get_right_header m d) = UNALLOCATED ∧
      get_state m (get_left_header m d) = UNALLOCATED then
    let left := get_left_header m d
    if 488 ≤ get_size m (get_left_header m d) then
      let m1 := break_helper m (get_right_header m d)
      let m2 := set_size m1 left
        (uadd (uadd (get_size m1 left) (get_size m1 d)) (get_size m1 (get_right_header m1 d)))
      set_left_size m2 (get_right_header m2 left) (get_size m2 left)
    else
      let m1 := break_helper m (get_left_header m d)
      let m2 := break_helper m1 (get_right_header m1 d)
      let m3 := set_size m2 left
        (uadd (uadd (get_size m2 left) (get_size m2 d)) (get_size m2 (get_right_header m2 d)))
      let m4 := set_left_size m3 (get_right_header m3 left) (get_size m3 left)
      insert_helper c m4 (get_left_header m4 d)
  else m

/-- The function `deallocate_object`. -/
def deallocate_object (c : Config) (s : Alloc) (p : Nat) : FreeResult :=
  if p = NULL then FreeResult.returned s
  else
    let d := psub p ALLOC_HEADER_SIZE
    if get_state s.mem d = UNALLOCATED then FreeResult.aborted s
    else
      let m1 := set_state s.mem d UNALLOCATED
      FreeResult.returned { s with mem := coalesce c m1 d }

/-- The loop of `init` that makes every sentinel an empty list, from list `i`
on, with `k` lists left. -/
def init_sentinels (c : Config) (m : Mem) : Nat → Nat → Mem
  | _, 0 => m
  | i, k + 1 =>
    let freelist := sentinel c i
    let m1 := set_next m freelist freelist
    let m2 := set_prev m1 freelist freelist
    init_sentinels c m2 (i + 1) k

/-- The function `init`. -/
def init (c : Config) (s : Alloc) : Alloc :=
  let r := allocate_chunk s c.ARENA_SIZE
  let block := r.1
  let s1 := r.2
  let prevFencePost := get_header_from_offset block (usub 0 ALLOC_HEADER_SIZE)
  let s2 := insert_os_chunk c s1 prevFencePost
  let lfp := get_header_from_offset block (get_size s2.mem block)
  let bs := psub block ALLOC_HEADER_SIZE
  let m1 := init_sentinels c s2.mem 0 N_LISTS
  let freelist := sentinel c (N_LISTS - 1)
  let m2 := set_next m1 freelist block
  let m3 := set_prev m2 freelist block
  let m4 := set_next m3 block freelist
  let m5 := set_prev m4 block freelist
  { s2 with mem := m5, lastFencePost := lfp, base := bs }

/-- The function `my_malloc` (the mutex does not change the result). -/
def my_malloc (c : Config) (fuel : Nat) (s : Alloc) (size : Nat) : Option (Nat × Alloc) :=
  allocate_object c fuel s size

/-- The function `my_free` (the mutex does not change the result). -/
def my_free (c : Config) (s : Alloc) (p : Nat) : FreeResult :=
  deallocate_object c s p

/-- The state before `init` runs: the globals are zero, the memory is `m` and
the environment serves the addresses `os`. -/
def boot (m : Mem) (os : List Nat) : Alloc :=
  { mem := m, lastFencePost := 0, base := 0, osChunkList := [], os := os }

/-- The inner loop of `detect_cycles` on one list.  The result is `none` when
the fuel runs out, `some none` when the loop ends, and `some (some p)` when it
returns `p`. -/
def cycle_walk (m : Mem) (freelist : Nat) : Nat → Nat → Nat → Option (Option Nat)
  | 0, _, _ => none
  | fuel + 1, slow, fast =>
    if fast ≠ freelist then
      if slow = fast then some (some slow)
      else cycle_walk m freelist fuel (next m slow) (next m (next m fast))
    else some none

/-- The function `detect_cycles`, from list `i` on with `k` lists left; `none`
when the fuel runs out. -/
def detect_cycles (c : Config) (fuel : Nat) (m : Mem) : Nat → Nat → Option Nat
  | _, 0 => some NULL
  | i, k + 1 =>
    let freelist := sentinel c i
    match cycle_walk m freelist fuel (next m freelist) (next m (next m freelist)) with
    | none => none
    | some (some p) => some p
    | some none => detect_cycles c fuel m (i + 1) k

/-- The inner loop of `verify_pointers` on one list, with the result read as
for `cycle_walk`. -/
def pointer_walk (m : Mem) (freelist : Nat) : Nat → Nat → Option (Option Nat)
  | 0, _ => none
  | fuel + 1, cur =>
    if cur ≠ freelist then
      if prev m (next m cur) ≠ cur ∨ next m (prev m cur) ≠ cur then some (some cur)
      else pointer_walk m freelist fuel (next m cur)
    else some none

/-- The function `verify_pointers`, from list `i` on with `k` lists left. -/
def verify_pointers (c : Config) (fuel : Nat) (m : Mem) : Nat → Nat → Option Nat
  | _, 0 => some NULL
  | i, k + 1 =>
    let freelist := sentinel c i
    match pointer_walk m freelist fuel (next m freelist) with
    | none => none
    | some (some p) => some p
    | some none => verify_pointers c fuel m (i + 1) k

/-- The function `verify_freelist` (the diagnostics it prints are left out). -/
def verify_freelist (c : Config) (fuel : Nat) (m : Mem) : Option Bool :=
  match detect_cycles c fuel m 0 N_LISTS with
  | none => none
  | some cycle =>
    if cycle ≠ NULL then some false
    else
      match verify_pointers c fuel m 0 N_LISTS with
      | none => none
      | some invalid => if invalid ≠ NULL then some false else some true

/-- The `for` loop of `verify_chunk`. -/
def verify_chunk_loop (m : Mem) : Nat → Nat → Option Nat
  | 0, _ => none
  | fuel + 1, chunk =>
    if get_state m chunk ≠ FENCEPOST then
      if get_size m chunk ≠ left_size m (get_right_header m chunk) then some chunk
      else verify_chunk_loop m fuel (get_right_header m chunk)
    else some NULL

/-- The function `verify_chunk`. -/
def verify_chunk (m : Mem) (fuel : Nat) (chunk : Nat) : Option Nat :=
  if get_state m chunk ≠ FENCEPOST then some chunk
  else verify_chunk_loop m fuel chunk

/-- The function `verify_tags` over the recorded chunks.  Its return type is
`bool`: `return invalid` yields true for the non-null `invalid`, and the final
`return NULL` yields false. -/
def verify_tags (m : Mem) (fuel : Nat) : List Nat → Option Bool
  | [] => some false
  | chunk :: rest =>
    match verify_chunk m fuel chunk with
    | none => none
    | some invalid => if invalid ≠ NULL then some true else verify_tags m fuel rest

/-- The function `verify`: `verify_freelist() && verify_tags()`. -/
def verify (c : Config) (fuel : Nat) (s : Alloc) : Option Bool :=
  match verify_freelist c fuel s.mem with
  | none => none
  | some false => some false
  | some true => verify_tags s.mem fuel s.osChunkList

/-- One public call of a trace: `allocate n`, or `free i`, which frees the
pointer that the `i`-th `allocate` of the trace returned. -/
inductive Call where
  | allocate (n : Nat)
  | free (i : Nat)

/-- Run a trace of public calls from the state `s`; `ptrs` are the pointers the
earlier `allocate` calls returned.  The result is the final state with all the
returned pointers, or `none` when a call yields no value or aborts. -/
def run (c : Config) (fuel : Nat) : Alloc → List Nat → List Call → Option (Alloc × List Nat)
  | s, ptrs, [] => some (s, ptrs)
  | s, ptrs, Call.allocate n :: rest =>
    match my_malloc c fuel s n with
    | none => none
    | some r => run c fuel r.2 (ptrs ++ [r.1]) rest
  | s, ptrs, Call.free i :: rest =>
    match my_free c s (ptrs.getD i NULL) with
    | FreeResult.returned t => run c fuel t ptrs rest
    | FreeResult.aborted _ => none

/-- The blocks on one free list: follow `next` from `cur` until the sentinel
`freelist` comes back (or the fuel runs out). -/
def list_blocks (m : Mem) (freelist : Nat) : Nat → Nat → List Nat
  | 0, _ => []
  | fuel + 1, cur =>
    if cur = freelist then [] else cur :: list_blocks m freelist fuel (next m cur)

/-- The blocks on the free lists `i`, `i + 1`, ... (`k` lists). -/
def free_blocks (c : Config) (fuel : Nat) (m : Mem) : Nat → Nat → List Nat
  | _, 0 => []
  | i, k + 1 =>
    list_blocks m (sentinel c i) fuel (next m (sentinel c i)) ++ free_blocks c fuel m (i + 1) k

/-- The free extents of a state: the address range of every block on a free
list. -/
def free_extents (c : Config) (fuel : Nat) (m : Mem) : List (Nat × Nat) :=
  (free_blocks c fuel m 0 N_LISTS).map (fun b => (b, b + get_size m b))

/-- The mathematical rounding of the spec, `round_up_8`. -/
def round_up_8 (x : Nat) : Nat := (x + 7) / 8 * 8

/-- A configuration for concrete runs: `ARENA_SIZE = 4096`, room for 1024
recorded chunks, the sentinel array at address 8192. -/
def cfg : Config := { ARENA_SIZE := 4096, MAX_OS_CHUNKS := 1024, freelistSentinels := 8192 }

/-- The state that `init` produces from zeroed memory when `sbrk` will return
the addresses `os`. -/
def fresh (os : List Nat) : Alloc := init cfg (boot (fun _ => 0) os)


/-! ## Well-formed states -/

/-- The index of the free list that `insert_helper` picks for a block of the
given size. -/
def list_index (size : Nat) : Nat :=
  if 58 ≤ usub (size / 8) 3 then 58 else usub (size / 8) 3

/-- A doubly linked segment: following `next` from `p` visits exactly the
nodes `xs` and then reaches `e`, and every `prev` points one step back. -/
def DL (m : Mem) (e : Nat) : Nat → List Nat → Prop
  | p, [] => next m p = e ∧ prev m e = p
  | p, x :: xs => next m p = x ∧ prev m x = p ∧ DL m e x xs

instance DL.decide (m : Mem) (e : Nat) : (p : Nat) → (xs : List Nat) → Decidable (DL m e p xs)
  | p, [] => inferInstanceAs (Decidable (next m p = e ∧ prev m e = p))
  | p, x :: xs =>
    have := DL.decide m e x xs
    inferInstanceAs (Decidable (next m p = x ∧ prev m x = p ∧ DL m e x xs))

/-- The free-list index `FL` describes the memory: list `i` is the circular
doubly linked list of the nodes `FL i` around its sentinel, no node is repeated,
and the 32-byte headers of all nodes and sentinels are pairwise disjoint. -/
@[mk_iff lists_iff]
structure Lists (c : Config) (m : Mem) (FL : Nat → List Nat) : Prop where
  sent_hi : c.freelistSentinels + 1888 ≤ WORD
  chain : ∀ i, i < 59 → DL m (sentinel c i) (sentinel c i) (FL i)
  node_hi : ∀ i, i < 59 → ∀ x ∈ FL i, x + 32 ≤ WORD
  node_sent : ∀ i, i < 59 → ∀ x ∈ FL i,
    x + 32 ≤ c.freelistSentinels ∨ c.freelistSentinels + 1888 ≤ x
  nodup : ∀ i, i < 59 → (FL i).Nodup
  sep : ∀ i, i < 59 → ∀ j, j < 59 → ∀ x ∈ FL i, ∀ y ∈ FL j,
    (x = y ∧ i = j) ∨ x + 32 ≤ y ∨ y + 32 ≤ x

/-- The index is decided field by field; the separation of the nodes is tested
node by node, so that only the lists that hold a node are compared with the
others. -/
instance Lists.decide (c : Config) (m : Mem) (FL : Nat → List Nat) : Decidable (Lists c m FL) :=
  decidable_of_iff
    (c.freelistSentinels + 1888 ≤ WORD ∧
      (∀ i, i < 59 → DL m (sentinel c i) (sentinel c i) (FL i)) ∧
      (∀ i, i < 59 → ∀ x ∈ FL i, x + 32 ≤ WORD) ∧
      (∀ i, i < 59 → ∀ x ∈ FL i,
        x + 32 ≤ c.freelistSentinels ∨ c.freelistSentinels + 1888 ≤ x) ∧
      (∀ i, i < 59 → (FL i).Nodup) ∧
      (∀ i, i < 59 → ∀ x ∈ FL i, ∀ j, j < 59 → ∀ y ∈ FL j,
        (x = y ∧ i = j) ∨ x + 32 ≤ y ∨ y + 32 ≤ x))
    ⟨fun h => ⟨h.1, h.2.1, h.2.2.1, h.2.2.2.1, h.2.2.2.2.1,
      fun i hi j hj x hx y hy => h.2.2.2.2.2 i hi x hx j hj y hy⟩,
     fun h => ⟨h.sent_hi, h.chain, h.node_hi, h.node_sent, h.nodup,
      fun i hi x hx j hj y hy => h.sep i hi j hj x hx y hy⟩⟩

/-- An address that is no link word (`next` or `prev`) of a node or sentinel. -/
def LinkFree (c : Config) (FL : Nat → List Nat) (a : Nat) : Prop :=
  (∀ j, j < 59 → ∀ y ∈ FL j, a ≠ y + 16 ∧ a ≠ y + 24) ∧
  (∀ j, j < 59 → a ≠ c.freelistSentinels + 32 * j + 16 ∧
    a ≠ c.freelistSentinels + 32 * j + 24)

/-- A node or a sentinel of the index. -/
def Obj (c : Config) (FL : Nat → List Nat) (z : Nat) : Prop :=
  (∃ j, j < 59 ∧ z ∈ FL j) ∨ (∃ j, j < 59 ∧ z = c.freelistSentinels + 32 * j)

/-- A well-formed state, described by the list `B` of the headers of all its
blocks (fenceposts included) and the free-list index `FL`: the invariants of the
data model.  The free lists are circular doubly linked lists around their
sentinels, whose size word is zero (they are zero-initialised globals and that
word is never written).  Blocks do not wrap around the address space, are
pairwise disjoint and disjoint from the sentinel array; a fencepost has size
`ALLOC_HEADER_SIZE`; any other block is `UNALLOCATED` or `ALLOCATED`, with a
size that is a multiple of 8 and at least 32; boundary tags agree with both
neighbours, which are blocks again; no two adjacent blocks are both
`UNALLOCATED`; and a block is on a free list, the one of its size, exactly when
it is `UNALLOCATED`. -/
@[mk_iff wf_iff]
structure WF (c : Config) (s : Alloc) (B : List Nat) (FL : Nat → List Nat) : Prop where
  lists : Lists c s.mem FL
  sentinel_word : ∀ i, i < 59 → s.mem (sentinel c i) = 0
  block_hi : ∀ b ∈ B, b + get_size s.mem b ≤ WORD
  block_sent : ∀ b ∈ B, b + get_size s.mem b ≤ c.freelistSentinels ∨
    c.freelistSentinels + 1888 ≤ b
  disjoint : ∀ b ∈ B, ∀ b' ∈ B,
    b = b' ∨ b + get_size s.mem b ≤ b' ∨ b' + get_size s.mem b' ≤ b
  fencepost : ∀ b ∈ B, get_state s.mem b = FENCEPOST → get_size s.mem b = 16
  block : ∀ b ∈ B, get_state s.mem b ≠ FENCEPOST →
    (get_state s.mem b = UNALLOCATED ∨ get_state s.mem b = ALLOCATED) ∧
    get_size s.mem b % 8 = 0 ∧ 32 ≤ get_size s.mem b
  right : ∀ b ∈ B, get_state s.mem b ≠ FENCEPOST →
    b + get_size s.mem b ∈ B ∧ left_size s.mem (b + get_size s.mem b) = get_size s.mem b
  left : ∀ b ∈ B, get_state s.mem b ≠ FENCEPOST →
    left_size s.mem b ≤ b ∧ b - left_size s.mem b ∈ B ∧
    get_size s.mem (b - left_size s.mem b) = left_size s.mem b
  coalesced : ∀ b ∈ B, get_state s.mem b = UNALLOCATED →
    get_state s.mem (b + get_size s.mem b) ≠ UNALLOCATED
  free_listed : ∀ b ∈ B, get_state s.mem b = UNALLOCATED →
    b ∈ FL (list_index (get_size s.mem b))
  listed_free : ∀ i, i < 59 → ∀ x ∈ FL i,
    x ∈ B ∧ get_state s.mem x = UNALLOCATED ∧ list_index (get_size s.mem x) = i

instance WF.decide (c : Config) (s : Alloc) (B : List Nat) (FL : Nat → List Nat) :
    Decidable (WF c s B FL) :=
  decidable_of_iff _ (wf_iff c s B FL).symm

/-- The block `b` is the first fit for the required size `r`: it is on list
`i`, after the nodes `pre`, it is large enough, and no node that the scan of
`allocate_object` meets before it is. -/
structure FirstFit (m : Mem) (FL : Nat → List Nat) (r i : Nat) (pre : List Nat) (b : Nat)
    (post : List Nat) : Prop where
  index : i < 59
  split : FL i = pre ++ b :: post
  earlier : ∀ j, j < i → ∀ x ∈ FL j, get_size m x < r
  before : ∀ x ∈ pre, get_size m x < r
  fits : r ≤ get_size m b

/-- The least size of a block, `MIN_BLOCK`: the size of a full header. -/
def MIN_BLOCK : Nat := 32

/-- What `allocate_object` returns when its scan stops at the block `b` of list
`i`: the payload pointer and the memory.  An exact fit is unlinked and marked;
a larger block is shrunk (in place when it stays on the last list, otherwise it
is moved to the list of its new size) and the allocated block is carved from
its right end. -/
def served (c : Config) (m : Mem) (b r i : Nat) : Nat × Mem :=
  if get_size m b = r then
    (padd b ALLOC_HEADER_SIZE, set_state (break_helper m b) b ALLOCATED)
  else
    carve
      (if i = 58 ∧ 488 ≤ usub (get_size m b) r then set_size m b (usub (get_size m b) r)
       else
        insert_helper c
          (set_size (break_helper m b) b (usub (get_size (break_helper m b) b) r)) b)
      b r

/-- What the round trip of `allocate` and `free` establishes about the final
memory `mF`: it carries a free-list index with the same nodes on every list as
before, and every node has its old size. -/
structure Restored (c : Config) (m mF : Mem) (FL FLf : Nat → List Nat) : Prop where
  lists : Lists c mF FLf
  same : ∀ j, j < 59 → ∀ x, x ∈ FLf j ↔ x ∈ FL j
  len : ∀ j, j < 59 → (FLf j).length = (FL j).length
  size : ∀ j, j < 59 → ∀ x ∈ FL j, get_size mF x = get_size m x

/-- The state after `init` and the calls `t`, with the configuration `cfg` and
an environment serving the addresses `os`. -/
def after_calls (os : List Nat) (t : List Call) : Alloc :=
  ((run cfg 100 (fresh os) [] t).getD (fresh os, [])).1

/-- The free extents after `allocate n` followed by `free` of the pointer it
returned; `none` when a call yields no value or aborts. -/
def round_trip_extents (c : Config) (fuel : Nat) (s : Alloc) (n : Nat) :
    Option (List (Nat × Nat)) :=
  match my_malloc c fuel s n with
  | none => none
  | some r =>
    match my_free c r.2 r.1 with
    | FreeResult.returned t => some (free_extents c fuel t.mem)
    | FreeResult.aborted _ => none

/-- The library function `memcpy` on the cells of the memory: the `n` cells from
`src` on are read from the memory `m0` and written from `dst` on (the two
regions of a call of `memcpy` do not overlap). -/
def memcpy (m0 : Mem) (dst src : Nat) : Nat → Mem
  | 0 => m0
  | n + 1 => store (memcpy m0 dst src n) (padd dst n) (m0 (padd src n))

/-- The function `my_realloc`.  The result is `none` when `my_malloc` yields no
value or `my_free` aborts. -/
def my_realloc (c : Config) (fuel : Nat) (s : Alloc) (ptr size : Nat) : Option (Nat × Alloc) :=
  match my_malloc c fuel s size with
  | none => none
  | some r =>
    let mem := r.1
    let s1 := { r.2 with mem := memcpy r.2.mem mem ptr (size % WORD) }
    match my_free c s1 ptr with
    | FreeResult.returned s2 => some (mem, s2)
    | FreeResult.aborted _ => none

/-- The header words that `allocate_chunk` writes in a region of `size` bytes at
address `a`: the first two words of the left fencepost, of the interior block
and of the right fencepost. -/
def chunk_cells (a size : Nat) : List Nat :=
  [a, padd a 8, padd a ALLOC_HEADER_SIZE, padd (padd a ALLOC_HEADER_SIZE) 8,
    padd a (usub size ALLOC_HEADER_SIZE), padd (padd a (usub size ALLOC_HEADER_SIZE)) 8]

/-- What `deallocate_object` achieves in a well-formed state with the blocks `B`
and the free-list index `FL`: the new memory `m'` is well-formed with the
free-list index `FL'` and the blocks outside the bytes `X .. X + T`, which
are now the one free block `X` of size `T`; the blocks outside keep their
header words, and `FL'` holds `X` on the list of the size `T` and the old nodes
outside the range. -/
structure Freed (c : Config) (s : Alloc) (B : List Nat) (FL : Nat → List Nat) (X T : Nat)
    (m' : Mem) (FL' : Nat → List Nat) : Prop where
  wf : WF c { s with mem := m' } (B.filter (fun x => decide (x ≤ X ∨ X + T ≤ x))) FL'
  size_word : m' X = T
  right_tag : m' (X + T + 8) = T
  same : ∀ x ∈ B, (x < X ∨ X + T ≤ x) → m' x = s.mem x
  index : ∀ j, j < 59 → ∀ y, y ∈ FL' j ↔
    (y = X ∧ j = list_index T) ∨ (y ∈ FL j ∧ (y < X ∨ X + T ≤ y))

/-- The start of the free block that `deallocate_object` leaves for the block
`d`: the left neighbour of `d` when that is `UNALLOCATED`, else `d`. -/
def coalesced_start (m : Mem) (d : Nat) : Nat :=
  if get_state m (get_left_header m d) = UNALLOCATED then get_left_header m d else d

/-- The size of the free block that `deallocate_object` leaves for the block
`d`: the size of `d` plus the sizes of those neighbours that are
`UNALLOCATED`. -/
def coalesced_size (m : Mem) (d : Nat) : Nat :=
  (if get_state m (get_left_header m d) = UNALLOCATED then get_size m (get_left_header m d)
    else 0) + get_size m d +
  (if get_state m (get_right_header m d) = UNALLOCATED then get_size m (get_right_header m d)
    else 0)

/-- Following `next` from `p` visits exactly the nodes `xs` and then reaches
`e`. -/
def Walk (m : Mem) (e : Nat) : Nat → List Nat → Prop
  | p, [] => next m p = e
  | p, x :: xs => next m p = x ∧ Walk m e x xs

instance Walk.decide (m : Mem) (e : Nat) :
    (p : Nat) → (xs : List Nat) → Decidable (Walk m e p xs)
  | p, [] => inferInstanceAs (Decidable (next m p = e))
  | p, x :: xs =>
    have := Walk.decide m e x xs
    inferInstanceAs (Decidable (next m p = x ∧ Walk m e x xs))

/-- A well-formed circular list around the sentinel `S`: following `next` from
`S` visits the blocks `xs`, which are distinct and differ from `S`, and then
returns to `S`. -/
def Circular (m : Mem) (S : Nat) (xs : List Nat) : Prop :=
  Walk m S S xs ∧ (S :: xs).Nodup

instance Circular.decide (m : Mem) (S : Nat) (xs : List Nat) : Decidable (Circular m S xs) :=
  inferInstanceAs (Decidable (Walk m S S xs ∧ (S :: xs).Nodup))

/-- The `j`-th place on the circle `S, xs`, counted from the sentinel around
and around. -/
def place (S : Nat) (xs : List Nat) (j : Nat) : Nat :=
  (S :: xs).getD (j % (xs.length + 1)) 0

/-- The function `allocate_chunk` with the undefined behaviour of its first
memory access made explicit.  The address from `sbrk` goes untested to
`insert_fenceposts`, which starts with `initialize_fencepost` on it, whose first
statement `set_state(fp, FENCEPOST)` accesses the header word at that address.
The result is `none` when the 8 bytes of that word do not lie in the 64-bit
address space, so that the access is undefined behaviour in C, and the result
of `allocate_chunk` otherwise. -/
def allocate_chunk_ub (s : Alloc) (size : Nat) : Option (Nat × Alloc) :=
  if (sbrk s).1 + 8 ≤ WORD then some (allocate_chunk s size) else none

/-- The function `allocate_object` with that undefined behaviour made explicit:
the growth part starts with the call `allocate_chunk(ARENA_SIZE)`, and the
result is `none` also when the behaviour of that call is undefined. -/
def allocate_object_ub (c : Config) (fuel : Nat) (s : Alloc) (raw_size : Nat) :
    Option (Nat × Alloc) :=
  if raw_size % WORD = 0 then some (NULL, s)
  else
    let required := required_size (raw_size % WORD)
    match scan_lists c fuel required s.mem 0 N_LISTS with
    | none => none
    | some (some r) => some (r.1, { s with mem := r.2 })
    | some none =>
      match allocate_chunk_ub s c.ARENA_SIZE with
      | none => none
      | some _ => grow c s required

/-! ## Memory and list lemmas -/


theorem store_eq (m : Mem) (a v : Nat) : store m a v a = v := by
  simp [store]

theorem store_ne (m : Mem) (a v x : Nat) (h : x ≠ a) : store m a v x = m x := by
  simp [store, h]

theorem padd_eq (p k : Nat) (h : p + k < WORD) : padd p k = p + k := by
  unfold padd; exact Nat.mod_eq_of_lt h

theorem sentinel_eq (c : Config) (i : Nat) (h : c.freelistSentinels + 1888 ≤ WORD)
    (hi : i < 59) : sentinel c i = c.freelistSentinels + 32 * i := by
  unfold sentinel; apply padd_eq; omega

theorem DL_frame (m m' : Mem) (e : Nat) : ∀ (xs : List Nat) (p : Nat), DL m e p xs →
    m' (padd p 16) = m (padd p 16) →
    (∀ x ∈ xs, m' (padd x 16) = m (padd x 16) ∧ m' (padd x 24) = m (padd x 24)) →
    m' (padd e 24) = m (padd e 24) → DL m' e p xs := by
  intro xs
  induction xs with
  | nil =>
    intro p h hp _ he
    simp only [DL, next, prev] at h ⊢
    rw [hp, he]; exact h
  | cons x xs ih =>
    intro p h hp hx he
    simp only [DL] at h ⊢
    obtain ⟨h1, h2, h3⟩ := h
    have hxx := hx x (List.mem_cons_self _ _)
    refine ⟨?_, ?_, ih x h3 hxx.1 (fun y hy => hx y (List.mem_cons_of_mem _ hy)) he⟩
    · simp only [next] at h1 ⊢; rw [hp]; exact h1
    · simp only [prev] at h2 ⊢; rw [hxx.2]; exact h2

theorem DL_append (m : Mem) (e y : Nat) (ys : List Nat) : ∀ (xs : List Nat) (p : Nat),
    DL m e p (xs ++ y :: ys) ↔ DL m y p xs ∧ DL m e y ys := by
  intro xs
  induction xs with
  | nil => intro p; simp [DL, and_assoc]
  | cons x xs ih => intro p; simp [DL, ih, and_assoc]

/-- Retarget the end of a segment: if only the `next` word of the last node and
the `prev` word of the end change, the segment now ends at the new end. -/
theorem DL_retarget (m m' : Mem) (e e' : Nat) : ∀ (xs : List Nat) (p : Nat), DL m e p xs →
    (p :: xs).Nodup →
    (∀ z ∈ p :: xs, z ≠ (p :: xs).getLast (List.cons_ne_nil _ _) →
      m' (padd z 16) = m (padd z 16)) →
    (∀ z ∈ xs, m' (padd z 24) = m (padd z 24)) →
    next m' ((p :: xs).getLast (List.cons_ne_nil _ _)) = e' →
    prev m' e' = (p :: xs).getLast (List.cons_ne_nil _ _) → DL m' e' p xs := by
  intro xs
  induction xs with
  | nil =>
    intro p _ _ _ _ h1 h2
    simpa [DL] using ⟨h1, h2⟩
  | cons x xs ih =>
    intro p h hnd hn hp h1 h2
    simp only [DL] at h ⊢
    obtain ⟨a1, a2, a3⟩ := h
    have hl : (p :: x :: xs).getLast (List.cons_ne_nil _ _) =
        (x :: xs).getLast (List.cons_ne_nil _ _) := by simp
    rw [hl] at h1 h2
    have hnd2 : (x :: xs).Nodup := (List.nodup_cons.mp hnd).2
    have hpl : p ≠ (x :: xs).getLast (List.cons_ne_nil _ _) := by
      intro hp'
      exact (List.nodup_cons.mp hnd).1 (hp' ▸ List.getLast_mem _)
    refine ⟨?_, ?_, ih x a3 hnd2 ?_ (fun z hz => hp z (List.mem_cons_of_mem _ hz)) h1 h2⟩
    · simp only [next] at a1 ⊢
      rw [hn p (List.mem_cons_self _ _) (by rw [hl]; exact hpl)]; exact a1
    · simp only [prev] at a2 ⊢; rw [hp x (List.mem_cons_self _ _)]; exact a2
    · intro z hz hne
      exact hn z (List.mem_cons_of_mem _ hz) (by rw [hl]; exact hne)

/-- Replace the node before a segment: only the `prev` word of the first
element changes. -/
theorem DL_rehead (m m' : Mem) (e p p' : Nat) (xs : List Nat) (h : DL m e p xs)
    (hx : ∀ z ∈ xs, m' (padd z 16) = m (padd z 16))
    (hpv : ∀ z ∈ (xs ++ [e]).tail, m' (padd z 24) = m (padd z 24))
    (h1 : next m' p' = (xs ++ [e]).head (by simp))
    (h2 : prev m' ((xs ++ [e]).head (by simp)) = p') : DL m' e p' xs := by
  cases xs with
  | nil => simpa [DL] using ⟨h1, h2⟩
  | cons x xs =>
    simp only [DL] at h ⊢
    simp only [List.cons_append, List.head_cons] at h1 h2
    refine ⟨h1, h2, DL_frame m m' e xs x h.2.2 (hx x (List.mem_cons_self _ _)) ?_ ?_⟩
    · intro z hz
      exact ⟨hx z (List.mem_cons_of_mem _ hz), hpv z (by simp [hz])⟩
    · exact hpv e (by simp)

theorem DL_last (m : Mem) (e : Nat) : ∀ (xs : List Nat) (p : Nat), DL m e p xs →
    next m ((p :: xs).getLast (List.cons_ne_nil _ _)) = e ∧
    prev m e = (p :: xs).getLast (List.cons_ne_nil _ _) := by
  intro xs
  induction xs with
  | nil => intro p h; simpa [DL] using h
  | cons x xs ih =>
    intro p h
    simp only [DL] at h
    have := ih x h.2.2
    simpa using this

theorem DL_head (m : Mem) (e p : Nat) (xs : List Nat) (h : DL m e p xs) :
    next m p = (xs ++ [e]).head (by simp) ∧ prev m ((xs ++ [e]).head (by simp)) = p := by
  cases xs with
  | nil => simpa [DL] using h
  | cons x xs => simp only [DL] at h; simpa using ⟨h.1, h.2.1⟩

theorem break_helper_eq (m : Mem) (x p n : Nat) (hp : prev m x = p) (hn : next m x = n)
    (hx : x + 32 ≤ WORD) (hpW : p + 32 ≤ WORD) (hnW : n + 32 ≤ WORD)
    (hxp : x + 32 ≤ p ∨ p + 32 ≤ x) :
    break_helper m x =
      store (store (store (store m (p + 16) n) (n + 24) p) (x + 16) 0) (x + 24) 0 := by
  have e1 : padd x 16 = x + 16 := padd_eq _ _ (by omega)
  have e2 : padd x 24 = x + 24 := padd_eq _ _ (by omega)
  have e3 : padd p 16 = p + 16 := padd_eq _ _ (by omega)
  have e4 : padd n 24 = n + 24 := padd_eq _ _ (by omega)
  simp only [next, prev, e1, e2] at hp hn
  simp only [break_helper, set_next, set_prev, next, prev, e1, e2, hp, hn, e3, NULL]
  rw [store_ne m (p + 16) n (x + 16) (by omega), store_ne m (p + 16) n (x + 24) (by omega),
    hp, hn, e4]

theorem Lists.obj_hi {c : Config} {m : Mem} {FL : Nat → List Nat} (L : Lists c m FL)
    {z : Nat} (hz : Obj c FL z) : z + 32 ≤ WORD := by
  rcases hz with ⟨j, hj, hz⟩ | ⟨j, hj, rfl⟩
  · exact L.node_hi j hj z hz
  · have := L.sent_hi; omega

theorem Lists.obj_sep {c : Config} {m : Mem} {FL : Nat → List Nat} (L : Lists c m FL)
    {z w : Nat} (hz : Obj c FL z) (hw : Obj c FL w) : z = w ∨ z + 32 ≤ w ∨ w + 32 ≤ z := by
  rcases hz with ⟨j, hj, hz⟩ | ⟨j, hj, rfl⟩ <;> rcases hw with ⟨k, hk, hw⟩ | ⟨k, hk, rfl⟩
  · rcases L.sep j hj k hk z hz w hw with h | h | h
    · exact Or.inl h.1
    · exact Or.inr (Or.inl h)
    · exact Or.inr (Or.inr h)
  · have := L.node_sent j hj z hz; omega
  · have := L.node_sent k hk w hw; omega
  · omega

theorem Lists.linkFree_of {c : Config} {m : Mem} {FL : Nat → List Nat} (_L : Lists c m FL)
    {a : Nat} (h : ∀ z, Obj c FL z → a ≠ z + 16 ∧ a ≠ z + 24) : LinkFree c FL a :=
  ⟨fun j hj y hy => h y (Or.inl ⟨j, hj, hy⟩), fun j hj => h _ (Or.inr ⟨j, hj, rfl⟩)⟩

theorem LinkFree.obj {c : Config} {FL : Nat → List Nat} {a : Nat} (h : LinkFree c FL a)
    {z : Nat} (hz : Obj c FL z) : a ≠ z + 16 ∧ a ≠ z + 24 := by
  rcases hz with ⟨j, hj, hz⟩ | ⟨j, hj, rfl⟩
  · exact h.1 j hj z hz
  · exact h.2 j hj

/-- The neighbours of a node on its list are nodes of that list or its
sentinel. -/
theorem Lists.neighbours {c : Config} {m : Mem} {FL : Nat → List Nat} (L : Lists c m FL)
    {i x : Nat} (hi : i < 59) (hx : x ∈ FL i) :
    ∃ pre post, FL i = pre ++ x :: post ∧
      prev m x = (sentinel c i :: pre).getLast (List.cons_ne_nil _ _) ∧
      next m x = (post ++ [sentinel c i]).head (by simp) := by
  obtain ⟨pre, post, hsplit⟩ := List.append_of_mem hx
  refine ⟨pre, post, hsplit, ?_, ?_⟩
  · have h := L.chain i hi
    rw [hsplit, DL_append] at h
    exact (DL_last m x pre _ h.1).2
  · have h := L.chain i hi
    rw [hsplit, DL_append] at h
    exact (DL_head m _ x post h.2).1

theorem Lists.of_sub {c : Config} {m m' : Mem} {FL FL' : Nat → List Nat} (L : Lists c m FL)
    (hsub : ∀ j, j < 59 → (FL' j).Sublist (FL j))
    (hchain : ∀ j, j < 59 → DL m' (sentinel c j) (sentinel c j) (FL' j)) : Lists c m' FL' where
  sent_hi := L.sent_hi
  chain := hchain
  node_hi := fun i hi x hx => L.node_hi i hi x ((hsub i hi).subset hx)
  node_sent := fun i hi x hx => L.node_sent i hi x ((hsub i hi).subset hx)
  nodup := fun i hi => (L.nodup i hi).sublist (hsub i hi)
  sep := fun i hi j hj x hx y hy =>
    L.sep i hi j hj x ((hsub i hi).subset hx) y ((hsub j hj).subset hy)

theorem addr_ne_next (z p n x : Nat)
    (h2 : z = n ∨ z + 32 ≤ n ∨ n + 32 ≤ z) (h3 : z = x ∨ z + 32 ≤ x ∨ x + 32 ≤ z)
    (hp : z ≠ p) (hx : z ≠ x) :
    z + 16 ≠ p + 16 ∧ z + 16 ≠ n + 24 ∧ z + 16 ≠ x + 16 ∧ z + 16 ≠ x + 24 := by
  omega

theorem addr_ne_prev (z p n x : Nat) (h1 : z = p ∨ z + 32 ≤ p ∨ p + 32 ≤ z)
    (h2 : z = n ∨ z + 32 ≤ n ∨ n + 32 ≤ z) (h3 : z = x ∨ z + 32 ≤ x ∨ x + 32 ≤ z)
    (hn : z ≠ n) (hx : z ≠ x) :
    z + 24 ≠ p + 16 ∧ z + 24 ≠ n + 24 ∧ z + 24 ≠ x + 16 ∧ z + 24 ≠ x + 24 := by
  omega

theorem Lists.break {c : Config} {m : Mem} {FL : Nat → List Nat} (L : Lists c m FL)
    {i x : Nat} (hi : i < 59) (hx : x ∈ FL i) :
    Lists c (break_helper m x) (Function.update FL i ((FL i).erase x)) ∧
    (∀ a, LinkFree c FL a → break_helper m x a = m a) := by
  obtain ⟨pre, post, hsplit, hp, hn⟩ := L.neighbours hi hx
  have hs : sentinel c i = c.freelistSentinels + 32 * i := sentinel_eq c i L.sent_hi hi
  have hnd := L.nodup i hi
  rw [hsplit] at hnd
  have hnd1 : pre.Nodup := (List.nodup_append.mp hnd).1
  have hnd2 : (x :: post).Nodup := (List.nodup_append.mp hnd).2.1
  have hdisj := (List.nodup_append.mp hnd).2.2
  have hxpre : x ∉ pre := fun h => hdisj h (List.mem_cons_self _ _)
  have hxpost : x ∉ post := (List.nodup_cons.mp hnd2).1
  have hpre : ∀ z ∈ pre, z ∈ FL i := fun z hz => by rw [hsplit]; simp [hz]
  have hpost : ∀ z ∈ post, z ∈ FL i := fun z hz => by rw [hsplit]; simp [hz]
  have oS : Obj c FL (sentinel c i) := Or.inr ⟨i, hi, hs⟩
  have oN : ∀ z, z ∈ FL i → Obj c FL z := fun z hz => Or.inl ⟨i, hi, hz⟩
  have hsx : ∀ z, z ∈ FL i → z ≠ sentinel c i := by
    intro z hz; have := L.node_sent i hi z hz; omega
  have oX := oN x hx
  have hne0 : post ++ [sentinel c i] ≠ [] := by simp
  have oP : Obj c FL ((sentinel c i :: pre).getLast (List.cons_ne_nil _ _)) := by
    have := List.getLast_mem (List.cons_ne_nil (sentinel c i) pre)
    rcases List.mem_cons.mp this with h | h
    · rw [h]; exact oS
    · exact oN _ (hpre _ h)
  have oNx : Obj c FL ((post ++ [sentinel c i]).head (by simp)) := by
    have := List.head_mem hne0
    rcases List.mem_append.mp this with h | h
    · exact oN _ (hpost _ h)
    · rw [List.mem_singleton.mp h]; exact oS
  have hxp : x ≠ (sentinel c i :: pre).getLast (List.cons_ne_nil _ _) := by
    intro h
    have := List.getLast_mem (List.cons_ne_nil (sentinel c i) pre)
    rw [← h] at this
    rcases List.mem_cons.mp this with h | h
    · exact hsx x hx h
    · exact hxpre h
  have hxn : x ≠ (post ++ [sentinel c i]).head (by simp) := by
    intro h
    have := List.head_mem hne0
    rw [← h] at this
    rcases List.mem_append.mp this with h | h
    · exact hxpost h
    · exact hsx x hx (List.mem_singleton.mp h)
  have hpm := List.getLast_mem (List.cons_ne_nil (sentinel c i) pre)
  have hnm := List.head_mem hne0
  generalize hpe : (sentinel c i :: pre).getLast (List.cons_ne_nil _ _) = p at hp oP hxp hpm
  generalize hne : (post ++ [sentinel c i]).head hne0 = n at hn oNx hxn hnm
  have hpi : p = sentinel c i ∨ p ∈ FL i := by
    rcases List.mem_cons.mp hpm with h | h
    · exact Or.inl h
    · exact Or.inr (hpre _ h)
  have hni : n = sentinel c i ∨ n ∈ FL i := by
    rcases List.mem_append.mp hnm with h | h
    · exact Or.inr (hpost _ h)
    · exact Or.inl (List.mem_singleton.mp h)
  have hxW := L.obj_hi oX
  have hpW := L.obj_hi oP
  have hnW := L.obj_hi oNx
  have sxp := L.obj_sep oX oP
  have sxn := L.obj_sep oX oNx
  have spn := L.obj_sep oP oNx
  have hm := break_helper_eq m x p n hp hn hxW hpW hnW (by omega)
  have hframe : ∀ a, a ≠ p + 16 → a ≠ n + 24 → a ≠ x + 16 → a ≠ x + 24 →
      break_helper m x a = m a := by
    intro a h1 h2 h3 h4
    rw [hm, store_ne _ _ _ _ h4, store_ne _ _ _ _ h3, store_ne _ _ _ _ h2, store_ne _ _ _ _ h1]
  have hvp : break_helper m x (p + 16) = n := by
    rw [hm, store_ne _ _ _ _ (by omega), store_ne _ _ _ _ (by omega),
      store_ne _ _ _ _ (by omega), store_eq]
  have hvn : break_helper m x (n + 24) = p := by
    rw [hm, store_ne _ _ _ _ (by omega), store_ne _ _ _ _ (by omega), store_eq]
  have frN : ∀ z, Obj c FL z → z ≠ p → z ≠ x →
      break_helper m x (padd z 16) = m (padd z 16) := by
    intro z oz h1 h2
    have hz := L.obj_hi oz
    have a := addr_ne_next z p n x (L.obj_sep oz oNx) (L.obj_sep oz oX) h1 h2
    rw [padd_eq z 16 (by clear a; omega)]
    exact hframe _ a.1 a.2.1 a.2.2.1 a.2.2.2
  have frP : ∀ z, Obj c FL z → z ≠ n → z ≠ x →
      break_helper m x (padd z 24) = m (padd z 24) := by
    intro z oz h1 h2
    have hz := L.obj_hi oz
    have a := addr_ne_prev z p n x (L.obj_sep oz oP) (L.obj_sep oz oNx) (L.obj_sep oz oX) h1 h2
    rw [padd_eq z 24 (by clear a; omega)]
    exact hframe _ a.1 a.2.1 a.2.2.1 a.2.2.2
  refine ⟨?_, ?_⟩
  · apply L.of_sub
    · intro j hj
      by_cases hji : j = i
      · subst hji; simp only [Function.update_same]; exact List.erase_sublist _ _
      · simp only [Function.update_noteq hji]; exact List.Sublist.refl _
    · intro j hj
      by_cases hji : j = i
      · subst hji
        simp only [Function.update_same]
        have hA := L.chain j hj
        rw [hsplit, DL_append] at hA
        have herase : (FL j).erase x = pre ++ post := by
          rw [hsplit, List.erase_append_right _ hxpre, List.erase_cons_head]
        rw [herase]
        have hsnd : (sentinel c j :: pre).Nodup :=
          List.nodup_cons.mpr ⟨fun h => hsx _ (hpre _ h) rfl, hnd1⟩
        have hzn : ∀ z ∈ pre, z ≠ n := by
          intro z hz h
          rcases List.mem_append.mp hnm with h' | h'
          · exact hdisj hz (List.mem_cons_of_mem _ (h ▸ h'))
          · exact hsx z (hpre z hz) (h.trans (List.mem_singleton.mp h'))
        have hR : DL (break_helper m x) n (sentinel c j) pre := by
          apply DL_retarget m (break_helper m x) x n pre (sentinel c j) hA.1 hsnd
          · intro z hz hzl
            rw [hpe] at hzl
            have oz : Obj c FL z := by
              rcases List.mem_cons.mp hz with h | h
              · rw [h]; exact oS
              · exact oN _ (hpre _ h)
            have hzx : z ≠ x := by
              rcases List.mem_cons.mp hz with h | h
              · rw [h]; exact (hsx x hx).symm
              · exact fun h' => hxpre (h' ▸ h)
            exact frN z oz hzl hzx
          · intro z hz
            have oz : Obj c FL z := oN _ (hpre _ hz)
            have hzx : z ≠ x := fun h' => hxpre (h' ▸ hz)
            exact frP z oz (hzn z hz) hzx
          · rw [hpe]; simp only [next]; rw [padd_eq p 16 (by clear * - hpW; omega)]; exact hvp
          · rw [hpe]; simp only [prev]; rw [padd_eq n 24 (by clear * - hnW; omega)]; exact hvn
        cases post with
        | nil =>
          simp only [List.nil_append, List.head_cons] at hne
          simp only [List.append_nil]
          rw [← hne] at hR; exact hR
        | cons y post2 =>
          simp only [List.cons_append, List.head_cons] at hne
          subst hne
          rw [DL_append]
          refine ⟨hR, ?_⟩
          have hB := hA.2
          simp only [DL] at hB
          have hyp : ∀ z ∈ y :: post2, z ≠ p := by
            intro z hz h
            rcases List.mem_cons.mp hpm with h' | h'
            · exact hsx z (hpost z hz) (h.trans h')
            · exact hdisj h' (List.mem_cons_of_mem _ (h ▸ hz))
          have hyx : ∀ z ∈ y :: post2, z ≠ x := fun z hz h => hxpost (h ▸ hz)
          have hynd : (y :: post2).Nodup := (List.nodup_cons.mp hnd2).2
          apply DL_frame m (break_helper m x) (sentinel c j) post2 y hB.2.2
          · exact frN y oNx (hyp y (List.mem_cons_self _ _)) hxn.symm
          · intro z hz
            have oz : Obj c FL z := oN _ (hpost _ (List.mem_cons_of_mem _ hz))
            have hzy : z ≠ y := fun h => (List.nodup_cons.mp hynd).1 (h ▸ hz)
            exact ⟨frN z oz (hyp z (List.mem_cons_of_mem _ hz)) (hyx z (List.mem_cons_of_mem _ hz)),
              frP z oz hzy (hyx z (List.mem_cons_of_mem _ hz))⟩
          · exact frP _ oS (hsx y (hpost y (List.mem_cons_self _ _))).symm (hsx x hx).symm
      · simp only [Function.update_noteq hji]
        have hsj : sentinel c j = c.freelistSentinels + 32 * j := sentinel_eq c j L.sent_hi hj
        have oSj : Obj c FL (sentinel c j) := Or.inr ⟨j, hj, hsj⟩
        have key : ∀ z, Obj c FL z → z ≠ p → z ≠ n → z ≠ x →
            break_helper m x (padd z 16) = m (padd z 16) ∧
            break_helper m x (padd z 24) = m (padd z 24) :=
          fun z oz h1 h2 h3 => ⟨frN z oz h1 h3, frP z oz h2 h3⟩
        have hdiff : ∀ z, (z = sentinel c j ∨ z ∈ FL j) → ∀ w, (w = sentinel c i ∨ w ∈ FL i) →
            z ≠ w := by
          intro z hz w hw
          have hsi := L.sent_hi
          rcases hz with rfl | hz <;> rcases hw with rfl | hw
          · rw [hs, hsj]; omega
          · have := L.node_sent i hi w hw; rw [hsj]; omega
          · have := L.node_sent j hj z hz; rw [hs]; omega
          · rcases L.sep j hj i hi z hz w hw with h | h | h
            · exact absurd h.2 hji
            · omega
            · omega
        have hxi : x = sentinel c i ∨ x ∈ FL i := Or.inr hx
        apply DL_frame m (break_helper m x) _ _ _ (L.chain j hj)
        · exact (key _ oSj (hdiff _ (Or.inl rfl) _ hpi) (hdiff _ (Or.inl rfl) _ hni)
            (hdiff _ (Or.inl rfl) _ hxi)).1
        · intro z hz
          exact key z (Or.inl ⟨j, hj, hz⟩) (hdiff _ (Or.inr hz) _ hpi) (hdiff _ (Or.inr hz) _ hni)
            (hdiff _ (Or.inr hz) _ hxi)
        · exact (key _ oSj (hdiff _ (Or.inl rfl) _ hpi) (hdiff _ (Or.inl rfl) _ hni)
            (hdiff _ (Or.inl rfl) _ hxi)).2
  · intro a ha
    have h1 := ha.obj oP
    have h2 := ha.obj oNx
    have h3 := ha.obj oX
    exact hframe a h1.1 h2.2 h3.1 h3.2

theorem list_index_lt (size : Nat) : list_index size < 59 := by
  unfold list_index; split <;> omega

theorem insert_helper_eq (c : Config) (m : Mem) (h j hd : Nat)
    (hj : list_index (get_size m h) = j) (hG : c.freelistSentinels + 1888 ≤ WORD)
    (hhd : next m (sentinel c j) = hd) (hW : h + 32 ≤ WORD) (hdW : hd + 32 ≤ WORD)
    (hsep : hd = c.freelistSentinels + 32 * j ∨ hd + 32 ≤ c.freelistSentinels + 32 * j ∨
      c.freelistSentinels + 32 * j + 32 ≤ hd) :
    insert_helper c m h =
      store (store (store (store m (hd + 24) h) (h + 16) hd)
        (c.freelistSentinels + 32 * j + 16) h) (h + 24) (c.freelistSentinels + 32 * j) := by
  have hjlt : j < 59 := hj ▸ list_index_lt _
  have hs := sentinel_eq c j hG hjlt
  have e0 : (if 58 ≤ usub (get_size m h / 8) 3 then sentinel c 58
      else sentinel c (usub (get_size m h / 8) 3)) = sentinel c j := by
    rw [← hj]; unfold list_index; split <;> rfl
  have e1 : padd h 16 = h + 16 := padd_eq _ _ (by omega)
  have e2 : padd h 24 = h + 24 := padd_eq _ _ (by omega)
  have e3 : padd hd 24 = hd + 24 := padd_eq _ _ (by omega)
  have e4 : padd (c.freelistSentinels + 32 * j) 16 = c.freelistSentinels + 32 * j + 16 :=
    padd_eq _ _ (by omega)
  simp only [insert_helper, e0]
  rw [hs] at hhd ⊢
  simp only [next, e4] at hhd
  simp only [set_next, set_prev, next, e1, e2, e4, hhd, e3]
  rw [store_ne m (hd + 24) h _ (by omega), hhd]

theorem mem_update_cons {FL : Nat → List Nat} {j h i x : Nat} :
    x ∈ Function.update FL j (h :: FL j) i ↔ (i = j ∧ x = h) ∨ x ∈ FL i := by
  by_cases hij : i = j
  · subst hij; simp
  · simp [Function.update_noteq hij, hij]

theorem tail_ne_head (l : List Nat) (hne : l ≠ []) (hnd : l.Nodup) (z : Nat)
    (hz : z ∈ l.tail) : z ≠ l.head hne := by
  cases l with
  | nil => exact absurd rfl hne
  | cons a t =>
    simp only [List.tail_cons] at hz
    simp only [List.head_cons]
    exact fun h => (List.nodup_cons.mp hnd).1 (h ▸ hz)

theorem addr_ne_ins (z hd s h : Nat) (h1 : z = hd ∨ z + 32 ≤ hd ∨ hd + 32 ≤ z)
    (h2 : z = s ∨ z + 32 ≤ s ∨ s + 32 ≤ z) (h3 : z + 32 ≤ h ∨ h + 32 ≤ z) :
    z + 16 ≠ hd + 24 ∧ z + 16 ≠ h + 16 ∧ z + 16 ≠ h + 24 ∧ (z ≠ s → z + 16 ≠ s + 16) ∧
    z + 24 ≠ h + 16 ∧ z + 24 ≠ h + 24 ∧ z + 24 ≠ s + 16 ∧ (z ≠ hd → z + 24 ≠ hd + 24) := by
  omega

theorem Lists.insert {c : Config} {m : Mem} {FL : Nat → List Nat} (L : Lists c m FL)
    {h j : Nat} (hW : h + 32 ≤ WORD)
    (hsent : h + 32 ≤ c.freelistSentinels ∨ c.freelistSentinels + 1888 ≤ h)
    (hsep : ∀ k, k < 59 → ∀ y ∈ FL k, h + 32 ≤ y ∨ y + 32 ≤ h)
    (hj : list_index (get_size m h) = j) :
    Lists c (insert_helper c m h) (Function.update FL j (h :: FL j)) ∧
    (∀ a, LinkFree c FL a → a ≠ h + 16 → a ≠ h + 24 → insert_helper c m h a = m a) := by
  have hjlt : j < 59 := hj ▸ list_index_lt _
  have hs := sentinel_eq c j L.sent_hi hjlt
  have hG := L.sent_hi
  have hch := L.chain j hjlt
  have hne0 : FL j ++ [sentinel c j] ≠ [] := by simp
  have hhd := (DL_head m _ _ _ hch).1
  have hhm := List.head_mem hne0
  have oS : Obj c FL (sentinel c j) := Or.inr ⟨j, hjlt, hs⟩
  generalize hde : (FL j ++ [sentinel c j]).head (by simp) = hd at hhd hhm
  have hdi : hd = sentinel c j ∨ hd ∈ FL j := by
    rcases List.mem_append.mp hhm with h' | h'
    · exact Or.inr h'
    · exact Or.inl (List.mem_singleton.mp h')
  have oH : Obj c FL hd := by
    rcases hdi with h' | h'
    · rw [h']; exact oS
    · exact Or.inl ⟨j, hjlt, h'⟩
  have hdW := L.obj_hi oH
  have shs := L.obj_sep oH oS
  rw [hs] at shs
  have hsepO : ∀ z, Obj c FL z → z + 32 ≤ h ∨ h + 32 ≤ z := by
    intro z oz
    rcases oz with ⟨k, hk, hz⟩ | ⟨k, hk, rfl⟩
    · have := hsep k hk z hz; omega
    · omega
  have hm := insert_helper_eq c m h j hd hj hG hhd hW hdW shs
  have hframe : ∀ a, a ≠ hd + 24 → a ≠ h + 16 → a ≠ c.freelistSentinels + 32 * j + 16 →
      a ≠ h + 24 → insert_helper c m h a = m a := by
    intro a h1 h2 h3 h4
    rw [hm, store_ne _ _ _ _ h4, store_ne _ _ _ _ h3, store_ne _ _ _ _ h2, store_ne _ _ _ _ h1]
  have frN : ∀ z, Obj c FL z → z ≠ sentinel c j →
      insert_helper c m h (padd z 16) = m (padd z 16) := by
    intro z oz h1
    have hz := L.obj_hi oz
    have a := addr_ne_ins z hd _ h (L.obj_sep oz oH) (L.obj_sep oz oS) (hsepO z oz)
    rw [padd_eq z 16 (by clear a; omega)]
    rw [hs] at a h1
    exact hframe _ a.1 a.2.1 (a.2.2.2.1 h1) a.2.2.1
  have frP : ∀ z, Obj c FL z → z ≠ hd →
      insert_helper c m h (padd z 24) = m (padd z 24) := by
    intro z oz h1
    have hz := L.obj_hi oz
    have a := addr_ne_ins z hd _ h (L.obj_sep oz oH) (L.obj_sep oz oS) (hsepO z oz)
    rw [padd_eq z 24 (by clear a; omega)]
    rw [hs] at a
    exact hframe _ (a.2.2.2.2.2.2.2 h1) a.2.2.2.2.1 a.2.2.2.2.2.2.1 a.2.2.2.2.2.1
  have shh := hsepO hd oH
  have hvS : insert_helper c m h (c.freelistSentinels + 32 * j + 16) = h := by
    rw [hm, store_ne _ _ _ _ (by clear shs shh; omega), store_eq]
  have hvHn : insert_helper c m h (h + 16) = hd := by
    rw [hm, store_ne _ _ _ _ (by omega), store_ne _ _ _ _ (by clear shs shh; omega), store_eq]
  have hvHp : insert_helper c m h (h + 24) = c.freelistSentinels + 32 * j := by
    rw [hm, store_eq]
  have hvHd : insert_helper c m h (hd + 24) = h := by
    rw [hm, store_ne _ _ _ _ (by clear shs; omega), store_ne _ _ _ _ (by clear shh; omega),
      store_ne _ _ _ _ (by clear shs; omega), store_eq]
  have hsj : ∀ z ∈ FL j, z ≠ sentinel c j := by
    intro z hz; have := L.node_sent j hjlt z hz; rw [hs]; omega
  have hhFL : ∀ k, k < 59 → h ∉ FL k := by
    intro k hk hh; have := hsep k hk h hh; omega
  refine ⟨?_, ?_⟩
  · refine ⟨L.sent_hi, ?_, ?_, ?_, ?_, ?_⟩
    · intro k hk
      by_cases hkj : k = j
      · subst hkj
        simp only [Function.update_same, DL]
        refine ⟨?_, ?_, ?_⟩
        · simp only [next]; rw [hs, padd_eq _ 16 (by clear shs shh; omega)]; exact hvS
        · simp only [prev]; rw [hs, padd_eq _ 24 (by clear shs shh; omega)]; exact hvHp
        · have hnd : (FL k ++ [sentinel c k]).Nodup := by
            rw [List.nodup_append]
            refine ⟨L.nodup k hk, List.nodup_singleton _, ?_⟩
            intro z hz hz'
            exact hsj z hz (List.mem_singleton.mp hz')
          apply DL_rehead m (insert_helper c m h) _ _ h (FL k) hch
          · intro z hz
            exact frN z (Or.inl ⟨k, hk, hz⟩) (hsj z hz)
          · intro z hz
            have oz : Obj c FL z := by
              rcases List.mem_append.mp (List.mem_of_mem_tail hz) with h' | h'
              · exact Or.inl ⟨k, hk, h'⟩
              · rw [List.mem_singleton.mp h']; exact oS
            refine frP z oz ?_
            rw [← hde]
            exact tail_ne_head _ hne0 hnd z hz
          · simp only [next]; rw [padd_eq _ 16 (by clear shs shh; omega), hde]; exact hvHn
          · simp only [prev]; rw [hde, padd_eq _ 24 (by clear shs shh; omega)]; exact hvHd
      · simp only [Function.update_noteq hkj]
        have hsk := sentinel_eq c k L.sent_hi hk
        have oSk : Obj c FL (sentinel c k) := Or.inr ⟨k, hk, hsk⟩
        have hdiff : ∀ z, (z = sentinel c k ∨ z ∈ FL k) → ∀ w, (w = sentinel c j ∨ w ∈ FL j) →
            z ≠ w := by
          intro z hz w hw
          rcases hz with rfl | hz <;> rcases hw with rfl | hw
          · rw [hs, hsk]; omega
          · have := L.node_sent j hjlt w hw; rw [hsk]; omega
          · have := L.node_sent k hk z hz; rw [hs]; omega
          · rcases L.sep k hk j hjlt z hz w hw with h' | h' | h'
            · exact absurd h'.2 hkj
            · omega
            · omega
        apply DL_frame m (insert_helper c m h) _ _ _ (L.chain k hk)
        · exact frN _ oSk (hdiff _ (Or.inl rfl) _ (Or.inl rfl))
        · intro z hz
          exact ⟨frN z (Or.inl ⟨k, hk, hz⟩) (hdiff _ (Or.inr hz) _ (Or.inl rfl)),
            frP z (Or.inl ⟨k, hk, hz⟩) (hdiff _ (Or.inr hz) _ hdi)⟩
        · exact frP _ oSk (hdiff _ (Or.inl rfl) _ hdi)
    · intro i hi x hx
      rcases mem_update_cons.mp hx with ⟨_, rfl⟩ | hx
      · exact hW
      · exact L.node_hi i hi x hx
    · intro i hi x hx
      rcases mem_update_cons.mp hx with ⟨_, rfl⟩ | hx
      · exact hsent
      · exact L.node_sent i hi x hx
    · intro i hi
      by_cases hij : i = j
      · subst hij
        simp only [Function.update_same]
        exact List.nodup_cons.mpr ⟨hhFL i hi, L.nodup i hi⟩
      · simp only [Function.update_noteq hij]; exact L.nodup i hi
    · intro i hi k hk x hx y hy
      rcases mem_update_cons.mp hx with ⟨hi', hxh⟩ | hx'
      · rcases mem_update_cons.mp hy with ⟨hk', hyh⟩ | hy'
        · exact Or.inl ⟨hxh.trans hyh.symm, hi'.trans hk'.symm⟩
        · have := hsep k hk y hy'; omega
      · rcases mem_update_cons.mp hy with ⟨hk', hyh⟩ | hy'
        · have := hsep i hi x hx'; omega
        · exact L.sep i hi k hk x hx' y hy'

  · intro a ha h1 h2
    have a1 := ha.obj oH
    have a2 := ha.obj oS
    rw [hs] at a2
    exact hframe a a1.2 h1 a2.1 h2

theorem Lists.congr {c : Config} {m m' : Mem} {FL : Nat → List Nat} (L : Lists c m FL)
    (h : ∀ a, ¬ LinkFree c FL a → m' a = m a) : Lists c m' FL := by
  have key : ∀ z, Obj c FL z →
      m' (padd z 16) = m (padd z 16) ∧ m' (padd z 24) = m (padd z 24) := by
    intro z oz
    have hz := L.obj_hi oz
    rw [padd_eq z 16 (by omega), padd_eq z 24 (by omega)]
    constructor
    · apply h; intro hl; exact (hl.obj oz).1 rfl
    · apply h; intro hl; exact (hl.obj oz).2 rfl
  apply L.of_sub (fun j _ => List.Sublist.refl _)
  intro j hj
  have oS : Obj c FL (sentinel c j) := Or.inr ⟨j, hj, sentinel_eq c j L.sent_hi hj⟩
  exact DL_frame m m' _ _ _ (L.chain j hj) (key _ oS).1
    (fun z hz => key z (Or.inl ⟨j, hj, hz⟩)) (key _ oS).2

theorem Lists.store {c : Config} {m : Mem} {FL : Nat → List Nat} (L : Lists c m FL)
    {a : Nat} (v : Nat) (ha : LinkFree c FL a) : Lists c (store m a v) FL := by
  apply L.congr
  intro x hx
  apply store_ne
  intro hxa; exact hx (hxa ▸ ha)

theorem LinkFree.mono {c : Config} {FL FL' : Nat → List Nat} {a : Nat} (h : LinkFree c FL a)
    (hsub : ∀ j, j < 59 → ∀ y ∈ FL' j, y ∈ FL j) : LinkFree c FL' a :=
  ⟨fun j hj y hy => h.1 j hj y (hsub j hj y hy), h.2⟩

theorem LinkFree.erase {c : Config} {FL : Nat → List Nat} {a : Nat} (h : LinkFree c FL a)
    (i x : Nat) : LinkFree c (Function.update FL i ((FL i).erase x)) a := by
  apply h.mono
  intro j hj y hy
  by_cases hji : j = i
  · subst hji; simp only [Function.update_same] at hy; exact List.mem_of_mem_erase hy
  · simpa [Function.update_noteq hji] using hy

theorem LinkFree.cons {c : Config} {FL : Nat → List Nat} {a : Nat} (h : LinkFree c FL a)
    (j x : Nat) (h1 : a ≠ x + 16) (h2 : a ≠ x + 24) :
    LinkFree c (Function.update FL j (x :: FL j)) a := by
  refine ⟨?_, h.2⟩
  intro k hk y hy
  rcases mem_update_cons.mp hy with ⟨_, hy⟩ | hy
  · rw [hy]; exact ⟨h1, h2⟩
  · exact h.1 k hk y hy

theorem WF.block_size {c : Config} {s : Alloc} {B : List Nat} {FL : Nat → List Nat}
    (wf : WF c s B FL) {b : Nat} (hb : b ∈ B) : 16 ≤ get_size s.mem b := by
  by_cases h : get_state s.mem b = FENCEPOST
  · rw [wf.fencepost b hb h]
  · have := (wf.block b hb h).2.2; omega

/-- In a well-formed state the two header words of a block are no link words:
of a node only the words at offsets 16 and 24 are, and they lie inside the
node. -/
theorem WF.linkFree {c : Config} {s : Alloc} {B : List Nat} {FL : Nat → List Nat}
    (wf : WF c s B FL) {b : Nat} (hb : b ∈ B) :
    LinkFree c FL b ∧ LinkFree c FL (b + 8) := by
  have hsz := wf.block_size hb
  have hs := wf.block_sent b hb
  have key : ∀ j, j < 59 → ∀ y ∈ FL j, b = y ∨ b + 16 ≤ y ∨ y + 32 ≤ b := by
    intro j hj y hy
    obtain ⟨hyB, hyS, _⟩ := wf.listed_free j hj y hy
    have hy32 := (wf.block y hyB (by rw [hyS]; decide)).2.2
    rcases wf.disjoint b hb y hyB with h | h | h
    · exact Or.inl h
    · right; left; omega
    · right; right; omega
  constructor
  · refine ⟨fun j hj y hy => ?_, fun j hj => ?_⟩
    · have := key j hj y hy; omega
    · omega
  · refine ⟨fun j hj y hy => ?_, fun j hj => ?_⟩
    · have := key j hj y hy; omega
    · omega

theorem get_right_header_eq (m : Mem) (h : Nat) (hW : h + get_size m h < WORD) :
    get_right_header m h = h + get_size m h := by
  unfold get_right_header get_header_from_offset; exact padd_eq _ _ hW

theorem left_size_eq (m : Mem) (h : Nat) (h8 : h + 8 < WORD) : left_size m h = m (h + 8) := by
  unfold left_size; rw [padd_eq _ _ h8]

theorem get_left_header_eq (m : Mem) (h : Nat) (h8 : h + 8 < WORD) (h1 : 0 < m (h + 8))
    (h2 : m (h + 8) ≤ h) : get_left_header m h = h - m (h + 8) := by
  unfold get_left_header get_header_from_offset
  rw [left_size_eq m h h8]
  unfold usub padd
  have hlt : m (h + 8) < WORD := by omega
  rw [Nat.mod_eq_of_lt hlt]
  have e : (0 % WORD + (WORD - m (h + 8))) % WORD = WORD - m (h + 8) := by
    rw [Nat.zero_mod, Nat.zero_add]; apply Nat.mod_eq_of_lt; omega
  rw [e]
  have e2 : h + (WORD - m (h + 8)) = (h - m (h + 8)) + WORD := by omega
  rw [e2, Nat.add_mod_right]
  apply Nat.mod_eq_of_lt; omega

theorem set_left_size_eq (m : Mem) (h v : Nat) (h8 : h + 8 < WORD) :
    set_left_size m h v = store m (h + 8) v := by
  unfold set_left_size; rw [padd_eq _ _ h8]

theorem uadd_eq (a b : Nat) (h : a + b < WORD) : uadd a b = a + b := by
  unfold uadd; exact Nat.mod_eq_of_lt h

theorem usub_eq (a b : Nat) (h : b ≤ a) (ha : a < WORD) : usub a b = a - b := by
  unfold usub
  rw [Nat.mod_eq_of_lt ha, Nat.mod_eq_of_lt (by omega : b < WORD)]
  have e : a + (WORD - b) = (a - b) + WORD := by omega
  rw [e, Nat.add_mod_right]
  apply Nat.mod_eq_of_lt; omega

theorem psub_eq (a b : Nat) (h : b ≤ a) (ha : a < WORD) : psub a b = a - b := by
  unfold psub
  rw [Nat.mod_eq_of_lt (by omega : b < WORD)]
  have e : a + (WORD - b) = (a - b) + WORD := by omega
  rw [e, Nat.add_mod_right]
  apply Nat.mod_eq_of_lt; omega

/-- The free list that `insert_helper` picks, for a size the allocator hands
out: sizes below 488 have a list of their own, all others share the last. -/
theorem list_index_eq (size : Nat) (h1 : 24 ≤ size) (h2 : size < WORD) :
    list_index size = min (size / 8 - 3) 58 := by
  unfold list_index
  rw [usub_eq _ _ (by omega) (by omega)]
  split <;> omega

/-- The case of `coalesce` in which neither neighbour is free. -/
theorem coalesce_neither (c : Config) (m : Mem) (d : Nat)
    (hR : get_state m (get_right_header m d) ≠ UNALLOCATED)
    (hL : get_state m (get_left_header m d) ≠ UNALLOCATED) :
    coalesce c m d = insert_helper c m d := by
  unfold coalesce; rw [if_pos ⟨hR, hL⟩]

/-- The case of `coalesce` in which only the left neighbour `l` is free and is
large enough to stay on the last list: it grows in place. -/
theorem coalesce_left_inplace (c : Config) (m : Mem) (d l : Nat)
    (hR : get_state m (get_right_header m d) ≠ UNALLOCATED)
    (hl : get_left_header m d = l)
    (hL : get_state m l = UNALLOCATED) (hbig : 488 ≤ get_size m l)
    (hsum : l + (get_size m l + get_size m d) + 8 < WORD) :
    coalesce c m d =
      store (store m l (get_size m l + get_size m d + m l % 4))
        (l + (get_size m l + get_size m d) + 8) (get_size m l + get_size m d) := by
  unfold coalesce
  rw [if_neg (by rw [hl]; exact fun h => h.2 hL), if_neg (by rw [hl]; exact fun h => h.2 hL),
    if_pos ⟨hR, by rw [hl]; exact hL⟩]
  simp only [hl, if_pos hbig]
  have e1 : uadd (get_size m l) (get_size m d) = get_size m l + get_size m d :=
    uadd_eq _ _ (by omega)
  have e4 : (get_size m l + get_size m d) / 4 * 4 = get_size m l + get_size m d := by
    unfold get_size; omega
  have e2 : get_size (set_size m l (uadd (get_size m l) (get_size m d))) l =
      get_size m l + get_size m d := by
    rw [e1]; unfold set_size; unfold get_size at e4 ⊢; rw [store_eq]; omega
  have e3 : get_right_header (set_size m l (uadd (get_size m l) (get_size m d))) l =
      l + (get_size m l + get_size m d) := by
    rw [get_right_header_eq _ _ (by rw [e2]; omega), e2]
  rw [e3, e2, set_left_size_eq _ _ _ hsum, e1]
  unfold set_size; rw [e4]

theorem get_size_congr (m m' : Mem) (h : Nat) (e : m' h = m h) : get_size m' h = get_size m h := by
  unfold get_size; rw [e]

theorem get_state_congr (m m' : Mem) (h : Nat) (e : m' h = m h) :
    get_state m' h = get_state m h := by
  unfold get_state; rw [e]

theorem get_right_header_congr (m m' : Mem) (h : Nat) (e : m' h = m h) :
    get_right_header m' h = get_right_header m h := by
  unfold get_right_header; rw [get_size_congr m m' h e]

theorem get_left_header_congr (m m' : Mem) (h : Nat) (e : m' (padd h 8) = m (padd h 8)) :
    get_left_header m' h = get_left_header m h := by
  unfold get_left_header left_size; rw [e]

theorem erase_sep {c : Config} {m : Mem} {FL : Nat → List Nat} (L : Lists c m FL)
    {i l : Nat} (hi : i < 59) (hl : l ∈ FL i) :
    ∀ k, k < 59 → ∀ y ∈ Function.update FL i ((FL i).erase l) k, l + 32 ≤ y ∨ y + 32 ≤ l := by
  intro k hk y hy
  by_cases hki : k = i
  · subst hki
    simp only [Function.update_same] at hy
    have hne : y ≠ l := ((L.nodup k hk).mem_erase_iff.mp hy).1
    rcases L.sep k hk k hk l hl y (List.mem_of_mem_erase hy) with h | h | h
    · exact absurd h.1.symm hne
    · exact Or.inl h
    · exact Or.inr h
  · simp only [Function.update_noteq hki] at hy
    rcases L.sep i hi k hk l hl y hy with h | h | h
    · exact absurd h.2.symm hki
    · exact Or.inl h
    · exact Or.inr h

/-- The case of `coalesce` in which only the left neighbour `l` is free and is
below the last-list threshold: it is unlinked, grown and inserted again. -/
theorem coalesce_left_relink {c : Config} {m : Mem} {FL : Nat → List Nat} {d l i : Nat}
    (L : Lists c m FL) (hi : i < 59) (hli : l ∈ FL i)
    (hR : get_state m (get_right_header m d) ≠ UNALLOCATED)
    (hl : get_left_header m d = l)
    (hL : get_state m l = UNALLOCATED) (hsmall : get_size m l < 488)
    (hld : l + get_size m l = d) (hsd : 0 < get_size m d)
    (hsum : l + (get_size m l + get_size m d) + 8 < WORD)
    (lf_l : LinkFree c FL l) (lf_d : LinkFree c FL d) (lf_d8 : LinkFree c FL (d + 8))
    (lf_r8 : LinkFree c FL (l + (get_size m l + get_size m d) + 8)) :
    Lists c (coalesce c m d)
      (Function.update (Function.update FL i ((FL i).erase l))
        (list_index (get_size m l + get_size m d))
        (l :: Function.update FL i ((FL i).erase l)
          (list_index (get_size m l + get_size m d)))) ∧
    ∀ a, LinkFree c FL a → coalesce c m d a =
      store (store m l (get_size m l + get_size m d + m l % 4))
        (l + (get_size m l + get_size m d) + 8) (get_size m l + get_size m d) a := by
  have hd8 : padd d 8 = d + 8 := padd_eq _ _ (by omega)
  obtain ⟨Lb, fb⟩ := L.break hi hli
  have e1 : uadd (get_size m l) (get_size m d) = get_size m l + get_size m d :=
    uadd_eq _ _ (by omega)
  have e4 : (get_size m l + get_size m d) / 4 * 4 = get_size m l + get_size m d := by
    unfold get_size; omega
  -- the memory after the two header writes
  have hl1 : get_left_header (break_helper m l) d = l := by
    rw [get_left_header_congr m _ d (by rw [hd8]; exact fb _ lf_d8), hl]
  have hsl1 : get_size (break_helper m l) l = get_size m l := get_size_congr _ _ _ (fb _ lf_l)
  have hsd1 : get_size (break_helper m l) d = get_size m d := get_size_congr _ _ _ (fb _ lf_d)
  have hm2 : set_size (break_helper m l) l (uadd (get_size m l) (get_size m d)) =
      store (break_helper m l) l (get_size m l + get_size m d + m l % 4) := by
    unfold set_size; rw [e1, e4, fb _ lf_l]
  have hs2 : get_size (store (break_helper m l) l (get_size m l + get_size m d + m l % 4)) l =
      get_size m l + get_size m d := by
    unfold get_size at e4 ⊢; rw [store_eq]; omega
  have hr2 : get_right_header
      (store (break_helper m l) l (get_size m l + get_size m d + m l % 4)) l =
      l + (get_size m l + get_size m d) := by
    rw [get_right_header_eq _ _ (by rw [hs2]; omega), hs2]
  have Lb1 := Lb.store (get_size m l + get_size m d + m l % 4) (lf_l.erase i l)
  have Lb2 := Lb1.store (get_size m l + get_size m d) (lf_r8.erase i l)
  have hl3 : get_left_header (store (store (break_helper m l) l
      (get_size m l + get_size m d + m l % 4)) (l + (get_size m l + get_size m d) + 8)
      (get_size m l + get_size m d)) d = l := by
    rw [get_left_header_congr m _ d ?_, hl]
    rw [hd8, store_ne _ _ _ _ (by omega), store_ne _ _ _ _ (by omega)]
    exact fb _ lf_d8
  have hs3 : get_size (store (store (break_helper m l) l
      (get_size m l + get_size m d + m l % 4)) (l + (get_size m l + get_size m d) + 8)
      (get_size m l + get_size m d)) l = get_size m l + get_size m d := by
    rw [get_size_congr _ _ _ (store_ne _ _ _ _ (by omega)), hs2]
  have hc : coalesce c m d = insert_helper c (store (store (break_helper m l) l
      (get_size m l + get_size m d + m l % 4)) (l + (get_size m l + get_size m d) + 8)
      (get_size m l + get_size m d)) l := by
    unfold coalesce
    rw [if_neg (by rw [hl]; exact fun h => h.2 hL), if_neg (by rw [hl]; exact fun h => h.2 hL),
      if_pos ⟨hR, by rw [hl]; exact hL⟩]
    simp only [hl, if_neg (Nat.not_le.mpr hsmall)]
    rw [hl1, hsl1, hsd1, hm2, hr2, hs2, set_left_size_eq _ _ _ hsum, hl3]
  obtain ⟨Li, fi⟩ := Lb2.insert (j := list_index (get_size m l + get_size m d))
    (L.node_hi i hi l hli) (L.node_sent i hi l hli) (erase_sep L hi hli) (by rw [hs3])
  rw [hc]
  refine ⟨Li, ?_⟩
  intro a ha
  have ha' := ha.obj (Or.inl ⟨i, hi, hli⟩)
  rw [fi a (ha.erase i l) ha'.1 ha'.2]
  by_cases h1 : a = l + (get_size m l + get_size m d) + 8
  · rw [h1, store_eq, store_eq]
  · rw [store_ne _ _ _ _ h1, store_ne _ _ _ _ h1]
    by_cases h2 : a = l
    · rw [h2, store_eq, store_eq]
    · rw [store_ne _ _ _ _ h2, store_ne _ _ _ _ h2, fb a ha]

theorem store2_frame (m m' : Mem) (x vx y vy a : Nat) (h : m' a = m a) :
    store (store m' x vx) y vy a = store (store m x vx) y vy a := by
  by_cases h1 : a = y
  · rw [h1, store_eq, store_eq]
  · rw [store_ne _ _ _ _ h1, store_ne _ _ _ _ h1]
    by_cases h2 : a = x
    · rw [h2, store_eq, store_eq]
    · rw [store_ne _ _ _ _ h2, store_ne _ _ _ _ h2, h]

theorem get_size_store_word (m : Mem) (h sz w : Nat) (hsz : sz / 4 * 4 = sz) (hw : w % 4 = w) :
    get_size (store m h (sz + w)) h = sz := by
  unfold get_size; rw [store_eq]; omega

/-- The case of `coalesce` in which only the right neighbour `r` is free: `r` is
unlinked, `d` absorbs it and is inserted. -/
theorem coalesce_right {c : Config} {m : Mem} {FL : Nat → List Nat} {d r i : Nat}
    (L : Lists c m FL) (hi : i < 59) (hri : r ∈ FL i)
    (hr : get_right_header m d = r) (hrd : d + get_size m d = r)
    (hR : get_state m r = UNALLOCATED)
    (hL : get_state m (get_left_header m d) ≠ UNALLOCATED)
    (hsum : d + (get_size m d + get_size m r) + 8 < WORD)
    (hW : d + 32 ≤ WORD)
    (hsent : d + 32 ≤ c.freelistSentinels ∨ c.freelistSentinels + 1888 ≤ d)
    (hsep : ∀ k, k < 59 → ∀ y ∈ FL k, d + 32 ≤ y ∨ y + 32 ≤ d)
    (lf_d : LinkFree c FL d) (lf_r : LinkFree c FL r)
    (lf_r8 : LinkFree c FL (d + (get_size m d + get_size m r) + 8)) :
    Lists c (coalesce c m d)
      (Function.update (Function.update FL i ((FL i).erase r))
        (list_index (get_size m d + get_size m r))
        (d :: Function.update FL i ((FL i).erase r)
          (list_index (get_size m d + get_size m r)))) ∧
    ∀ a, LinkFree c FL a → a ≠ d + 16 → a ≠ d + 24 → coalesce c m d a =
      store (store m d (get_size m d + get_size m r + m d % 4))
        (d + (get_size m d + get_size m r) + 8) (get_size m d + get_size m r) a := by
  obtain ⟨Lb, fb⟩ := L.break hi hri
  have e1 : uadd (get_size m d) (get_size m r) = get_size m d + get_size m r :=
    uadd_eq _ _ (by omega)
  have e4 : (get_size m d + get_size m r) / 4 * 4 = get_size m d + get_size m r := by
    unfold get_size; omega
  have hsd1 : get_size (break_helper m r) d = get_size m d := get_size_congr _ _ _ (fb _ lf_d)
  have hsr1 : get_size (break_helper m r) r = get_size m r := get_size_congr _ _ _ (fb _ lf_r)
  have hr1 : get_right_header (break_helper m r) d = r := by
    rw [get_right_header_congr _ _ _ (fb _ lf_d), hr]
  have hm2 : set_size (break_helper m r) d (uadd (get_size m d) (get_size m r)) =
      store (break_helper m r) d (get_size m d + get_size m r + m d % 4) := by
    unfold set_size; rw [e1, e4, fb _ lf_d]
  have hs2 : get_size (store (break_helper m r) d (get_size m d + get_size m r + m d % 4)) d =
      get_size m d + get_size m r :=
    get_size_store_word _ _ _ _ e4 (by omega)
  have hr2 : get_right_header
      (store (break_helper m r) d (get_size m d + get_size m r + m d % 4)) d =
      d + (get_size m d + get_size m r) := by
    rw [get_right_header_eq _ _ (by rw [hs2]; omega), hs2]
  have Lb1 := Lb.store (get_size m d + get_size m r + m d % 4) (lf_d.erase i r)
  have Lb2 := Lb1.store (get_size m d + get_size m r) (lf_r8.erase i r)
  have hs3 : get_size (store (store (break_helper m r) d
      (get_size m d + get_size m r + m d % 4)) (d + (get_size m d + get_size m r) + 8)
      (get_size m d + get_size m r)) d = get_size m d + get_size m r := by
    rw [get_size_congr _ _ _ (store_ne _ _ _ _ (by omega)), hs2]
  have hc : coalesce c m d = insert_helper c (store (store (break_helper m r) d
      (get_size m d + get_size m r + m d % 4)) (d + (get_size m d + get_size m r) + 8)
      (get_size m d + get_size m r)) d := by
    unfold coalesce
    rw [if_neg (by rw [hr]; exact fun h => h.1 hR), if_pos ⟨by rw [hr]; exact hR, hL⟩]
    simp only [hr]
    rw [hsd1, hr1, hsr1, hm2, hr2, hs2, set_left_size_eq _ _ _ hsum]
  have hsep1 : ∀ k, k < 59 → ∀ y ∈ Function.update FL i ((FL i).erase r) k,
      d + 32 ≤ y ∨ y + 32 ≤ d := by
    intro k hk y hy
    apply hsep k hk y
    by_cases hki : k = i
    · subst hki; simp only [Function.update_same] at hy; exact List.mem_of_mem_erase hy
    · simpa [Function.update_noteq hki] using hy
  obtain ⟨Li, fi⟩ := Lb2.insert (j := list_index (get_size m d + get_size m r))
    hW hsent hsep1 (by rw [hs3])
  rw [hc]
  refine ⟨Li, ?_⟩
  intro a ha h16 h24
  rw [fi a (ha.erase i r) h16 h24]
  exact store2_frame _ _ _ _ _ _ _ (fb a ha)

/-- The case of `coalesce` in which both neighbours are free and the left one,
`l`, is large enough to stay on the last list: `r` is unlinked and `l` grows in
place over `d` and `r`. -/
theorem coalesce_both_inplace {c : Config} {m : Mem} {FL : Nat → List Nat} {d l r i : Nat}
    (L : Lists c m FL) (hi : i < 59) (hri : r ∈ FL i)
    (hr : get_right_header m d = r) (hR : get_state m r = UNALLOCATED)
    (hl : get_left_header m d = l) (hL : get_state m l = UNALLOCATED)
    (hbig : 488 ≤ get_size m l)
    (hsum : l + (get_size m l + get_size m d + get_size m r) + 8 < WORD)
    (lf_d : LinkFree c FL d) (lf_l : LinkFree c FL l) (lf_r : LinkFree c FL r)
    (lf_r8 : LinkFree c FL (l + (get_size m l + get_size m d + get_size m r) + 8)) :
    Lists c (coalesce c m d) (Function.update FL i ((FL i).erase r)) ∧
    ∀ a, LinkFree c FL a → coalesce c m d a =
      store (store m l (get_size m l + get_size m d + get_size m r + m l % 4))
        (l + (get_size m l + get_size m d + get_size m r) + 8)
        (get_size m l + get_size m d + get_size m r) a := by
  obtain ⟨Lb, fb⟩ := L.break hi hri
  have e0 : uadd (get_size m l) (get_size m d) = get_size m l + get_size m d :=
    uadd_eq _ _ (by omega)
  have e1 : uadd (get_size m l + get_size m d) (get_size m r) =
      get_size m l + get_size m d + get_size m r := uadd_eq _ _ (by omega)
  have e4 : (get_size m l + get_size m d + get_size m r) / 4 * 4 =
      get_size m l + get_size m d + get_size m r := by
    unfold get_size; omega
  have hsd1 : get_size (break_helper m r) d = get_size m d := get_size_congr _ _ _ (fb _ lf_d)
  have hsr1 : get_size (break_helper m r) r = get_size m r := get_size_congr _ _ _ (fb _ lf_r)
  have hsl1 : get_size (break_helper m r) l = get_size m l := get_size_congr _ _ _ (fb _ lf_l)
  have hr1 : get_right_header (break_helper m r) d = r := by
    rw [get_right_header_congr _ _ _ (fb _ lf_d), hr]
  have hm2 : set_size (break_helper m r) l (get_size m l + get_size m d + get_size m r) =
      store (break_helper m r) l (get_size m l + get_size m d + get_size m r + m l % 4) := by
    unfold set_size; rw [e4, fb _ lf_l]
  have hs2 : get_size (store (break_helper m r) l
      (get_size m l + get_size m d + get_size m r + m l % 4)) l =
      get_size m l + get_size m d + get_size m r :=
    get_size_store_word _ _ _ _ e4 (by omega)
  have hr2 : get_right_header (store (break_helper m r) l
      (get_size m l + get_size m d + get_size m r + m l % 4)) l =
      l + (get_size m l + get_size m d + get_size m r) := by
    rw [get_right_header_eq _ _ (by rw [hs2]; omega), hs2]
  have Lb1 := Lb.store (get_size m l + get_size m d + get_size m r + m l % 4) (lf_l.erase i r)
  have Lb2 := Lb1.store (get_size m l + get_size m d + get_size m r) (lf_r8.erase i r)
  have hc : coalesce c m d = store (store (break_helper m r) l
      (get_size m l + get_size m d + get_size m r + m l % 4))
      (l + (get_size m l + get_size m d + get_size m r) + 8)
      (get_size m l + get_size m d + get_size m r) := by
    unfold coalesce
    rw [if_neg (by rw [hr]; exact fun h => h.1 hR), if_neg (by rw [hl]; exact fun h => h.2 hL),
      if_neg (by rw [hr]; exact fun h => h.1 hR), if_pos ⟨by rw [hr]; exact hR, by rw [hl]; exact hL⟩]
    simp only [hl, hr, if_pos hbig]
    rw [hsl1, hsd1, hr1, hsr1, e0, e1, hm2, hr2, hs2, set_left_size_eq _ _ _ hsum]
  rw [hc]
  exact ⟨Lb2, fun a ha => store2_frame _ _ _ _ _ _ _ (fb a ha)⟩

/-- The case of `coalesce` in which both neighbours are free and the left one,
`l`, is below the last-list threshold: both are unlinked, `l` grows over `d` and
`r` and is inserted again. -/
theorem coalesce_both_relink {c : Config} {m : Mem} {FL : Nat → List Nat} {d l r i k : Nat}
    (L : Lists c m FL) (hi : i < 59) (hli : l ∈ FL i) (hk : k < 59) (hrk : r ∈ FL k)
    (hlr : l ≠ r)
    (hr : get_right_header m d = r) (hR : get_state m r = UNALLOCATED)
    (hl : get_left_header m d = l) (hL : get_state m l = UNALLOCATED)
    (hsmall : get_size m l < 488)
    (hld : l + get_size m l = d) (hsd : 0 < get_size m d)
    (hsum : l + (get_size m l + get_size m d + get_size m r) + 8 < WORD)
    (lf_d : LinkFree c FL d) (lf_d8 : LinkFree c FL (d + 8))
    (lf_l : LinkFree c FL l) (lf_r : LinkFree c FL r)
    (lf_r8 : LinkFree c FL (l + (get_size m l + get_size m d + get_size m r) + 8)) :
    Lists c (coalesce c m d)
      (Function.update
        (Function.update (Function.update FL i ((FL i).erase l)) k
          ((Function.update FL i ((FL i).erase l) k).erase r))
        (list_index (get_size m l + get_size m d + get_size m r))
        (l :: Function.update (Function.update FL i ((FL i).erase l)) k
          ((Function.update FL i ((FL i).erase l) k).erase r)
          (list_index (get_size m l + get_size m d + get_size m r)))) ∧
    ∀ a, LinkFree c FL a → coalesce c m d a =
      store (store m l (get_size m l + get_size m d + get_size m r + m l % 4))
        (l + (get_size m l + get_size m d + get_size m r) + 8)
        (get_size m l + get_size m d + get_size m r) a := by
  have hd8 : padd d 8 = d + 8 := padd_eq _ _ (by omega)
  obtain ⟨La, fa⟩ := L.break hi hli
  have hrk1 : r ∈ Function.update FL i ((FL i).erase l) k := by
    by_cases hki : k = i
    · subst hki
      simp only [Function.update_same]
      exact (List.mem_erase_of_ne (Ne.symm hlr)).mpr hrk
    · simpa [Function.update_noteq hki] using hrk
  obtain ⟨Lb, fb0⟩ := La.break hk hrk1
  have fb : ∀ a, LinkFree c FL a → break_helper (break_helper m l) r a = m a :=
    fun a ha => (fb0 a (ha.erase i l)).trans (fa a ha)
  have e0 : uadd (get_size m l) (get_size m d) = get_size m l + get_size m d :=
    uadd_eq _ _ (by omega)
  have e1 : uadd (get_size m l + get_size m d) (get_size m r) =
      get_size m l + get_size m d + get_size m r := uadd_eq _ _ (by omega)
  have e4 : (get_size m l + get_size m d + get_size m r) / 4 * 4 =
      get_size m l + get_size m d + get_size m r := by
    unfold get_size; omega
  have hl1 : get_left_header (break_helper m l) d = l := by
    rw [get_left_header_congr m _ d (by rw [hd8]; exact fa _ lf_d8), hl]
  have hr1 : get_right_header (break_helper m l) d = r := by
    rw [get_right_header_congr _ _ _ (fa _ lf_d), hr]
  have hsd2 : get_size (break_helper (break_helper m l) r) d = get_size m d :=
    get_size_congr _ _ _ (fb _ lf_d)
  have hsr2 : get_size (break_helper (break_helper m l) r) r = get_size m r :=
    get_size_congr _ _ _ (fb _ lf_r)
  have hsl2 : get_size (break_helper (break_helper m l) r) l = get_size m l :=
    get_size_congr _ _ _ (fb _ lf_l)
  have hr2 : get_right_header (break_helper (break_helper m l) r) d = r := by
    rw [get_right_header_congr _ _ _ (fb _ lf_d), hr]
  have hm3 : set_size (break_helper (break_helper m l) r) l
      (get_size m l + get_size m d + get_size m r) =
      store (break_helper (break_helper m l) r) l
        (get_size m l + get_size m d + get_size m r + m l % 4) := by
    unfold set_size; rw [e4, fb _ lf_l]
  have hs3 : get_size (store (break_helper (break_helper m l) r) l
      (get_size m l + get_size m d + get_size m r + m l % 4)) l =
      get_size m l + get_size m d + get_size m r :=
    get_size_store_word _ _ _ _ e4 (by omega)
  have hr3 : get_right_header (store (break_helper (break_helper m l) r) l
      (get_size m l + get_size m d + get_size m r + m l % 4)) l =
      l + (get_size m l + get_size m d + get_size m r) := by
    rw [get_right_header_eq _ _ (by rw [hs3]; omega), hs3]
  have Lb1 := Lb.store (get_size m l + get_size m d + get_size m r + m l % 4)
    ((lf_l.erase i l).erase k r)
  have Lb2 := Lb1.store (get_size m l + get_size m d + get_size m r)
    ((lf_r8.erase i l).erase k r)
  have hl4 : get_left_header (store (store (break_helper (break_helper m l) r) l
      (get_size m l + get_size m d + get_size m r + m l % 4))
      (l + (get_size m l + get_size m d + get_size m r) + 8)
      (get_size m l + get_size m d + get_size m r)) d = l := by
    rw [get_left_header_congr m _ d ?_, hl]
    rw [hd8, store_ne _ _ _ _ (by omega), store_ne _ _ _ _ (by omega)]
    exact fb _ lf_d8
  have hs4 : get_size (store (store (break_helper (break_helper m l) r) l
      (get_size m l + get_size m d + get_size m r + m l % 4))
      (l + (get_size m l + get_size m d + get_size m r) + 8)
      (get_size m l + get_size m d + get_size m r)) l =
      get_size m l + get_size m d + get_size m r := by
    rw [get_size_congr _ _ _ (store_ne _ _ _ _ (by omega)), hs3]
  have hc : coalesce c m d = insert_helper c (store (store (break_helper (break_helper m l) r) l
      (get_size m l + get_size m d + get_size m r + m l % 4))
      (l + (get_size m l + get_size m d + get_size m r) + 8)
      (get_size m l + get_size m d + get_size m r)) l := by
    unfold coalesce
    rw [if_neg (by rw [hr]; exact fun h => h.1 hR), if_neg (by rw [hl]; exact fun h => h.2 hL),
      if_neg (by rw [hr]; exact fun h => h.1 hR), if_pos ⟨by rw [hr]; exact hR, by rw [hl]; exact hL⟩]
    simp only [hl, if_neg (Nat.not_le.mpr hsmall)]
    rw [hr1, hsl2, hsd2, hr2, hsr2, e0, e1, hm3, hr3, hs3, set_left_size_eq _ _ _ hsum, hl4]
  have hsepl : ∀ j, j < 59 → ∀ y ∈ Function.update (Function.update FL i ((FL i).erase l)) k
      ((Function.update FL i ((FL i).erase l) k).erase r) j, l + 32 ≤ y ∨ y + 32 ≤ l := by
    intro j hj y hy
    apply erase_sep L hi hli j hj y
    by_cases hjk : j = k
    · subst hjk; simp only [Function.update_same] at hy; exact List.mem_of_mem_erase hy
    · simpa [Function.update_noteq hjk] using hy
  obtain ⟨Li, fi⟩ := Lb2.insert (j := list_index (get_size m l + get_size m d + get_size m r))
    (L.node_hi i hi l hli) (L.node_sent i hi l hli) hsepl (by rw [hs4])
  rw [hc]
  refine ⟨Li, ?_⟩
  intro a ha
  have ha' := ha.obj (Or.inl ⟨i, hi, hli⟩)
  rw [fi a ((ha.erase i l).erase k r) ha'.1 ha'.2]
  exact store2_frame _ _ _ _ _ _ _ (fb a ha)

theorem set_state_unalloc (m : Mem) (d : Nat) :
    set_state m d UNALLOCATED = store m d (m d / 4 * 4) := by
  unfold set_state UNALLOCATED; rw [Nat.add_zero]

theorem get_size_store_state (m : Mem) (d v x : Nat) (hv : v / 4 = m d / 4) :
    get_size (store m d v) x = get_size m x := by
  unfold get_size
  by_cases h : x = d
  · rw [h, store_eq, hv]
  · rw [store_ne _ _ _ _ h]

/-- The layout around a block that is no fencepost, in a well-formed state. -/
theorem WF.around {c : Config} {s : Alloc} {B : List Nat} {FL : Nat → List Nat}
    (wf : WF c s B FL) {d : Nat} (hd : d ∈ B) (hst : get_state s.mem d ≠ FENCEPOST) :
    32 ≤ get_size s.mem d ∧ d + get_size s.mem d ∈ B ∧ d + get_size s.mem d + 16 ≤ WORD ∧
    left_size s.mem d = s.mem (d + 8) ∧ 16 ≤ s.mem (d + 8) ∧ s.mem (d + 8) ≤ d ∧
    d - s.mem (d + 8) ∈ B ∧ get_size s.mem (d - s.mem (d + 8)) = s.mem (d + 8) ∧
    get_right_header s.mem d = d + get_size s.mem d ∧
    get_left_header s.mem d = d - s.mem (d + 8) := by
  have h1 := (wf.block d hd hst).2.2
  have h2 := (wf.right d hd hst).1
  have h3 := wf.block_hi _ h2
  have h4 := wf.block_size h2
  have h5 := wf.left d hd hst
  have h6 : left_size s.mem d = s.mem (d + 8) := left_size_eq _ _ (by omega)
  rw [h6] at h5
  have h7 := wf.block_size h5.2.1
  rw [h5.2.2] at h7
  refine ⟨h1, h2, by omega, h6, h7, h5.1, h5.2.1, h5.2.2, ?_, ?_⟩
  · exact get_right_header_eq _ _ (by omega)
  · exact get_left_header_eq _ _ (by omega) (by omega) h5.1

/-- Any two distinct blocks of a well-formed state of which one is a node of
the index are far enough apart for a node header. -/
theorem WF.node_sep {c : Config} {s : Alloc} {B : List Nat} {FL : Nat → List Nat}
    (wf : WF c s B FL) {d : Nat} (hd : d ∈ B) (hsz : 32 ≤ get_size s.mem d)
    (hst : get_state s.mem d ≠ UNALLOCATED) :
    ∀ k, k < 59 → ∀ y ∈ FL k, d + 32 ≤ y ∨ y + 32 ≤ d := by
  intro k hk y hy
  obtain ⟨hyB, hyS, _⟩ := wf.listed_free k hk y hy
  have hy32 := (wf.block y hyB (by rw [hyS]; decide)).2.2
  rcases wf.disjoint d hd y hyB with h | h | h
  · rw [h] at hst; exact absurd hyS hst
  · left; omega
  · right; omega

/-- Arithmetic of coalescing the block `d` of size `sd` with its left neighbour
`l` of size `ls`; `r` is the right neighbour. -/
theorem coalesce_arith (G l ls d sd r : Nat) (hld : l + ls = d) (hrd : d + sd = r)
    (h16 : 16 ≤ ls) (hsd : 32 ≤ sd) (hRW : r + 16 ≤ WORD)
    (hdsent : r ≤ G ∨ G + 1888 ≤ d) :
    l + (ls + sd) + 8 = r + 8 ∧ l + (ls + sd) + 8 < WORD ∧ d ≠ l + (ls + sd) + 8 ∧ d ≠ l ∧
    0 < sd ∧ d + 32 ≤ WORD ∧ (d + 32 ≤ G ∨ G + 1888 ≤ d) ∧ d ≠ d + 16 ∧ d ≠ d + 24 ∧
    l ≠ r := by
  refine ⟨?_, ?_, ?_, ?_, ?_, ?_, ?_, ?_, ?_, ?_⟩ <;> omega

/-- Arithmetic of coalescing the block `d` with its right neighbour `r` of size
`sr`. -/
theorem coalesce_arith_right (l ls d sd r sr : Nat) (hld : l + ls = d) (hrd : d + sd = r)
    (hsd : 32 ≤ sd) (hsr : 32 ≤ sr) (hRRW : r + sr + 16 ≤ WORD) :
    l + (ls + sd + sr) + 8 = r + sr + 8 ∧ l + (ls + sd + sr) + 8 < WORD ∧
    d ≠ l + (ls + sd + sr) + 8 ∧ d + (sd + sr) + 8 = r + sr + 8 ∧
    d + (sd + sr) + 8 < WORD ∧ d ≠ d + (sd + sr) + 8 := by
  refine ⟨?_, ?_, ?_, ?_, ?_, ?_⟩ <;> omega

/-- A sum of sizes has no state bits. -/
theorem size_sum_state (a b : Nat) : (a / 4 * 4 / 4 * 4 + b / 4 * 4 + a / 4 * 4 % 4) % 4 = 0 := by
  omega

/-- After `deallocate_object` has marked the live block `d` as `UNALLOCATED`,
the coalescing step leaves the state bits of the header word of `d` alone,
whichever of the cases it takes. -/
theorem coalesce_keeps_unallocated {c : Config} {s : Alloc} {B : List Nat}
    {FL : Nat → List Nat} (wf : WF c s B FL) {d : Nat} (hd : d ∈ B)
    (hst : get_state s.mem d = ALLOCATED) :
    get_state (coalesce c (set_state s.mem d UNALLOCATED) d) d = UNALLOCATED := by
  have hnf : get_state s.mem d ≠ FENCEPOST := by rw [hst]; decide
  obtain ⟨hsd, hRB, hRW, hls, hls1, hls2, hLB, hLs, hrh, hlh⟩ := wf.around hd hnf
  obtain ⟨lfd, lfd8⟩ := wf.linkFree hd
  have hsep := wf.node_sep hd hsd (by rw [hst]; decide)
  have hdsent := wf.block_sent d hd
  rw [set_state_unalloc]
  generalize hm1 : store s.mem d (s.mem d / 4 * 4) = m1
  have hne : ∀ a, a ≠ d → m1 a = s.mem a := fun a ha => by rw [← hm1]; exact store_ne _ _ _ _ ha
  have hm1d : m1 d = s.mem d / 4 * 4 := by rw [← hm1]; exact store_eq _ _ _
  have gs : ∀ x, get_size m1 x = get_size s.mem x := fun x => by
    rw [← hm1]; exact get_size_store_state _ _ _ _ (by omega)
  have gst : ∀ x, x ≠ d → get_state m1 x = get_state s.mem x :=
    fun x hx => get_state_congr _ _ _ (hne x hx)
  have L1 : Lists c m1 FL := by rw [← hm1]; exact wf.lists.store _ lfd
  have hr1 : get_right_header m1 d = d + get_size s.mem d := by
    unfold get_right_header; rw [gs]; exact hrh
  have hd8 : padd d 8 = d + 8 := padd_eq _ _ (by omega)
  have hl1 : get_left_header m1 d = d - s.mem (d + 8) := by
    rw [get_left_header_congr s.mem m1 d (by rw [hd8]; exact hne _ (by omega)), hlh]
  have hfin0 : get_state m1 d = UNALLOCATED := by
    unfold get_state UNALLOCATED; rw [hm1d]; omega
  have stR : get_state m1 (d + get_size s.mem d) = get_state s.mem (d + get_size s.mem d) :=
    gst _ (by omega)
  have stL : get_state m1 (d - s.mem (d + 8)) = get_state s.mem (d - s.mem (d + 8)) :=
    gst _ (by omega)
  have hld : d - s.mem (d + 8) + s.mem (d + 8) = d := by omega
  have hfrL := wf.free_listed _ hLB
  have hfrR := wf.free_listed _ hRB
  have lfL := (wf.linkFree hLB).1
  have lfR := wf.linkFree hRB
  have hRar := wf.around hRB
  generalize d - s.mem (d + 8) = l at *
  generalize hrdef : d + get_size s.mem d = r at *
  have gd := gs d
  have gl := gs l
  have gr := gs r
  rw [hLs] at gl
  have hld' : l + get_size m1 l = d := by rw [gl]; exact hld
  have hrd' : d + get_size m1 d = r := by rw [gd]; exact hrdef
  have h16' : 16 ≤ get_size m1 l := by rw [gl]; exact hls1
  have hsd' : 32 ≤ get_size m1 d := by rw [gd]; exact hsd
  obtain ⟨eL8, sL, nL8, nl, hsd0, hW, hsent, n16, n24, hlr⟩ :=
    coalesce_arith c.freelistSentinels l _ d _ r hld' hrd' h16' hsd' hRW hdsent
  clear hdsent hnf
  by_cases hR : get_state s.mem r = UNALLOCATED
  · -- the right neighbour is free
    have hRnf : get_state s.mem r ≠ FENCEPOST := by rw [hR]; decide
    obtain ⟨hsr, hRRB, hRRW, -⟩ := hRar hRnf
    have hRin := hfrR hR
    clear hRar hfrR hRnf
    have lfRR8 : LinkFree c FL (r + get_size m1 r + 8) := by
      rw [gr]; exact (wf.linkFree hRRB).2
    have hk := list_index_lt (get_size s.mem r)
    obtain ⟨e8, sB, nB8, e8r, sRt, nR8⟩ :=
      coalesce_arith_right l (get_size m1 l) d (get_size m1 d) r (get_size m1 r) hld' hrd'
        hsd' (by rw [gr]; exact hsr) (by rw [gr]; exact hRRW)
    by_cases hL : get_state s.mem l = UNALLOCATED
    · have hi := list_index_lt (get_size s.mem l)
      have hLin := hfrL hL
      clear hfrL
      by_cases hbig : 488 ≤ get_size m1 l
      · obtain ⟨-, fr⟩ := coalesce_both_inplace L1 hk hRin hr1 (by rw [stR]; exact hR)
          hl1 (by rw [stL]; exact hL) hbig sB lfd lfL lfR.1 (by rw [e8]; exact lfRR8)
        rw [get_state_congr _ _ _ (fr d lfd), get_state_congr _ _ _ (store_ne _ _ _ _ nB8),
          get_state_congr _ _ _ (store_ne _ _ _ _ nl)]
        exact hfin0
      · obtain ⟨-, fr⟩ := coalesce_both_relink L1 hi hLin hk hRin hlr hr1
          (by rw [stR]; exact hR) hl1 (by rw [stL]; exact hL) (Nat.not_le.mp hbig) hld'
          hsd0 sB lfd lfd8 lfL lfR.1 (by rw [e8]; exact lfRR8)
        rw [get_state_congr _ _ _ (fr d lfd), get_state_congr _ _ _ (store_ne _ _ _ _ nB8),
          get_state_congr _ _ _ (store_ne _ _ _ _ nl)]
        exact hfin0
    · clear hfrL
      obtain ⟨-, fr⟩ := coalesce_right L1 hk hRin hr1 hrd' (by rw [stR]; exact hR)
        (by rw [hl1, stL]; exact hL) sRt hW hsent hsep lfd lfR.1
        (by rw [e8r]; exact lfRR8)
      rw [get_state_congr _ _ _ (fr d lfd n16 n24),
        get_state_congr _ _ _ (store_ne _ _ _ _ nR8)]
      unfold get_state UNALLOCATED
      rw [store_eq, hm1d]
      unfold get_size
      rw [hm1d]
      exact size_sum_state _ _
  · clear hRar hfrR
    by_cases hL : get_state s.mem l = UNALLOCATED
    · have hi := list_index_lt (get_size s.mem l)
      have hLin := hfrL hL
      clear hfrL
      by_cases hbig : 488 ≤ get_size m1 l
      · rw [coalesce_left_inplace c m1 d l (by rw [hr1, stR]; exact hR) hl1
          (by rw [stL]; exact hL) hbig sL,
          get_state_congr _ _ _ (store_ne _ _ _ _ nL8),
          get_state_congr _ _ _ (store_ne _ _ _ _ nl)]
        exact hfin0
      · obtain ⟨-, fr⟩ := coalesce_left_relink L1 hi hLin (by rw [hr1, stR]; exact hR) hl1
          (by rw [stL]; exact hL) (Nat.not_le.mp hbig) hld' hsd0 sL
          lfL lfd lfd8 (by rw [eL8]; exact lfR.2)
        rw [get_state_congr _ _ _ (fr d lfd), get_state_congr _ _ _ (store_ne _ _ _ _ nL8),
          get_state_congr _ _ _ (store_ne _ _ _ _ nl)]
        exact hfin0
    · clear hfrL
      rw [coalesce_neither c m1 d (by rw [hr1, stR]; exact hR) (by rw [hl1, stL]; exact hL)]
      obtain ⟨-, fi⟩ := L1.insert (h := d) (j := list_index (get_size m1 d)) hW
        hsent hsep rfl
      rw [get_state_congr _ _ _ (fi d lfd n16 n24)]
      exact hfin0

theorem required_size_props (n : Nat) :
    32 ≤ required_size n ∧ required_size n % 8 = 0 ∧ required_size n < WORD := by
  unfold required_size uadd umul WORD
  simp only []
  split <;> split <;> omega

/-- The loop over the last list walks past every node that is too small. -/
theorem scan_last_skip (c : Config) (m : Mem) (r e fuel : Nat) : ∀ (xs : List Nat) (p : Nat),
    DL m e p xs → (∀ x ∈ xs, get_size m x ≠ 0 ∧ get_size m x < r) →
    scan_last c r (fuel + xs.length) m (next m p) = scan_last c r fuel m e := by
  intro xs
  induction xs with
  | nil =>
    intro p h _
    simp only [DL] at h
    simp [h.1]
  | cons x xs ih =>
    intro p h hx
    simp only [DL] at h
    obtain ⟨h1, -, h3⟩ := h
    have hxx := hx x (List.mem_cons_self _ _)
    rw [h1, List.length_cons, ← Nat.add_assoc]
    rw [scan_last, if_pos hxx.1, if_neg (by omega), if_neg (by omega)]
    exact ih x h3 (fun y hy => hx y (List.mem_cons_of_mem _ hy))

theorem scan_last_end (c : Config) (m : Mem) (r e fuel : Nat) (he : get_size m e = 0) :
    scan_last c r (fuel + 1) m e = some none := by
  rw [scan_last, if_neg (by rw [he]; exact fun h => h rfl)]

theorem WF.node_size {c : Config} {s : Alloc} {B : List Nat} {FL : Nat → List Nat}
    (wf : WF c s B FL) {j x : Nat} (hj : j < 59) (hx : x ∈ FL j) :
    32 ≤ get_size s.mem x ∧ get_size s.mem x % 8 = 0 ∧ x + get_size s.mem x ≤ WORD ∧
    (j < 58 → get_size s.mem x = 8 * (j + 3)) ∧ (j = 58 → 488 ≤ get_size s.mem x) := by
  obtain ⟨hxB, hxS, hxI⟩ := wf.listed_free j hj x hx
  obtain ⟨-, h8, h32⟩ := wf.block x hxB (by rw [hxS]; decide)
  have hW := wf.block_hi x hxB
  have hpos : 0 < x := by
    have := (wf.around hxB (by rw [hxS]; decide)).2.2.2.2
    omega
  rw [list_index_eq _ (by omega) (by omega)] at hxI
  refine ⟨h32, h8, hW, ?_, ?_⟩ <;> intro hj' <;> omega

theorem WF.sentinel_size {c : Config} {s : Alloc} {B : List Nat} {FL : Nat → List Nat}
    (wf : WF c s B FL) {j : Nat} (hj : j < 59) : get_size s.mem (sentinel c j) = 0 := by
  unfold get_size; rw [wf.sentinel_word j hj]

/-- The scan of `allocate_object` passes a list on which no block fits. -/
theorem scan_lists_skip {c : Config} {s : Alloc} {B : List Nat} {FL : Nat → List Nat}
    (wf : WF c s B FL) {r fuel j : Nat} (k : Nat) (hj : j < 59) (hr : 32 ≤ r)
    (hno : ∀ x ∈ FL j, get_size s.mem x < r) (hfuel : (FL j).length < fuel) :
    scan_lists c fuel r s.mem j (k + 1) = scan_lists c fuel r s.mem (j + 1) k := by
  have hch := wf.lists.chain j hj
  have hs0 := wf.sentinel_size hj
  have hhd := (DL_head _ _ _ _ hch).1
  rw [scan_lists]
  simp only []
  cases hl : FL j with
  | nil =>
    simp only [hl, List.nil_append, List.head_cons] at hhd
    rw [hhd, hs0]
    rw [if_neg (by omega), if_neg (by omega), if_neg (by simp)]
  | cons x xs =>
    have hx : x ∈ FL j := by rw [hl]; exact List.mem_cons_self _ _
    have hsz := wf.node_size hj hx
    have hlt := hno x hx
    simp only [hl, List.cons_append, List.head_cons] at hhd
    rw [hhd, if_neg (by omega), if_neg (by omega)]
    by_cases h58 : j = 58
    · rw [if_pos ⟨h58, by omega⟩]
      obtain ⟨f, hf⟩ : ∃ f, fuel = (f + 1) + (FL j).length := ⟨fuel - (FL j).length - 1, by omega⟩
      have := scan_last_skip c s.mem r (sentinel c j) (f + 1) (FL j) (sentinel c j) hch
        (fun y hy => ⟨by have := (wf.node_size hj hy).1; omega, hno y hy⟩)
      rw [← hf, hhd] at this
      rw [this, scan_last_end c s.mem r _ f hs0]
    · rw [if_neg (by omega)]

theorem scan_lists_skip_many {c : Config} {s : Alloc} {B : List Nat} {FL : Nat → List Nat}
    (wf : WF c s B FL) {r fuel i : Nat} (hi : i < 59) (hr : 32 ≤ r)
    (hno : ∀ j, j < i → ∀ x ∈ FL j, get_size s.mem x < r)
    (hfuel : ∀ j, j < 59 → (FL j).length < fuel) :
    ∀ t, t ≤ i → scan_lists c fuel r s.mem (i - t) (59 - i + t) =
      scan_lists c fuel r s.mem i (59 - i) := by
  intro t
  induction t with
  | zero => intro _; rfl
  | succ t ih =>
    intro ht
    have e1 : 59 - i + (t + 1) = (59 - i + t) + 1 := by omega
    have e2 : i - (t + 1) + 1 = i - t := by omega
    rw [e1, scan_lists_skip wf _ (by omega) hr (hno _ (by omega)) (hfuel _ (by omega)), e2]
    exact ih (by omega)

theorem FirstFit.pre_nil {c : Config} {s : Alloc} {B : List Nat} {FL : Nat → List Nat}
    (wf : WF c s B FL) {r i b : Nat} {pre post : List Nat}
    (ff : FirstFit s.mem FL r i pre b post) (hi : i < 58) : pre = [] := by
  cases pre with
  | nil => rfl
  | cons x xs =>
    have hx : x ∈ FL i := by rw [ff.split]; simp
    have hb : b ∈ FL i := by rw [ff.split]; simp
    have h1 := (wf.node_size ff.index hx).2.2.2.1 hi
    have h2 := (wf.node_size ff.index hb).2.2.2.1 hi
    have h3 := ff.before x (List.mem_cons_self _ _)
    have h4 := ff.fits
    omega

/-- The scan of `allocate_object` stops at the first fit and serves the request
from it. -/
theorem scan_lists_hit {c : Config} {s : Alloc} {B : List Nat} {FL : Nat → List Nat}
    (wf : WF c s B FL) {r fuel i b : Nat} {pre post : List Nat}
    (ff : FirstFit s.mem FL r i pre b post) (hfuel : (FL i).length < fuel) :
    scan_lists c fuel r s.mem i (59 - i) = some (some (served c s.mem b r i)) := by
  have hi := ff.index
  have hch := wf.lists.chain i hi
  have hhd := (DL_head _ _ _ _ hch).1
  have hb : b ∈ FL i := by rw [ff.split]; simp
  have hsb := wf.node_size hi hb
  have hfit := ff.fits
  obtain ⟨k, hk⟩ : ∃ k, 59 - i = k + 1 := ⟨58 - i, by omega⟩
  rw [hk, scan_lists]
  simp only []
  by_cases h58 : i < 58
  · have hpre := ff.pre_nil wf h58
    have hsplit := ff.split
    rw [hpre, List.nil_append] at hsplit
    simp only [hsplit, List.cons_append, List.head_cons] at hhd
    rw [hhd]
    unfold served
    by_cases hex : get_size s.mem b = r
    · rw [if_pos hex, if_pos hex]
    · rw [if_neg hex, if_neg hex, if_pos ⟨h58, by omega⟩, if_neg (by omega)]
  · have hi58 : i = 58 := by omega
    have hsplit := ff.split
    rw [hsplit, DL_append] at hch
    obtain ⟨f, hf⟩ : ∃ f, fuel = (f + 1) + pre.length := by
      have : (FL i).length = pre.length + (post.length + 1) := by rw [hsplit]; simp
      exact ⟨fuel - pre.length - 1, by omega⟩
    have hskip := scan_last_skip c s.mem r b (f + 1) pre (sentinel c i) hch.1
      (fun y hy => ⟨by
        have := (wf.node_size hi (show y ∈ FL i by rw [hsplit]; simp [hy])).1
        omega, ff.before y hy⟩)
    rw [← hf] at hskip
    have hlast : scan_last c r (f + 1) s.mem b = some (some (served c s.mem b r i)) := by
      rw [scan_last, if_pos (by omega)]
      unfold served
      by_cases hex : get_size s.mem b = r
      · rw [if_neg (by omega), if_pos hex, if_pos hex]
      · rw [if_pos (by omega), if_neg hex]
        by_cases hbig : 488 ≤ usub (get_size s.mem b) r
        · rw [if_pos hbig, if_pos ⟨hi58, hbig⟩]
        · rw [if_neg hbig, if_neg (fun h => hbig h.2)]
    rw [hlast] at hskip
    cases hp : pre with
    | nil =>
      rw [hp, List.nil_append] at hsplit
      simp only [hsplit, List.cons_append, List.head_cons] at hhd
      rw [hhd]
      by_cases hex : get_size s.mem b = r
      · rw [if_pos hex]; unfold served; rw [if_pos hex]
      · rw [if_neg hex, if_neg (by omega), if_pos ⟨hi58, by omega⟩]
        rw [hhd] at hskip
        rw [hskip]
    | cons x xs =>
      have hx : x ∈ pre := by rw [hp]; exact List.mem_cons_self _ _
      have hxi : x ∈ FL i := by rw [hsplit]; simp [hx]
      have hsx := (wf.node_size hi hxi).1
      have hlt := ff.before x hx
      rw [hp] at hsplit
      simp only [hsplit, List.cons_append, List.head_cons] at hhd
      rw [hhd, if_neg (by omega), if_neg (by omega), if_pos ⟨hi58, by omega⟩]
      rw [hhd] at hskip
      rw [hskip]

/-- The scan of `allocate_object` ends without a fit when no free block is
large enough. -/
theorem scan_lists_none {c : Config} {s : Alloc} {B : List Nat} {FL : Nat → List Nat}
    (wf : WF c s B FL) {r fuel : Nat} (hr : 32 ≤ r)
    (hno : ∀ j, j < 59 → ∀ x ∈ FL j, get_size s.mem x < r)
    (hfuel : ∀ j, j < 59 → (FL j).length < fuel) :
    scan_lists c fuel r s.mem 0 N_LISTS = some none := by
  have key : ∀ t, t ≤ 59 → scan_lists c fuel r s.mem (59 - t) t = some none := by
    intro t
    induction t with
    | zero => intro _; rw [scan_lists]
    | succ t ih =>
      intro ht
      have e : 59 - (t + 1) + 1 = 59 - t := by omega
      rw [scan_lists_skip wf t (by omega) hr (hno _ (by omega)) (hfuel _ (by omega)), e]
      exact ih (by omega)
  exact key 59 (Nat.le_refl _)

theorem LinkFree.mono2 {c : Config} {FL FL' : Nat → List Nat} {a : Nat} (h : LinkFree c FL a)
    (hsub : ∀ j, j < 59 → ∀ y ∈ FL' j, ∃ k, k < 59 ∧ y ∈ FL k) : LinkFree c FL' a := by
  refine ⟨fun j hj y hy => ?_, h.2⟩
  obtain ⟨k, hk, hyk⟩ := hsub j hj y hy
  exact h.1 k hk y hyk

/-- The tail carving writes the header of the allocated block at the right end
of the shrunk block and the boundary tag of the block after it. -/
theorem carve_eq (m : Mem) (b r q : Nat) (hq : get_size m b = q) (hq0 : 0 < q)
    (hr : r % 4 = 0) (hr0 : 32 ≤ r) (hW : b + q + r + 8 < WORD) :
    carve m b r = (b + q + 16,
      store (store (store (store m (b + q) (r + m (b + q) % 4)) (b + q) (r + 1))
        (b + q + 8) q) (b + q + r + 8) r) := by
  have e0 : get_right_header m b = b + q := by
    rw [get_right_header_eq _ _ (by omega), hq]
  have e1 : r / 4 * 4 = r := by omega
  have e2 : set_size m (b + q) r = store m (b + q) (r + m (b + q) % 4) := by
    unfold set_size; rw [e1]
  have e3 : set_state (store m (b + q) (r + m (b + q) % 4)) (b + q) ALLOCATED =
      store (store m (b + q) (r + m (b + q) % 4)) (b + q) (r + 1) := by
    unfold set_state ALLOCATED; rw [store_eq]
    have : (r + m (b + q) % 4) / 4 * 4 = r := by omega
    rw [this]
  have e4 : get_size (store (store m (b + q) (r + m (b + q) % 4)) (b + q) (r + 1)) b = q := by
    rw [get_size_congr _ _ _ (store_ne _ _ _ _ (by omega)),
      get_size_congr _ _ _ (store_ne _ _ _ _ (by omega)), hq]
  have e5 : get_size (store (store (store m (b + q) (r + m (b + q) % 4)) (b + q) (r + 1))
      (b + q + 8) q) (b + q) = r := by
    rw [get_size_congr _ _ _ (store_ne _ _ _ _ (by omega))]
    unfold get_size; rw [store_eq]; omega
  have e6 : get_right_header (store (store (store m (b + q) (r + m (b + q) % 4)) (b + q) (r + 1))
      (b + q + 8) q) (b + q) = b + q + r := by
    rw [get_right_header_eq _ _ (by rw [e5]; omega), e5]
  have e7 : set_left_size (store (store m (b + q) (r + m (b + q) % 4)) (b + q) (r + 1))
      (b + q) q = store (store (store m (b + q) (r + m (b + q) % 4)) (b + q) (r + 1))
      (b + q + 8) q := set_left_size_eq _ _ _ (by omega)
  have e8 : padd (b + q) ALLOC_HEADER_SIZE = b + q + 16 :=
    padd_eq _ _ (by unfold ALLOC_HEADER_SIZE; omega)
  unfold carve
  simp only [e0]
  rw [e2, e3, e4, e7, e6, e5, set_left_size_eq _ (b + q + r) _ (by omega), e8]

/-- The facts about a free block `b` of a well-formed state that the round trip
uses: its header word is its size, it is on the list of its size, and neither
neighbour is free. -/
theorem WF.free_block {c : Config} {s : Alloc} {B : List Nat} {FL : Nat → List Nat}
    (wf : WF c s B FL) {i b : Nat} (hi : i < 59) (hb : b ∈ FL i) :
    b ∈ B ∧ s.mem b = get_size s.mem b ∧ get_state s.mem b ≠ FENCEPOST ∧
    list_index (get_size s.mem b) = i ∧
    get_state s.mem (b + get_size s.mem b) ≠ UNALLOCATED ∧
    get_state s.mem (b - s.mem (b + 8)) ≠ UNALLOCATED := by
  obtain ⟨hbB, hbS, hbI⟩ := wf.listed_free i hi b hb
  have hnf : get_state s.mem b ≠ FENCEPOST := by rw [hbS]; decide
  obtain ⟨-, -, -, -, h1, h2, hLB, hLs, -, -⟩ := wf.around hbB hnf
  refine ⟨hbB, ?_, hnf, hbI, wf.coalesced b hbB hbS, ?_⟩
  · unfold get_state UNALLOCATED at hbS; unfold get_size; omega
  · intro hL
    have := wf.coalesced _ hLB hL
    rw [hLs] at this
    have e : b - s.mem (b + 8) + s.mem (b + 8) = b := by omega
    rw [e] at this
    exact this hbS

/-- A header word of another block is not inside the block `b`, nor is it the
boundary tag of the block after `b`. -/
theorem WF.other_block {c : Config} {s : Alloc} {B : List Nat} {FL : Nat → List Nat}
    (wf : WF c s B FL) {b x : Nat} (hb : b ∈ B) (hnf : get_state s.mem b ≠ FENCEPOST)
    (hx : x ∈ B) (hxb : x ≠ b) :
    (x + 16 ≤ b ∨ b + get_size s.mem b ≤ x) ∧ x ≠ b + get_size s.mem b + 8 := by
  have hR := (wf.around hb hnf).2.1
  have h16 := wf.block_size hx
  have hR16 := wf.block_size hR
  constructor
  · rcases wf.disjoint x hx b hb with h | h | h
    · exact absurd h hxb
    · left; omega
    · right; omega
  · rcases wf.disjoint x hx _ hR with h | h | h
    · omega
    · omega
    · omega

/-- The words inside a free block beyond its first 32 bytes are no link
words. -/
theorem WF.linkFree_inside {c : Config} {s : Alloc} {B : List Nat} {FL : Nat → List Nat}
    (wf : WF c s B FL) {i b a : Nat} (hi : i < 59) (hb : b ∈ FL i)
    (h1 : b + 32 ≤ a) (h2 : a < b + get_size s.mem b) : LinkFree c FL a := by
  obtain ⟨hbB, -, hnf, -, -, -⟩ := wf.free_block hi hb
  have hs := wf.block_sent b hbB
  refine ⟨fun j hj y hy => ?_, fun j hj => by omega⟩
  obtain ⟨hyB, hyS, _⟩ := wf.listed_free j hj y hy
  have hy32 := (wf.block y hyB (by rw [hyS]; decide)).2.2
  by_cases hyb : y = b
  · subst hyb; omega
  · have := (wf.other_block hbB hnf hyB hyb).1
    rcases wf.disjoint y hyB b hbB with h | h | h
    · exact absurd h hyb
    · omega
    · omega

/-- Moving a node to the head of its list keeps the members and the length. -/
theorem mem_head_erase {l : List Nat} {b : Nat} (hb : b ∈ l) :
    (∀ x, x ∈ b :: l.erase b ↔ x ∈ l) ∧ (b :: l.erase b).length = l.length := by
  constructor
  · intro x
    by_cases hx : x = b
    · subst hx; simp [hb]
    · simp [hx, List.mem_erase_of_ne hx]
  · rw [List.length_cons, List.length_erase_of_mem hb]
    have := List.length_pos_of_mem hb
    omega

/-- The index after a node was unlinked and inserted again at the head of the
same list. -/
theorem moved_to_head {FL : Nat → List Nat} {i b : Nat} (hb : b ∈ FL i) (j : Nat) :
    (∀ x, x ∈ Function.update (Function.update FL i ((FL i).erase b)) i
        (b :: Function.update FL i ((FL i).erase b) i) j ↔ x ∈ FL j) ∧
    (Function.update (Function.update FL i ((FL i).erase b)) i
        (b :: Function.update FL i ((FL i).erase b) i) j).length = (FL j).length := by
  by_cases hji : j = i
  · subst hji
    simp only [Function.update_same]
    exact mem_head_erase hb
  · simp [Function.update_noteq hji]

/-- The round trip through the exact-fit path: the block is unlinked, marked,
and on `free` inserted again at the head of its list. -/
theorem roundtrip_exact {c : Config} {s : Alloc} {B : List Nat} {FL : Nat → List Nat}
    (wf : WF c s B FL) {i b : Nat} (hi : i < 59) (hb : b ∈ FL i) :
    ∃ mF FLf, deallocate_object c
        { s with mem := set_state (break_helper s.mem b) b ALLOCATED }
        (padd b ALLOC_HEADER_SIZE) = FreeResult.returned { s with mem := mF } ∧
      Restored c s.mem mF FL FLf := by
  obtain ⟨hbB, hword, hnf, hidx, hRs, hLs⟩ := wf.free_block hi hb
  obtain ⟨hsb, hRB, hRW, -, hl1, hl2, hLB, -, hrh, hlh⟩ := wf.around hbB hnf
  obtain ⟨lfb, lfb8⟩ := wf.linkFree hbB
  have lfR := (wf.linkFree hRB).1
  have lfL := (wf.linkFree hLB).1
  obtain ⟨Lb, fb⟩ := wf.lists.break hi hb
  have hp : padd b ALLOC_HEADER_SIZE = b + 16 := padd_eq _ _ (by unfold ALLOC_HEADER_SIZE; omega)
  have hd : psub (b + 16) ALLOC_HEADER_SIZE = b := by
    unfold ALLOC_HEADER_SIZE; rw [psub_eq _ _ (by omega) (by omega)]; omega
  have hbw : break_helper s.mem b b = s.mem b := fb b lfb
  have hst1 : get_state (set_state (break_helper s.mem b) b ALLOCATED) b ≠ UNALLOCATED := by
    unfold get_state set_state ALLOCATED UNALLOCATED; rw [store_eq]; omega
  have hback : set_state (set_state (break_helper s.mem b) b ALLOCATED) b UNALLOCATED =
      break_helper s.mem b := by
    funext a
    unfold set_state ALLOCATED UNALLOCATED
    by_cases ha : a = b
    · rw [ha, store_eq, store_eq, hbw]; unfold get_size at hword; omega
    · rw [store_ne _ _ _ _ ha, store_ne _ _ _ _ ha]
  have hb8 : padd b 8 = b + 8 := padd_eq _ _ (by omega)
  have hR1 : get_state (break_helper s.mem b) (get_right_header (break_helper s.mem b) b) ≠
      UNALLOCATED := by
    rw [get_right_header_congr _ _ _ hbw, hrh, get_state_congr _ _ _ (fb _ lfR)]; exact hRs
  have hL1 : get_state (break_helper s.mem b) (get_left_header (break_helper s.mem b) b) ≠
      UNALLOCATED := by
    rw [get_left_header_congr s.mem _ b (by rw [hb8]; exact fb _ lfb8), hlh,
      get_state_congr _ _ _ (fb _ lfL)]
    exact hLs
  obtain ⟨Li, fi⟩ := Lb.insert (h := b) (j := i) (wf.lists.node_hi i hi b hb)
    (wf.lists.node_sent i hi b hb) (erase_sep wf.lists hi hb)
    (by rw [get_size_congr _ _ _ hbw]; exact hidx)
  refine ⟨insert_helper c (break_helper s.mem b) b, _, ?_, Li, ?_, ?_, ?_⟩
  · unfold deallocate_object
    rw [hp, if_neg (by unfold NULL; omega)]
    simp only [hd]
    rw [if_neg hst1, hback, coalesce_neither c _ b hR1 hL1]
  · exact fun j _ => (moved_to_head hb j).1
  · exact fun j _ => (moved_to_head hb j).2
  · intro j hj x hx
    have lfx := (wf.linkFree (wf.listed_free j hj x hx).1).1
    have hxb := lfx.obj (Or.inl ⟨i, hi, hb⟩)
    rw [get_size_congr _ _ _ (fi x (lfx.erase i b) hxb.1 hxb.2), get_size_congr _ _ _ (fb x lfx)]

theorem store3_frame (m m' : Mem) (x vx y vy z vz a : Nat) (h : m' a = m a) :
    store (store (store m' x vx) y vy) z vz a = store (store (store m x vx) y vy) z vz a := by
  by_cases h1 : a = z
  · rw [h1, store_eq, store_eq]
  · rw [store_ne _ _ _ _ h1, store_ne _ _ _ _ h1]
    exact store2_frame _ _ _ _ _ _ _ h

/-- The header of the carved block after `free` has marked it `UNALLOCATED`
again: the net effect of the carving and the marking on the memory. -/
theorem carved_then_marked (m : Mem) (A q r R8 g1 a : Nat) (hr : r % 4 = 0)
    (h1 : A ≠ A + 8) (h2 : A ≠ R8) :
    set_state (store (store (store (store m A g1) A (r + 1)) (A + 8) q) R8 r) A UNALLOCATED a =
      store (store (store m A r) (A + 8) q) R8 r a := by
  unfold set_state UNALLOCATED
  rw [store_ne _ R8 _ A h2, store_ne _ (A + 8) _ A h1, store_eq]
  have e : (r + 1) / 4 * 4 + 0 = r := by omega
  rw [e]
  by_cases ha : a = A
  · rw [ha, store_eq, store_ne _ R8 _ A h2, store_ne _ (A + 8) _ A h1, store_eq]
  · rw [store_ne _ _ _ _ ha]
    by_cases hb : a = R8
    · rw [hb, store_eq, store_eq]
    · rw [store_ne _ _ _ _ hb, store_ne _ _ _ _ hb]
      by_cases hc : a = A + 8
      · rw [hc, store_eq, store_eq]
      · rw [store_ne _ _ _ _ hc, store_ne _ _ _ _ hc, store_ne _ _ _ _ ha,
          store_ne _ _ _ _ ha, store_ne _ _ _ _ ha]

/-- The values of the header view after a split: the shrunk block `b` of size
`q`, the carved block at `b + q` of size `r`, and the untouched word of the
block after it. -/
theorem view_values (m : Mem) (b q r : Nat) (hq : 32 ≤ q) (hr : 32 ≤ r) :
    store (store (store (store m b q) (b + q) r) (b + q + 8) q) (b + q + r + 8) r b = q ∧
    store (store (store (store m b q) (b + q) r) (b + q + 8) q) (b + q + r + 8) r (b + q) = r ∧
    store (store (store (store m b q) (b + q) r) (b + q + 8) q) (b + q + r + 8) r (b + q + 8)
      = q ∧
    store (store (store (store m b q) (b + q) r) (b + q + 8) q) (b + q + r + 8) r (b + q + r)
      = m (b + q + r) ∧
    (∀ x, x ≠ b → x ≠ b + q → x ≠ b + q + 8 → x ≠ b + q + r + 8 →
      store (store (store (store m b q) (b + q) r) (b + q + 8) q) (b + q + r + 8) r x = m x) := by
  refine ⟨?_, ?_, ?_, ?_, ?_⟩
  · rw [store_ne _ _ _ _ (by omega), store_ne _ _ _ _ (by omega), store_ne _ _ _ _ (by omega),
      store_eq]
  · rw [store_ne _ _ _ _ (by omega), store_ne _ _ _ _ (by omega), store_eq]
  · rw [store_ne _ _ _ _ (by omega), store_eq]
  · rw [store_ne _ _ _ _ (by omega), store_ne _ _ _ _ (by omega), store_ne _ _ _ _ (by omega),
      store_ne _ _ _ _ (by omega)]
  · intro x h1 h2 h3 h4
    rw [store_ne _ _ _ _ h4, store_ne _ _ _ _ h3, store_ne _ _ _ _ h2, store_ne _ _ _ _ h1]

/-- Arithmetic of splitting `r` bytes off the right end of a block `b` of
`q + r` bytes whose right neighbour has a header below `WORD`. -/
theorem split_arith (b q r : Nat) (hq32 : 32 ≤ q) (hr32 : 32 ≤ r) (hr8 : r % 8 = 0)
    (hs8 : (q + r) % 8 = 0) (hRW : b + (q + r) + 16 ≤ WORD) :
    (q % 8 = 0 ∧ b + 32 ≤ b + q ∧ b + q < b + (q + r) ∧ b + 32 ≤ b + q + 8 ∧
      b + q + 8 < b + (q + r) ∧ r ≤ q + r ∧ q + r < WORD ∧ q + r - r = q ∧ q / 4 * 4 = q) ∧
    (q / 4 * 4 + (q + r) % 4 = q ∧ q + r ≠ r ∧ 0 < q ∧ r % 4 = 0 ∧ b + q + r + 8 < WORD ∧
      q % 4 = 0 ∧ r / 4 * 4 = r ∧ b + q + r < WORD ∧ b + q + 8 < WORD) ∧
    (q ≤ b + q ∧ b + (q + r) + 8 < WORD ∧ 16 ≤ b + q + 16 ∧ b + q + 16 < WORD ∧
      b + q + 16 ≠ 0 ∧ (r + 1) % 4 ≠ 0 ∧ (q + r) / 4 * 4 = q + r ∧ b ≠ b + (q + r) + 8) ∧
    b ≠ b + q ∧ b ≠ b + q + 8 ∧ b ≠ b + q + r + 8 ∧ b + q ≠ b + q + 8 ∧
    b + q ≠ b + q + r + 8 ∧ b + q + 8 ≠ b + q + r + 8 := by
  refine ⟨⟨?_, ?_, ?_, ?_, ?_, ?_, ?_, ?_, ?_⟩, ⟨?_, ?_, ?_, ?_, ?_, ?_, ?_, ?_, ?_⟩,
    ⟨?_, ?_, ?_, ?_, ?_, ?_, ?_, ?_⟩, ?_, ?_, ?_, ?_, ?_, ?_⟩ <;> omega

/-- A block apart from the block `b` of `q + r` bytes is none of the header
words inside it. -/
theorem other_ne (b q r x : Nat) (hr32 : 32 ≤ r)
    (h1 : x + 16 ≤ b ∨ b + (q + r) ≤ x) (h2 : x ≠ b + (q + r) + 8) :
    x ≠ b + q ∧ x ≠ b + q + 8 ∧ x ≠ b + q + r + 8 := by
  refine ⟨?_, ?_, ?_⟩ <;> omega

/-- A block of one of the exact-size lists leaves a remainder below 488. -/
theorem small_arith (q r i : Nat) (h : q + r = 8 * (i + 3)) (h58 : i < 58) (hr32 : 32 ≤ r) :
    q < 488 := by
  omega

/-- The round trip through the split path that shrinks the block in place (the
remainder stays on the last list): `free` merges the carved block back. -/
theorem roundtrip_inplace {c : Config} {s : Alloc} {B : List Nat} {FL : Nat → List Nat}
    (wf : WF c s B FL) {i b r q : Nat} (hi : i < 59) (hb : b ∈ FL i)
    (hr32 : 32 ≤ r) (hr8 : r % 8 = 0) (hq : get_size s.mem b = q + r) (hq32 : 32 ≤ q)
    (hcond : i = 58 ∧ 488 ≤ usub (get_size s.mem b) r) :
    ∃ mF FLf, deallocate_object c { s with mem := (served c s.mem b r i).2 }
        (served c s.mem b r i).1 = FreeResult.returned { s with mem := mF } ∧
      Restored c s.mem mF FL FLf := by
  obtain ⟨hbB, hword, hnf, -, hRs, -⟩ := wf.free_block hi hb
  obtain ⟨hsb, hRB, hRW, -, -, -, -, -, -, -⟩ := wf.around hbB hnf
  obtain ⟨lfb, lfb8⟩ := wf.linkFree hbB
  obtain ⟨lfR, lfR8⟩ := wf.linkFree hRB
  have hs8 := (wf.node_size hi hb).2.1
  rw [hq] at hs8 hRW
  obtain ⟨⟨-, g1, g2, g3, g4, g5, g6, g7, g8⟩, ⟨g9, g10, g11, g12, g13, g14, g15, g16, g17⟩,
    ⟨k1, k2, k3, k4, k5, k6, k7, k8⟩, n1, n2, n3, n4, n5, n6⟩ :=
    split_arith b q r hq32 hr32 hr8 hs8 hRW
  clear hs8
  have lfA : LinkFree c FL (b + q) := wf.linkFree_inside hi hb g1 (by rw [hq]; exact g2)
  have lfA8 : LinkFree c FL (b + q + 8) := wf.linkFree_inside hi hb g3 (by rw [hq]; exact g4)
  rw [hq] at hRs lfR8 hcond
  rw [← Nat.add_assoc] at hRs hRW lfR8
  have hus : usub (q + r) r = q := by rw [usub_eq _ _ g5 g6]; exact g7
  rw [hus] at hcond
  have hm' : set_size s.mem b q = store s.mem b q := by
    unfold set_size
    rw [hword, hq, g9]
  have hserved : served c s.mem b r i =
      (b + q + 16, store (store (store (store (store s.mem b q) (b + q)
        (r + store s.mem b q (b + q) % 4)) (b + q) (r + 1)) (b + q + 8) q) (b + q + r + 8) r) := by
    unfold served
    rw [if_neg (by rw [hq]; exact g10), hq, hus, if_pos hcond, hm']
    exact carve_eq _ b r q (by unfold get_size; rw [store_eq]; exact g8) g11 g12
      hr32 g13
  rw [hserved]
  simp only []
  -- the memory after `free` has marked the carved block
  have hmark : set_state (store (store (store (store (store s.mem b q) (b + q)
        (r + store s.mem b q (b + q) % 4)) (b + q) (r + 1)) (b + q + 8) q) (b + q + r + 8) r)
        (b + q) UNALLOCATED =
      store (store (store (store s.mem b q) (b + q) r) (b + q + 8) q) (b + q + r + 8) r :=
    funext fun a => carved_then_marked _ _ _ _ _ _ a g12 n4 n5
  obtain ⟨vb, vA, vA8, vR, vx⟩ := view_values s.mem b q r hq32 hr32
  generalize hH : store (store (store (store s.mem b q) (b + q) r) (b + q + 8) q)
    (b + q + r + 8) r = H at hmark vb vA vA8 vR vx
  have gA : get_size H (b + q) = r := by unfold get_size; rw [vA]; exact g15
  have gb : get_size H b = q := by unfold get_size; rw [vb]; exact g8
  have hco := coalesce_left_inplace c H (b + q) b
    (by rw [get_right_header_eq _ _ (by rw [gA]; exact g16), gA]
        unfold get_state at hRs ⊢; rw [vR]; exact hRs)
    (by rw [get_left_header_eq _ _ g17 (by rw [vA8]; exact g11) (by rw [vA8]; exact k1), vA8]
        exact Nat.add_sub_cancel _ _)
    (by unfold get_state UNALLOCATED; rw [vb]; exact g14) (by rw [gb]; exact hcond.2)
    (by rw [gb, gA]; exact k2)
  rw [gb, gA, vb] at hco
  rw [g14, Nat.add_zero] at hco
  have hp : psub (b + q + 16) ALLOC_HEADER_SIZE = b + q := by
    unfold ALLOC_HEADER_SIZE; rw [psub_eq _ _ k3 k4]; exact Nat.add_sub_cancel _ _
  refine ⟨store (store H b (q + r)) (b + (q + r) + 8) (q + r), FL, ?_, ?_, fun _ _ _ => Iff.rfl,
    fun _ _ => rfl, ?_⟩
  · unfold deallocate_object
    rw [if_neg (by unfold NULL; exact k5)]
    simp only [hp]
    rw [if_neg (by
      unfold get_state UNALLOCATED
      rw [store_ne _ _ _ _ n5, store_ne _ _ _ _ n4, store_eq]; exact k6),
      hmark, hco]
  · apply wf.lists.congr
    intro a ha
    have h1 : a ≠ b := fun h => ha (h ▸ lfb)
    have h2 : a ≠ b + q := fun h => ha (h ▸ lfA)
    have h3 : a ≠ b + q + 8 := fun h => ha (h ▸ lfA8)
    have h4 : a ≠ b + q + r + 8 := fun h => ha (h ▸ lfR8)
    rw [store_ne _ _ _ _ (by rw [← Nat.add_assoc]; exact h4), store_ne _ _ _ _ h1]
    exact vx a h1 h2 h3 h4
  · intro j hj x hx
    have hxB := (wf.listed_free j hj x hx).1
    by_cases hxb : x = b
    · rw [hxb, get_size_congr _ _ _ (store_ne _ _ _ _ k8)]
      unfold get_size at hq ⊢; rw [store_eq, hq]; exact k7
    · have ho := wf.other_block hbB hnf hxB hxb
      rw [hq] at ho
      obtain ⟨o1, o2, o3⟩ := other_ne b q r x hr32 ho.1 ho.2
      rw [get_size_congr _ _ _ (store_ne _ _ _ _ ho.2),
        get_size_congr _ _ _ (store_ne _ _ _ _ hxb)]
      exact get_size_congr _ _ _ (vx x hxb o1 o2 o3)

theorem update_erase_head {FLa : Nat → List Nat} {j1 b : Nat} :
    Function.update (Function.update FLa j1 (b :: FLa j1)) j1
      ((Function.update FLa j1 (b :: FLa j1) j1).erase b) = FLa := by
  funext j
  by_cases h : j = j1
  · subst h; simp
  · simp [Function.update_noteq h]

/-- The round trip through the split path that moves the shrunk block to the
list of its new size: `free` unlinks it there, merges the carved block back and
inserts it at the head of its old list. -/
theorem roundtrip_relink {c : Config} {s : Alloc} {B : List Nat} {FL : Nat → List Nat}
    (wf : WF c s B FL) {i b r q : Nat} (hi : i < 59) (hb : b ∈ FL i)
    (hr32 : 32 ≤ r) (hr8 : r % 8 = 0) (hq : get_size s.mem b = q + r) (hq32 : 32 ≤ q)
    (hcond : ¬ (i = 58 ∧ 488 ≤ usub (get_size s.mem b) r)) :
    ∃ mF FLf, deallocate_object c { s with mem := (served c s.mem b r i).2 }
        (served c s.mem b r i).1 = FreeResult.returned { s with mem := mF } ∧
      Restored c s.mem mF FL FLf := by
  obtain ⟨hbB, hword, hnf, hidx, hRs, -⟩ := wf.free_block hi hb
  obtain ⟨hsb, hRB, hRW, -, -, -, -, -, -, -⟩ := wf.around hbB hnf
  obtain ⟨lfb, lfb8⟩ := wf.linkFree hbB
  obtain ⟨lfR, lfR8⟩ := wf.linkFree hRB
  obtain ⟨-, hs8, -, hsmall, -⟩ := wf.node_size hi hb
  obtain ⟨⟨-, g1, g2, g3, g4, g5, g6, g7, g8⟩, ⟨g9, g10, g11, g12, g13, g14, g15, g16, g17⟩,
    ⟨k1, k2, k3, k4, k5, k6, k7, k8⟩, n1, n2, n3, n4, n5, n6⟩ :=
    split_arith b q r hq32 hr32 hr8 (hq ▸ hs8) (hq ▸ hRW)
  clear hs8
  have lfA : LinkFree c FL (b + q) := wf.linkFree_inside hi hb g1 (by rw [hq]; exact g2)
  have lfA8 : LinkFree c FL (b + q + 8) := wf.linkFree_inside hi hb g3 (by rw [hq]; exact g4)
  have hus : usub (q + r) r = q := by rw [usub_eq _ _ g5 g6]; exact g7
  have hneg : ∀ x y : Mem,
      (if i = 58 ∧ 488 ≤ usub (get_size s.mem b) r then x else y) = y :=
    fun _ _ => if_neg hcond
  have hq488 : q < 488 := by
    rw [hq, hus] at hcond
    by_cases h58 : i < 58
    · have := hsmall h58
      rw [hq] at this
      exact small_arith q r i this h58 hr32
    · have : i = 58 := Nat.le_antisymm (Nat.lt_succ_iff.mp hi) (Nat.not_lt.mp h58)
      exact Nat.not_le.mp (fun h => hcond ⟨this, h⟩)
  clear hsmall hcond
  rw [hq] at hRs hRW lfR lfR8 hidx
  rw [← Nat.add_assoc] at hRs hRW lfR lfR8
  obtain ⟨Lb, fb⟩ := wf.lists.break hi hb
  have hbw : break_helper s.mem b b = s.mem b := fb b lfb
  have hq4 : q % 4 = 0 := g14
  have hm2 : set_size (break_helper s.mem b) b (usub (get_size (break_helper s.mem b) b) r) =
      store (break_helper s.mem b) b q := by
    rw [get_size_congr _ _ _ hbw, hq, hus]
    unfold set_size
    rw [hbw, hword, hq, g9]
  have Lb2 := Lb.store q (lfb.erase i b)
  have gs2 : get_size (store (break_helper s.mem b) b q) b = q := by
    unfold get_size; rw [store_eq]; exact g8
  obtain ⟨Li, fi⟩ := Lb2.insert (h := b) (j := list_index q) (wf.lists.node_hi i hi b hb)
    (wf.lists.node_sent i hi b hb) (erase_sep wf.lists hi hb) (by rw [gs2])
  -- on header words the memory after the relinking is the old one with `b` shrunk
  have hview0 : ∀ a, LinkFree c FL a →
      insert_helper c (store (break_helper s.mem b) b q) b a = store s.mem b q a := by
    intro a ha
    have hab := ha.obj (Or.inl ⟨i, hi, hb⟩)
    rw [fi a (ha.erase i b) hab.1 hab.2]
    by_cases h : a = b
    · rw [h, store_eq, store_eq]
    · rw [store_ne _ _ _ _ h, store_ne _ _ _ _ h, fb a ha]
  generalize hm' : insert_helper c (store (break_helper s.mem b) b q) b = m' at Li fi hview0
  have gsb : get_size m' b = q := by
    unfold get_size; rw [hview0 b lfb, store_eq]; exact g8
  have hserved : served c s.mem b r i =
      (b + q + 16, store (store (store (store m' (b + q) (r + m' (b + q) % 4)) (b + q) (r + 1))
        (b + q + 8) q) (b + q + r + 8) r) := by
    unfold served
    rw [if_neg (by rw [hq]; exact g10), hneg, hm2, hm']
    exact carve_eq _ b r q gsb g11 g12 hr32 g13
  rw [hserved]
  simp only []
  have hmark : set_state (store (store (store (store m' (b + q) (r + m' (b + q) % 4)) (b + q)
        (r + 1)) (b + q + 8) q) (b + q + r + 8) r) (b + q) UNALLOCATED =
      store (store (store m' (b + q) r) (b + q + 8) q) (b + q + r + 8) r :=
    funext fun a => carved_then_marked _ _ _ _ _ _ a g12 n4 n5
  have hview : ∀ a, LinkFree c FL a →
      store (store (store m' (b + q) r) (b + q + 8) q) (b + q + r + 8) r a =
      store (store (store (store s.mem b q) (b + q) r) (b + q + 8) q) (b + q + r + 8) r a :=
    fun a ha => store3_frame _ _ _ _ _ _ _ _ _ (hview0 a ha)
  -- the index after the relinking has the nodes of the old one
  have hsub : ∀ j, j < 59 → ∀ y ∈ Function.update (Function.update FL i ((FL i).erase b))
      (list_index q) (b :: Function.update FL i ((FL i).erase b) (list_index q)) j,
      ∃ k, k < 59 ∧ y ∈ FL k := by
    intro j hj y hy
    rcases mem_update_cons.mp hy with ⟨-, hyb⟩ | hy
    · exact ⟨i, hi, hyb ▸ hb⟩
    · by_cases hji : j = i
      · subst hji; simp only [Function.update_same] at hy
        exact ⟨j, hj, List.mem_of_mem_erase hy⟩
      · simp only [Function.update_noteq hji] at hy
        exact ⟨j, hj, hy⟩
  have L1 := ((Li.store r (lfA.mono2 hsub)).store q (lfA8.mono2 hsub)).store r (lfR8.mono2 hsub)
  obtain ⟨vb, vA, vA8, vR, vx⟩ := view_values s.mem b q r hq32 hr32
  generalize hM : store (store (store m' (b + q) r) (b + q + 8) q) (b + q + r + 8) r = M
    at hmark hview L1
  rw [← hview b lfb] at vb
  rw [← hview _ lfA] at vA
  rw [← hview _ lfA8] at vA8
  rw [← hview _ lfR] at vR
  have gA : get_size M (b + q) = r := by unfold get_size; rw [vA]; exact g15
  have gb : get_size M b = q := by unfold get_size; rw [vb]; exact g8
  obtain ⟨Lf, ff⟩ := coalesce_left_relink (d := b + q) (l := b) L1 (list_index_lt q)
    (by simp)
    (by rw [get_right_header_eq _ _ (by rw [gA]; exact g16), gA]
        unfold get_state at hRs ⊢; rw [vR]; exact hRs)
    (by rw [get_left_header_eq _ _ g17 (by rw [vA8]; exact g11) (by rw [vA8]; exact k1), vA8]
        exact Nat.add_sub_cancel _ _)
    (by unfold get_state UNALLOCATED; rw [vb]; exact g14) (by rw [gb]; exact hq488)
    (by rw [gb]) (by rw [gA]; exact lt_of_lt_of_le (by decide) hr32) (by rw [gb, gA]; exact k2)
    (lfb.mono2 hsub) (lfA.mono2 hsub) (lfA8.mono2 hsub)
    (by rw [gb, gA, ← Nat.add_assoc]; exact lfR8.mono2 hsub)
  rw [gb, gA, update_erase_head, hidx] at Lf
  simp only [gb, gA, vb, hq4, Nat.add_zero] at ff
  have hp : psub (b + q + 16) ALLOC_HEADER_SIZE = b + q := by
    unfold ALLOC_HEADER_SIZE; rw [psub_eq _ _ k3 k4]; exact Nat.add_sub_cancel _ _
  refine ⟨coalesce c M (b + q), _, ?_, Lf, fun j _ => (moved_to_head hb j).1,
    fun j _ => (moved_to_head hb j).2, ?_⟩
  · unfold deallocate_object
    rw [if_neg (by unfold NULL; exact k5)]
    simp only [hp]
    rw [if_neg (by
      unfold get_state UNALLOCATED
      rw [store_ne _ _ _ _ n5, store_ne _ _ _ _ n4, store_eq]; exact k6),
      hmark]
  · intro j hj x hx
    have hxB := (wf.listed_free j hj x hx).1
    have lfx := (wf.linkFree hxB).1
    rw [get_size_congr _ _ _ (ff x (lfx.mono2 hsub))]
    by_cases hxb : x = b
    · rw [hxb, get_size_congr _ _ _ (store_ne _ _ _ _ k8)]
      unfold get_size at hq ⊢; rw [store_eq, hq]; exact k7
    · have ho := wf.other_block hbB hnf hxB hxb
      rw [hq] at ho
      obtain ⟨o1, o2, o3⟩ := other_ne b q r x hr32 ho.1 ho.2
      rw [get_size_congr _ _ _ (store_ne _ _ _ _ ho.2),
        get_size_congr _ _ _ (store_ne _ _ _ _ hxb), get_size_congr _ _ _ (hview x lfx)]
      exact get_size_congr _ _ _ (vx x hxb o1 o2 o3)

theorem list_blocks_eq (m : Mem) (e : Nat) : ∀ (xs : List Nat) (fuel p : Nat), DL m e p xs →
    e ∉ xs → xs.length < fuel → list_blocks m e fuel (next m p) = xs := by
  intro xs
  induction xs with
  | nil =>
    intro fuel p h _ hf
    simp only [DL] at h
    obtain ⟨f, rfl⟩ : ∃ f, fuel = f + 1 := ⟨fuel - 1, by simp at hf; omega⟩
    rw [h.1, list_blocks, if_pos rfl]
  | cons x xs ih =>
    intro fuel p h he hf
    simp only [DL] at h
    obtain ⟨f, rfl⟩ : ∃ f, fuel = f + 1 := ⟨fuel - 1, by simp at hf; omega⟩
    have hxe : x ≠ e := fun hxe => he (hxe ▸ List.mem_cons_self _ _)
    rw [h.1, list_blocks, if_neg hxe,
      ih f x h.2.2 (fun h' => he (List.mem_cons_of_mem _ h')) (by simp at hf; omega)]

theorem free_blocks_mem {c : Config} {m : Mem} {FL : Nat → List Nat} (L : Lists c m FL)
    {fuel : Nat} (hfuel : ∀ j, j < 59 → (FL j).length < fuel) :
    ∀ (k i : Nat), i + k ≤ 59 → ∀ x,
      x ∈ free_blocks c fuel m i k ↔ ∃ j, i ≤ j ∧ j < i + k ∧ x ∈ FL j := by
  intro k
  induction k with
  | zero =>
    intro i _ x
    simp only [free_blocks, List.not_mem_nil, false_iff]
    rintro ⟨j, h1, h2, -⟩; omega
  | succ k ih =>
    intro i hik x
    have hi : i < 59 := by omega
    have hs : sentinel c i ∉ FL i := by
      intro h
      have := L.node_sent i hi _ h
      rw [sentinel_eq c i L.sent_hi hi] at this
      omega
    rw [free_blocks, List.mem_append,
      list_blocks_eq m _ (FL i) fuel _ (L.chain i hi) hs (hfuel i hi), ih (i + 1) (by omega)]
    constructor
    · rintro (h | ⟨j, h1, h2, h3⟩)
      · exact ⟨i, Nat.le_refl _, by omega, h⟩
      · exact ⟨j, by omega, by omega, h3⟩
    · rintro ⟨j, h1, h2, h3⟩
      by_cases hji : j = i
      · left; rw [← hji]; exact h3
      · right; exact ⟨j, by omega, by omega, h3⟩

theorem free_extents_mem {c : Config} {m : Mem} {FL : Nat → List Nat} (L : Lists c m FL)
    {fuel : Nat} (hfuel : ∀ j, j < 59 → (FL j).length < fuel) (e : Nat × Nat) :
    e ∈ free_extents c fuel m ↔ ∃ j, j < 59 ∧ ∃ x ∈ FL j, (x, x + get_size m x) = e := by
  unfold free_extents N_LISTS
  rw [List.mem_map]
  constructor
  · rintro ⟨x, hx, he⟩
    obtain ⟨j, -, hj, hxj⟩ := (free_blocks_mem L hfuel 59 0 (by omega) x).mp hx
    exact ⟨j, by omega, x, hxj, he⟩
  · rintro ⟨j, hj, x, hxj, he⟩
    exact ⟨x, (free_blocks_mem L hfuel 59 0 (by omega) x).mpr ⟨j, by omega, by omega, hxj⟩, he⟩

/-- A restored memory has the free extents of the old one. -/
theorem Restored.extents {c : Config} {m mF : Mem} {FL FLf : Nat → List Nat}
    (h : Restored c m mF FL FLf) (L : Lists c m FL) {fuel : Nat}
    (hfuel : ∀ j, j < 59 → (FL j).length < fuel) (e : Nat × Nat) :
    e ∈ free_extents c fuel mF ↔ e ∈ free_extents c fuel m := by
  rw [free_extents_mem h.lists (fun j hj => by rw [h.len j hj]; exact hfuel j hj),
    free_extents_mem L hfuel]
  constructor
  · rintro ⟨j, hj, x, hx, he⟩
    have hx' := (h.same j hj x).mp hx
    exact ⟨j, hj, x, hx', by rw [← h.size j hj x hx']; exact he⟩
  · rintro ⟨j, hj, x, hx, he⟩
    exact ⟨j, hj, x, (h.same j hj x).mpr hx, by rw [h.size j hj x hx]; exact he⟩

/-! ## Concrete well-formed states -/

set_option maxRecDepth 100000 in
theorem live_state_wf : WF cfg (after_calls [65536] [Call.allocate 24])
    [65536, 65552, 69576, 69616] (fun i => if i = 58 then [65552] else []) := by
  decide!

set_option maxRecDepth 100000 in
theorem fresh_wf : WF cfg (fresh [65536]) [65536, 65552, 69616]
    (fun i => if i = 58 then [65552] else []) := by
  decide!

set_option maxRecDepth 100000 in
theorem fresh_first_fit : FirstFit (fresh [65536]).mem (fun i => if i = 58 then [65552] else [])
    (required_size 24) 58 [] 65552 [] := by
  constructor <;> decide!

set_option maxRecDepth 100000 in
theorem full_state_wf : WF cfg (after_calls [65536, 69632] [Call.allocate 4048])
    [65536, 65552, 69616] (fun _ => []) := by
  decide!

set_option maxRecDepth 100000 in
theorem exhausted_state_wf : WF cfg (after_calls [65536] [Call.allocate 4048])
    [65536, 65552, 69616] (fun _ => []) := by
  decide!

set_option maxRecDepth 100000 in
theorem one_byte_state_wf :
    WF cfg (after_calls [65536, 69632] [Call.allocate 1]) [65536, 65552, 69584, 69616]
      (fun i => if i = 58 then [65552] else []) := by
  decide!

set_option maxRecDepth 100000 in
theorem refreed_state_wf :
    WF cfg (after_calls [65536] [Call.allocate 20, Call.allocate 1, Call.free 0])
      [65536, 65552, 69544, 69576, 69616]
      (fun i => if i = 58 then [65552] else if i = 2 then [69576] else []) := by
  decide!

set_option maxRecDepth 100000 in
theorem fresh_two_wf : WF cfg (fresh [65536, 69632]) [65536, 65552, 69616]
    (fun i => if i = 58 then [65552] else []) := by
  decide!

/-- With a first fit, `my_malloc` returns what the scan serves from it, and
changes nothing but the memory. -/
theorem my_malloc_first_fit {c : Config} {s : Alloc} {B : List Nat} {FL : Nat → List Nat}
    (wf : WF c s B FL) {n fuel i b : Nat} {pre post : List Nat} (hn1 : 1 ≤ n) (hn2 : n < WORD)
    (hfuel : ∀ j, j < 59 → (FL j).length < fuel)
    (ff : FirstFit s.mem FL (required_size n) i pre b post) :
    my_malloc c fuel s n = some ((served c s.mem b (required_size n) i).1,
      { s with mem := (served c s.mem b (required_size n) i).2 }) := by
  obtain ⟨hr32, -, -⟩ := required_size_props n
  have hi := ff.index
  have hscan : scan_lists c fuel (required_size n) s.mem 0 N_LISTS =
      some (some (served c s.mem b (required_size n) i)) := by
    have h := scan_lists_skip_many wf hi hr32 ff.earlier hfuel i (Nat.le_refl _)
    have e1 : i - i = 0 := by omega
    have e2 : 59 - i + i = 59 := by omega
    rw [e1, e2] at h
    unfold N_LISTS
    rw [h]
    exact scan_lists_hit wf ff (hfuel i hi)
  unfold my_malloc allocate_object
  rw [Nat.mod_eq_of_lt hn2, if_neg (by omega)]
  simp only [hscan]

/-- Without a fit, `my_malloc` is the growth part of `allocate_object`. -/
theorem my_malloc_no_fit {c : Config} {s : Alloc} {B : List Nat} {FL : Nat → List Nat}
    (wf : WF c s B FL) {n fuel : Nat} (hn1 : 1 ≤ n) (hn2 : n < WORD)
    (hfuel : ∀ j, j < 59 → (FL j).length < fuel)
    (hno : ∀ j, j < 59 → ∀ x ∈ FL j, get_size s.mem x < required_size n) :
    my_malloc c fuel s n = grow c s (required_size n) := by
  obtain ⟨hr32, -, -⟩ := required_size_props n
  have hscan := scan_lists_none (c := c) wf hr32 hno hfuel
  unfold my_malloc allocate_object
  rw [Nat.mod_eq_of_lt hn2, if_neg (by omega)]
  simp only [hscan]

/-- The words of the memory that `allocate_chunk` leaves alone: all but the
header words it lays out in the region that `sbrk` returns. -/
theorem allocate_chunk_frame (s : Alloc) (size x : Nat)
    (hx : x ∉ chunk_cells (sbrk s).1 size) :
    (allocate_chunk s size).2.mem x = s.mem x := by
  simp only [chunk_cells, List.mem_cons, List.mem_singleton, List.not_mem_nil, or_false,
    not_or] at hx
  obtain ⟨h1, h2, h3, h4, h5, h6⟩ := hx
  have hm : (sbrk s).2.mem = s.mem := by
    unfold sbrk; cases s.os <;> rfl
  simp only [allocate_chunk, insert_fenceposts, initialize_fencepost, get_header_from_offset,
    set_left_size, set_size, set_state]
  rw [store_ne _ _ _ _ h4, store_ne _ _ _ _ h3, store_ne _ _ _ _ h3, store_ne _ _ _ _ h6,
    store_ne _ _ _ _ h5, store_ne _ _ _ _ h5, store_ne _ _ _ _ h2, store_ne _ _ _ _ h1,
    store_ne _ _ _ _ h1, hm]

/-- Merging blocks keeps a state well-formed.  The free block `X` of the new
state covers the bytes `X .. X + T`; it takes the place of the old block at `X`
and of the blocks inside that range.  All other blocks keep their header words,
up to the `left_size` of the block at `X + T`, and the free-list index `FL'` of
the new memory holds `X` on the list of the size `T` and otherwise the old nodes
outside the range. -/
theorem WF.merge {c : Config} {s : Alloc} {B : List Nat} {FL : Nat → List Nat}
    (wf : WF c s B FL) {m' : Mem} {B' : List Nat} {FL' : Nat → List Nat} {X T : Nat}
    (hX : X ∈ B) (hXnf : get_state s.mem X ≠ FENCEPOST)
    (hT8 : T % 8 = 0) (hXT : get_size s.mem X ≤ T)
    (hR : X + T ∈ B) (hRst : get_state s.mem (X + T) ≠ UNALLOCATED)
    (hLst : ∀ y ∈ B, y + get_size s.mem y = X → get_state s.mem y ≠ UNALLOCATED)
    (hXsent : X + T ≤ c.freelistSentinels ∨ c.freelistSentinels + 1888 ≤ X)
    (hB' : ∀ x, x ∈ B' ↔ x ∈ B ∧ (x ≤ X ∨ X + T ≤ x))
    (L' : Lists c m' FL')
    (hFL : ∀ j, j < 59 → ∀ y, y ∈ FL' j ↔
      (y = X ∧ j = list_index T) ∨ (y ∈ FL j ∧ (y < X ∨ X + T ≤ y)))
    (hsw : ∀ i, i < 59 → m' (sentinel c i) = 0)
    (hw : ∀ x ∈ B, (x < X ∨ X + T ≤ x) → m' x = s.mem x)
    (hwX : m' X = T)
    (hl : ∀ x ∈ B, (x ≤ X ∨ X + T < x) → m' (x + 8) = s.mem (x + 8))
    (hlR : m' (X + T + 8) = T) :
    WF c { s with mem := m' } B' FL' := by
  have hXs : 32 ≤ get_size s.mem X := (wf.block X hX hXnf).2.2
  have hsz : ∀ x ∈ B, 16 ≤ get_size s.mem x := fun x hx => wf.block_size hx
  have hlow : ∀ x ∈ B, x < X → x + get_size s.mem x ≤ X := by
    intro x hx hlt
    rcases wf.disjoint x hx X hX with h | h | h
    · omega
    · exact h
    · omega
  have hin : ∀ x ∈ B, X < x → x < X + T → x + get_size s.mem x ≤ X + T := by
    intro x hx h1 h2
    have := hsz _ hR
    rcases wf.disjoint x hx (X + T) hR with h | h | h
    · omega
    · exact h
    · omega
  have hsame : ∀ x ∈ B, (x < X ∨ X + T ≤ x) →
      get_size m' x = get_size s.mem x ∧ get_state m' x = get_state s.mem x :=
    fun x hx h => ⟨get_size_congr _ _ _ (hw x hx h), get_state_congr _ _ _ (hw x hx h)⟩
  have hXsz : get_size m' X = T := by unfold get_size; rw [hwX]; omega
  have hXstate : get_state m' X = UNALLOCATED := by
    unfold get_state UNALLOCATED; rw [hwX]; omega
  have hp8 : ∀ x ∈ B, padd x 8 = x + 8 := by
    intro x hx
    have := wf.block_hi x hx
    have := hsz x hx
    exact padd_eq _ _ (by omega)
  have hls : ∀ x ∈ B, (x ≤ X ∨ X + T < x) → left_size m' x = left_size s.mem x := by
    intro x hx h
    unfold left_size
    rw [hp8 x hx, hl x hx h]
  have hlsR : left_size m' (X + T) = T := by
    unfold left_size; rw [hp8 _ hR, hlR]
  have hXB' : X ∈ B' := (hB' X).mpr ⟨hX, Or.inl (Nat.le_refl _)⟩
  have hRB' : X + T ∈ B' := (hB' _).mpr ⟨hR, Or.inr (Nat.le_refl _)⟩
  have hsplit : ∀ x, x ∈ B' → x ∈ B ∧ (x = X ∨ x < X ∨ X + T ≤ x) := by
    intro x hx
    obtain ⟨h1, h2⟩ := (hB' x).mp hx
    exact ⟨h1, by omega⟩
  refine ⟨L', hsw, ?_, ?_, ?_, ?_, ?_, ?_, ?_, ?_, ?_, ?_⟩
  · -- block_hi
    intro b hb
    obtain ⟨hbB, h | h⟩ := hsplit b hb
    · have := wf.block_hi _ hR
      simp only [h, hXsz]; omega
    · simp only [(hsame b hbB h).1]; exact wf.block_hi b hbB
  · -- block_sent
    intro b hb
    obtain ⟨hbB, h | h⟩ := hsplit b hb
    · simp only [h, hXsz]; exact hXsent
    · simp only [(hsame b hbB h).1]; exact wf.block_sent b hbB
  · -- disjoint
    intro b hb b' hb'
    obtain ⟨hbB, h | h⟩ := hsplit b hb <;> obtain ⟨hbB', h' | h'⟩ := hsplit b' hb'
    · left; rw [h, h']
    · simp only [h, hXsz, (hsame b' hbB' h').1]
      have := hlow b' hbB'
      omega
    · simp only [h', hXsz, (hsame b hbB h).1]
      have := hlow b hbB
      omega
    · simp only [(hsame b hbB h).1, (hsame b' hbB' h').1]
      exact wf.disjoint b hbB b' hbB'
  · -- fencepost
    intro b hb hst
    obtain ⟨hbB, h | h⟩ := hsplit b hb
    · rw [h, hXstate] at hst; exact absurd hst (by decide)
    · simp only [(hsame b hbB h).1]
      rw [(hsame b hbB h).2] at hst
      exact wf.fencepost b hbB hst
  · -- block
    intro b hb hst
    obtain ⟨hbB, h | h⟩ := hsplit b hb
    · simp only [h, hXsz, hXstate]
      exact ⟨Or.inl trivial, hT8, by omega⟩
    · simp only [(hsame b hbB h).1, (hsame b hbB h).2] at hst ⊢
      exact wf.block b hbB hst
  · -- right
    intro b hb hst
    obtain ⟨hbB, h | h⟩ := hsplit b hb
    · simp only [h, hXsz]
      exact ⟨hRB', hlsR⟩
    · simp only [(hsame b hbB h).1, (hsame b hbB h).2] at hst ⊢
      obtain ⟨hy, hyl⟩ := wf.right b hbB hst
      have hbs := hsz b hbB
      have hl1 := hlow b hbB
      refine ⟨(hB' _).mpr ⟨hy, by omega⟩, ?_⟩
      rw [hls _ hy (by omega)]
      exact hyl
  · -- left
    intro b hb hst
    obtain ⟨hbB, h | h⟩ := hsplit b hb
    · rw [h]
      obtain ⟨h1, h2, h3⟩ := wf.left X hX hXnf
      have hys := hsz _ h2
      rw [hls X hX (Or.inl (Nat.le_refl _))]
      refine ⟨h1, (hB' _).mpr ⟨h2, by omega⟩, ?_⟩
      rw [(hsame _ h2 (by omega)).1]
      exact h3
    · by_cases hbR : b = X + T
      · rw [hbR, hlsR]
        refine ⟨by omega, ?_, ?_⟩
        · rw [Nat.add_sub_cancel]; exact hXB'
        · rw [Nat.add_sub_cancel]; exact hXsz
      · simp only [(hsame b hbB h).2] at hst
        obtain ⟨h1, h2, h3⟩ := wf.left b hbB hst
        have hys := hsz _ h2
        have hlow1 := hlow _ h2
        have hin1 := hin _ h2
        rw [hls b hbB (by omega)]
        have hout : b - left_size s.mem b < X ∨ X + T ≤ b - left_size s.mem b := by
          by_contra hc
          by_cases hyX : b - left_size s.mem b = X
          · rw [hyX] at h3; omega
          · omega
        refine ⟨h1, (hB' _).mpr ⟨h2, by omega⟩, ?_⟩
        rw [(hsame _ h2 hout).1]
        exact h3
  · -- coalesced
    intro b hb hst
    obtain ⟨hbB, h | h⟩ := hsplit b hb
    · simp only [h, hXsz]
      rw [(hsame _ hR (Or.inr (Nat.le_refl _))).2]
      exact hRst
    · simp only [(hsame b hbB h).1, (hsame b hbB h).2] at hst ⊢
      have hnf : get_state s.mem b ≠ FENCEPOST := by rw [hst]; decide
      obtain ⟨hy, -⟩ := wf.right b hbB hnf
      have hc := wf.coalesced b hbB hst
      have hbs := hsz b hbB
      have hl1 := hlow b hbB
      have hne : b + get_size s.mem b ≠ X := fun e => hLst b hbB e hst
      rw [(hsame _ hy (by omega)).2]
      exact hc
  · -- free_listed
    intro b hb hst
    obtain ⟨hbB, h | h⟩ := hsplit b hb
    · simp only [h, hXsz]
      exact (hFL _ (list_index_lt _) _).mpr (Or.inl ⟨rfl, rfl⟩)
    · simp only [(hsame b hbB h).1, (hsame b hbB h).2] at hst ⊢
      exact (hFL _ (list_index_lt _) _).mpr (Or.inr ⟨wf.free_listed b hbB hst, h⟩)
  · -- listed_free
    intro i hi x hx
    rcases (hFL i hi x).mp hx with ⟨h1, h2⟩ | ⟨h1, h2⟩
    · rw [h1, h2]
      exact ⟨hXB', hXstate, by rw [hXsz]⟩
    · obtain ⟨q1, q2, q3⟩ := wf.listed_free i hi x h1
      simp only [(hsame x q1 h2).1, (hsame x q1 h2).2]
      exact ⟨(hB' _).mpr ⟨q1, by omega⟩, q2, q3⟩

/-- The first word of a sentinel is no link word. -/
theorem Lists.linkFree_sentinel {c : Config} {m : Mem} {FL : Nat → List Nat}
    (L : Lists c m FL) {i : Nat} (hi : i < 59) :
    LinkFree c FL (c.freelistSentinels + 32 * i) := by
  constructor
  · intro j hj y hy
    have := L.node_sent j hj y hy
    omega
  · intro j _
    omega

/-- Two blocks of a well-formed state are equal or lie apart. -/
theorem WF.apart {c : Config} {s : Alloc} {B : List Nat} {FL : Nat → List Nat}
    (wf : WF c s B FL) {x y : Nat} (hx : x ∈ B) (hy : y ∈ B) :
    x = y ∨ x + 16 ≤ y ∨ y + get_size s.mem y ≤ x := by
  have := wf.block_size hx
  rcases wf.disjoint x hx y hy with h | h | h
  · exact Or.inl h
  · right; left; omega
  · right; right; exact h

/-- The form of `WF.merge` for `deallocate_object`: the merged range holds the
freed block `d`, and off the link words the new memory is the old one with the
size word of `X` and the `left_size` behind the range set to `T`. -/
theorem WF.merge_view {c : Config} {s : Alloc} {B : List Nat} {FL : Nat → List Nat}
    (wf : WF c s B FL) {m' : Mem} {B' : List Nat} {FL' : Nat → List Nat} {X T d : Nat}
    (hd : d ∈ B) (hdst : get_state s.mem d = ALLOCATED)
    (hX : X ∈ B) (hXnf : get_state s.mem X ≠ FENCEPOST)
    (hXd : X ≤ d) (hdT : d + get_size s.mem d ≤ X + T)
    (hT8 : T % 8 = 0) (hXT : get_size s.mem X ≤ T)
    (hR : X + T ∈ B) (hRst : get_state s.mem (X + T) ≠ UNALLOCATED)
    (hLst : ∀ y ∈ B, y + get_size s.mem y = X → get_state s.mem y ≠ UNALLOCATED)
    (hXsent : X + T ≤ c.freelistSentinels ∨ c.freelistSentinels + 1888 ≤ X)
    (hB' : ∀ x, x ∈ B' ↔ x ∈ B ∧ (x ≤ X ∨ X + T ≤ x))
    (L' : Lists c m' FL')
    (hFL : ∀ j, j < 59 → ∀ y, y ∈ FL' j ↔
      (y = X ∧ j = list_index T) ∨ (y ∈ FL j ∧ (y < X ∨ X + T ≤ y)))
    (view : ∀ a, LinkFree c FL a → a ≠ d + 16 → a ≠ d + 24 →
      m' a = store (store (store s.mem d (s.mem d / 4 * 4)) X T) (X + T + 8) T a) :
    WF c { s with mem := m' } B' FL' ∧ m' X = T ∧ m' (X + T + 8) = T ∧
    (∀ x ∈ B, (x < X ∨ X + T ≤ x) → m' x = s.mem x) := by
  have hnf : get_state s.mem d ≠ FENCEPOST := by rw [hdst]; decide
  have hds : 32 ≤ get_size s.mem d := (wf.block d hd hnf).2.2
  have hRs := wf.block_size hR
  have hRhi := wf.block_hi _ hR
  have aXd := wf.apart hX hd
  have aRd := wf.apart hR hd
  have hwX : m' X = T := by
    rw [view X (wf.linkFree hX).1 (by omega) (by omega), store_ne _ _ _ _ (by omega), store_eq]
  have hlR : m' (X + T + 8) = T := by
    rw [view _ (wf.linkFree hR).2 (by omega) (by omega), store_eq]
  have hw : ∀ x ∈ B, (x < X ∨ X + T ≤ x) → m' x = s.mem x := by
    intro x hx h
    have a1 := wf.apart hx hd
    have a2 := wf.apart hx hR
    have a3 := wf.apart hd hx
    rw [view x (wf.linkFree hx).1 (by omega) (by omega), store_ne _ _ _ _ (by omega),
      store_ne _ _ _ _ (by omega), store_ne _ _ _ _ (by omega)]
  have hl : ∀ x ∈ B, (x ≤ X ∨ X + T < x) → m' (x + 8) = s.mem (x + 8) := by
    intro x hx h
    have a1 := wf.apart hx hd
    have a2 := wf.apart hx hX
    have a3 := wf.apart hd hx
    have a4 := wf.apart hX hx
    have hxs := wf.block_size hx
    rw [view _ (wf.linkFree hx).2 (by omega) (by omega), store_ne _ _ _ _ (by omega),
      store_ne _ _ _ _ (by omega), store_ne _ _ _ _ (by omega)]
  have hsw : ∀ i, i < 59 → m' (sentinel c i) = 0 := by
    intro i hi
    have h0 := wf.sentinel_word i hi
    rw [sentinel_eq c i wf.lists.sent_hi hi] at h0 ⊢
    have b1 := wf.block_sent d hd
    have b2 := wf.block_sent _ hR
    rw [view _ (wf.lists.linkFree_sentinel hi) (by omega) (by omega),
      store_ne _ _ _ _ (by omega), store_ne _ _ _ _ (by omega), store_ne _ _ _ _ (by omega)]
    exact h0
  exact ⟨wf.merge hX hXnf hT8 hXT hR hRst hLst hXsent hB' L' hFL hsw hw hwX hl hlR,
    hwX, hlR, hw⟩

/-- The conclusion of `WF.merge_view` for the blocks that the merged range
leaves. -/
theorem Freed.of_view {c : Config} {s : Alloc} {B : List Nat} {FL : Nat → List Nat}
    (wf : WF c s B FL) {m' : Mem} {FL' : Nat → List Nat} {X T d : Nat}
    (hd : d ∈ B) (hdst : get_state s.mem d = ALLOCATED)
    (hX : X ∈ B) (hXnf : get_state s.mem X ≠ FENCEPOST)
    (hXd : X ≤ d) (hdT : d + get_size s.mem d ≤ X + T)
    (hT8 : T % 8 = 0) (hXT : get_size s.mem X ≤ T)
    (hR : X + T ∈ B) (hRst : get_state s.mem (X + T) ≠ UNALLOCATED)
    (hLst : ∀ y ∈ B, y + get_size s.mem y = X → get_state s.mem y ≠ UNALLOCATED)
    (hXsent : X + T ≤ c.freelistSentinels ∨ c.freelistSentinels + 1888 ≤ X)
    (L' : Lists c m' FL')
    (hFL : ∀ j, j < 59 → ∀ y, y ∈ FL' j ↔
      (y = X ∧ j = list_index T) ∨ (y ∈ FL j ∧ (y < X ∨ X + T ≤ y)))
    (view : ∀ a, LinkFree c FL a → a ≠ d + 16 → a ≠ d + 24 →
      m' a = store (store (store s.mem d (s.mem d / 4 * 4)) X T) (X + T + 8) T a) :
    Freed c s B FL X T m' FL' := by
  have hB' : ∀ x, x ∈ B.filter (fun x => decide (x ≤ X ∨ X + T ≤ x)) ↔
      x ∈ B ∧ (x ≤ X ∨ X + T ≤ x) := by
    intro x
    rw [List.mem_filter, decide_eq_true_iff]
  obtain ⟨h1, h2, h3, h4⟩ := wf.merge_view hd hdst hX hXnf hXd hdT hT8 hXT hR hRst hLst hXsent
    hB' L' hFL view
  exact ⟨h1, h2, h3, h4, hFL⟩

/-- The nodes of an index after one node is taken off its list. -/
theorem Lists.mem_update_erase {c : Config} {m : Mem} {FL : Nat → List Nat} (L : Lists c m FL)
    {i r k : Nat} (hi : i < 59) (hr : r ∈ FL i) (hk : k < 59) (y : Nat) :
    y ∈ Function.update FL i ((FL i).erase r) k ↔ y ∈ FL k ∧ y ≠ r := by
  by_cases hki : k = i
  · subst hki
    simp only [Function.update_same]
    exact (L.nodup k hk).mem_erase_iff.trans ⟨fun h => ⟨h.2, h.1⟩, fun h => ⟨h.2, h.1⟩⟩
  · simp only [Function.update_noteq hki]
    constructor
    · intro h
      refine ⟨h, ?_⟩
      intro e
      rw [e] at h
      rcases L.sep k hk i hi r h r hr with h' | h' | h'
      · exact hki h'.2
      · omega
      · omega
    · exact fun h => h.1

/-- The facts about the neighbours of a live block `d` that the cases of
`deallocate_object` start from; `m1` is the memory after `d` is marked
`UNALLOCATED`. -/
theorem WF.free_facts {c : Config} {s : Alloc} {B : List Nat} {FL : Nat → List Nat}
    (wf : WF c s B FL) {d : Nat} (hd : d ∈ B) (hst : get_state s.mem d = ALLOCATED) :
    ∃ l r, l ∈ B ∧ r ∈ B ∧ l + get_size s.mem l = d ∧ d + get_size s.mem d = r ∧
      16 ≤ get_size s.mem l ∧ 32 ≤ get_size s.mem d ∧ 16 ≤ get_size s.mem r ∧
      r + get_size s.mem r ≤ WORD ∧
      get_left_header s.mem d = l ∧ get_right_header s.mem d = r ∧
      s.mem (r + 8) = get_size s.mem d ∧
      Lists c (set_state s.mem d UNALLOCATED) FL ∧
      get_left_header (set_state s.mem d UNALLOCATED) d = l ∧
      get_right_header (set_state s.mem d UNALLOCATED) d = r ∧
      (∀ x, get_size (set_state s.mem d UNALLOCATED) x = get_size s.mem x) ∧
      (∀ x, x ≠ d → set_state s.mem d UNALLOCATED x = s.mem x) ∧
      set_state s.mem d UNALLOCATED d = get_size s.mem d ∧
      set_state s.mem d UNALLOCATED = store s.mem d (s.mem d / 4 * 4) := by
  have hnf : get_state s.mem d ≠ FENCEPOST := by rw [hst]; decide
  obtain ⟨hsd, hRB, hRW, hls, hls1, hls2, hLB, hLs, hrh, hlh⟩ := wf.around hd hnf
  obtain ⟨lfd, -⟩ := wf.linkFree hd
  have hrs := wf.block_size hRB
  have hrhi := wf.block_hi _ hRB
  obtain ⟨-, hrl⟩ := wf.right d hd hnf
  rw [left_size_eq _ _ (by omega)] at hrl
  rw [set_state_unalloc]
  have hne : ∀ a, a ≠ d → store s.mem d (s.mem d / 4 * 4) a = s.mem a :=
    fun a ha => store_ne _ _ _ _ ha
  have gs : ∀ x, get_size (store s.mem d (s.mem d / 4 * 4)) x = get_size s.mem x :=
    fun x => get_size_store_state _ _ _ _ (by omega)
  have hd8 : padd d 8 = d + 8 := padd_eq _ _ (by omega)
  refine ⟨d - s.mem (d + 8), d + get_size s.mem d, hLB, hRB, by omega, rfl, by omega, hsd, hrs,
    hrhi, hlh, hrh, hrl, wf.lists.store _ lfd, ?_, ?_, gs, hne, store_eq _ _ _, rfl⟩
  · rw [get_left_header_congr s.mem _ d (by rw [hd8]; exact hne _ (by omega)), hlh]
  · unfold get_right_header; rw [gs]; exact hrh

/-- A block that ends where the block `l` ends is `l`. -/
theorem WF.same_end {c : Config} {s : Alloc} {B : List Nat} {FL : Nat → List Nat}
    (wf : WF c s B FL) {y l : Nat} (hy : y ∈ B) (hl : l ∈ B)
    (h : y + get_size s.mem y = l + get_size s.mem l) : y = l := by
  have h1 := wf.block_size hy
  have h2 := wf.block_size hl
  rcases wf.disjoint y hy l hl with h' | h' | h'
  · exact h'
  · omega
  · omega

/-- A node of the index is a free block, so it is not the live block `d`, and it
lies apart from it. -/
theorem WF.node_apart {c : Config} {s : Alloc} {B : List Nat} {FL : Nat → List Nat}
    (wf : WF c s B FL) {d : Nat} (hd : d ∈ B) (hst : get_state s.mem d = ALLOCATED)
    {k y : Nat} (hk : k < 59) (hy : y ∈ FL k) :
    y ∈ B ∧ (y + 16 ≤ d ∨ d + get_size s.mem d ≤ y) := by
  obtain ⟨h1, h2, -⟩ := wf.listed_free k hk y hy
  refine ⟨h1, ?_⟩
  rcases wf.apart h1 hd with h | h | h
  · rw [h, hst] at h2; exact absurd h2 (by decide)
  · exact Or.inl h
  · exact Or.inr h

/-- `deallocate_object`, neither neighbour free: the block `d` becomes a free
block of its own. -/
theorem freed_neither {c : Config} {s : Alloc} {B : List Nat} {FL : Nat → List Nat}
    (wf : WF c s B FL) {d : Nat} (hd : d ∈ B) (hst : get_state s.mem d = ALLOCATED)
    (hL : get_state s.mem (get_left_header s.mem d) ≠ UNALLOCATED)
    (hR : get_state s.mem (get_right_header s.mem d) ≠ UNALLOCATED) :
    ∃ FL', Freed c s B FL d (get_size s.mem d)
      (coalesce c (set_state s.mem d UNALLOCATED) d) FL' := by
  obtain ⟨l, r, hlB, hrB, hld, hdr, hsl, hsd, hsr, hrW, hlh, hrh, hrl, L1, hl1, hr1, gs, hne,
    hm1d, hm1⟩ := wf.free_facts hd hst
  rw [hlh] at hL
  rw [hrh] at hR
  have hnf : get_state s.mem d ≠ FENCEPOST := by rw [hst]; decide
  have hsep := wf.node_sep hd hsd (by rw [hst]; decide)
  obtain ⟨lfd, -⟩ := wf.linkFree hd
  have hdsent := wf.block_sent d hd
  have hs8 := (wf.block d hd hnf).2.1
  have hnode := fun k hk y hy => wf.node_apart hd hst (k := k) (y := y) hk hy
  have hsame := fun y hy => wf.same_end (y := y) (l := l) hy hlB
  generalize set_state s.mem d UNALLOCATED = m1 at *
  have e : coalesce c m1 d = insert_helper c m1 d :=
    coalesce_neither c m1 d
      (by rw [hr1, get_state_congr _ _ _ (hne r (by omega))]; exact hR)
      (by rw [hl1, get_state_congr _ _ _ (hne l (by omega))]; exact hL)
  obtain ⟨Li, fi⟩ := L1.insert (h := d) (j := list_index (get_size s.mem d)) (by omega)
    (by omega) hsep (by rw [gs])
  rw [← e] at Li fi
  refine ⟨_, Freed.of_view wf hd hst hd hnf (Nat.le_refl _) (Nat.le_refl _) hs8 (Nat.le_refl _)
    (by rw [hdr]; exact hrB) (by rw [hdr]; exact hR) ?_ hdsent Li ?_ ?_⟩
  · intro y hy h
    rw [hsame y hy (by omega)]
    exact hL
  · intro j hj y
    rw [mem_update_cons]
    constructor
    · rintro (⟨h1, h2⟩ | h)
      · exact Or.inl ⟨h2, h1⟩
      · have := (hnode j hj y h).2
        exact Or.inr ⟨h, by omega⟩
    · rintro (⟨h1, h2⟩ | ⟨h, -⟩)
      · exact Or.inl ⟨h2, h1⟩
      · exact Or.inr h
  · intro a ha h1 h2
    rw [fi a ha h1 h2, ← hm1]
    by_cases ha1 : a = d + get_size s.mem d + 8
    · rw [ha1, store_eq, hne _ (by omega), hdr, hrl]
    · rw [store_ne _ _ _ _ ha1]
      by_cases ha2 : a = d
      · rw [ha2, store_eq, hm1d]
      · rw [store_ne _ _ _ _ ha2]

/-- `deallocate_object`, only the right neighbour free: the block `d` absorbs
it. -/
theorem freed_right {c : Config} {s : Alloc} {B : List Nat} {FL : Nat → List Nat}
    (wf : WF c s B FL) {d : Nat} (hd : d ∈ B) (hst : get_state s.mem d = ALLOCATED)
    (hL : get_state s.mem (get_left_header s.mem d) ≠ UNALLOCATED)
    (hR : get_state s.mem (get_right_header s.mem d) = UNALLOCATED) :
    ∃ FL', Freed c s B FL d (get_size s.mem d + get_size s.mem (get_right_header s.mem d))
      (coalesce c (set_state s.mem d UNALLOCATED) d) FL' := by
  obtain ⟨l, r, hlB, hrB, hld, hdr, hsl, hsd, hsr, hrW, hlh, hrh, hrl, L1, hl1, hr1, gs, hne,
    hm1d, hm1⟩ := wf.free_facts hd hst
  rw [hlh] at hL
  rw [hrh] at hR ⊢
  have hnf : get_state s.mem d ≠ FENCEPOST := by rw [hst]; decide
  have hRnf : get_state s.mem r ≠ FENCEPOST := by rw [hR]; decide
  have hsep := wf.node_sep hd hsd (by rw [hst]; decide)
  obtain ⟨lfd, -⟩ := wf.linkFree hd
  obtain ⟨lfr, -⟩ := wf.linkFree hrB
  obtain ⟨hsr32, hRRB, hRRW, -, -, -, -, -, -, -⟩ := wf.around hrB hRnf
  obtain ⟨-, lfrr8⟩ := wf.linkFree hRRB
  have hRRst := wf.coalesced r hrB hR
  have hRin := wf.free_listed r hrB hR
  have hdsent := wf.block_sent d hd
  have hrsent := wf.block_sent r hrB
  have hs8 := (wf.block d hd hnf).2.1
  have hr8 := (wf.block r hrB hRnf).2.1
  have hnode := fun k hk y hy => wf.node_apart hd hst (k := k) (y := y) hk hy
  have hnoder := fun y (hy : y ∈ B) => wf.apart hy hrB
  have hsame := fun y hy => wf.same_end (y := y) (l := l) hy hlB
  have hnodeB := fun k hk y hy => (wf.listed_free k hk y hy).1
  have hk := list_index_lt (get_size s.mem r)
  generalize set_state s.mem d UNALLOCATED = m1 at *
  have e4 : m1 d % 4 = 0 := by rw [hm1d]; unfold get_size; omega
  have e8 : d + (get_size s.mem d + get_size s.mem r) + 8 = r + get_size s.mem r + 8 := by
    omega
  have eT : d + (get_size s.mem d + get_size s.mem r) = r + get_size s.mem r := by omega
  obtain ⟨Lf, fr⟩ := coalesce_right L1 hk hRin hr1 (by rw [gs]; exact hdr)
    (by rw [get_state_congr _ _ _ (hne r (by omega))]; exact hR)
    (by rw [hl1, get_state_congr _ _ _ (hne l (by omega))]; exact hL)
    (by rw [gs, gs]; omega) (by omega) (by omega) hsep lfd lfr
    (by rw [gs, gs, e8]; exact lfrr8)
  rw [gs d, gs r] at Lf
  simp only [gs, e4, Nat.add_zero] at fr
  refine ⟨_, Freed.of_view wf hd hst hd hnf (Nat.le_refl _) (by omega) (by omega) (by omega)
    (by rw [eT]; exact hRRB) (by rw [eT]; exact hRRst) ?_ (by omega) Lf ?_ ?_⟩
  · intro y hy h
    rw [hsame y hy (by omega)]
    exact hL
  · intro j hj y
    rw [mem_update_cons, L1.mem_update_erase hk hRin hj]
    constructor
    · rintro (⟨h1, h2⟩ | ⟨h, hyr⟩)
      · exact Or.inl ⟨h2, h1⟩
      · have := (hnode j hj y h).2
        have := hnoder y (hnodeB j hj y h)
        exact Or.inr ⟨h, by omega⟩
    · rintro (⟨h1, h2⟩ | ⟨h, h'⟩)
      · exact Or.inl ⟨h2, h1⟩
      · exact Or.inr ⟨h, by omega⟩
  · intro a ha h1 h2
    rw [fr a ha h1 h2, ← hm1]

/-- Blocks of 488 bytes and more belong to the last list. -/
theorem list_index_big (x : Nat) (h1 : 488 ≤ x) (h2 : x < WORD) : list_index x = 58 := by
  rw [list_index_eq x (by omega) h2]
  omega

/-- A block apart from the adjacent blocks `l` and `d` lies outside their
range. -/
theorem outside_two (l d sl sd y : Nat) (hld : l + sl = d)
    (h1 : y + 16 ≤ d ∨ d + sd ≤ y) (h2 : y = l ∨ y + 16 ≤ l ∨ l + sl ≤ y) (hyl : y ≠ l) :
    y < l ∨ l + (sl + sd) ≤ y := by
  omega

/-- A block apart from the adjacent blocks `l`, `d` and `r` lies outside their
range. -/
theorem outside_three (l d r sl sd sr y : Nat) (hld : l + sl = d) (hdr : d + sd = r)
    (h1 : y + 16 ≤ d ∨ d + sd ≤ y) (h2 : y = l ∨ y + 16 ≤ l ∨ l + sl ≤ y)
    (h3 : y = r ∨ y + 16 ≤ r ∨ r + sr ≤ y) (hyl : y ≠ l) (hyr : y ≠ r) :
    y < l ∨ l + (sl + sd + sr) ≤ y := by
  omega

/-- The sentinel array lies outside a range of adjacent blocks when it lies
outside each of them. -/
theorem sentinels_outside (G l d sl sd : Nat) (hld : l + sl = d)
    (h1 : l + sl ≤ G ∨ G + 1888 ≤ l) (h2 : d + sd ≤ G ∨ G + 1888 ≤ d) :
    l + (sl + sd) ≤ G ∨ G + 1888 ≤ l := by
  omega

/-- `deallocate_object`, only the left neighbour free: the left neighbour
absorbs the block `d`. -/
theorem freed_left {c : Config} {s : Alloc} {B : List Nat} {FL : Nat → List Nat}
    (wf : WF c s B FL) {d : Nat} (hd : d ∈ B) (hst : get_state s.mem d = ALLOCATED)
    (hL : get_state s.mem (get_left_header s.mem d) = UNALLOCATED)
    (hR : get_state s.mem (get_right_header s.mem d) ≠ UNALLOCATED) :
    ∃ FL', Freed c s B FL (get_left_header s.mem d)
      (get_size s.mem (get_left_header s.mem d) + get_size s.mem d)
      (coalesce c (set_state s.mem d UNALLOCATED) d) FL' := by
  obtain ⟨l, r, hlB, hrB, hld, hdr, hsl, hsd, hsr, hrW, hlh, hrh, hrl, L1, hl1, hr1, gs, hne,
    hm1d, hm1⟩ := wf.free_facts hd hst
  rw [hlh] at hL ⊢
  rw [hrh] at hR
  have n1 : l ≠ d := by omega
  have n2 : r ≠ d := by omega
  have n3 : l ≤ d := by omega
  have n4 : d + get_size s.mem d ≤ l + (get_size s.mem l + get_size s.mem d) := by omega
  have n5 : get_size s.mem l ≤ get_size s.mem l + get_size s.mem d := by omega
  have n6 : l + (get_size s.mem l + get_size s.mem d) + 8 < WORD := by omega
  have n7 : 0 < get_size s.mem d := by omega
  have n8 : get_size s.mem l + get_size s.mem d < WORD := by omega
  have eT : l + (get_size s.mem l + get_size s.mem d) = r := by omega
  have n10 : ∀ y, y < l ∨ l + (get_size s.mem l + get_size s.mem d) ≤ y → y ≠ l := by
    intro y hy; omega
  have hLnf : get_state s.mem l ≠ FENCEPOST := by rw [hL]; decide
  have hT8 : (get_size s.mem l + get_size s.mem d) % 8 = 0 := by
    have h1 := (wf.block d hd (by rw [hst]; decide)).2.1
    have h2 := (wf.block l hlB hLnf).2.1
    omega
  have hXsent := sentinels_outside _ _ _ _ _ hld (wf.block_sent l hlB) (wf.block_sent d hd)
  obtain ⟨lfd, lfd8⟩ := wf.linkFree hd
  obtain ⟨lfl, -⟩ := wf.linkFree hlB
  obtain ⟨-, lfr8⟩ := wf.linkFree hrB
  have hLin := wf.free_listed l hlB hL
  have hnode := fun k hk y hy => wf.node_apart hd hst (k := k) (y := y) hk hy
  have hnodel := fun y (hy : y ∈ B) => wf.apart hy hlB
  have hnodeB := fun k hk y hy => wf.listed_free k hk y hy
  have hcl := fun y hy => wf.coalesced y hy
  have hi := list_index_lt (get_size s.mem l)
  have hl4 : s.mem l % 4 = 0 := by
    have := hL; unfold get_state UNALLOCATED at this; exact this
  generalize set_state s.mem d UNALLOCATED = m1 at *
  have e4 : m1 l % 4 = 0 := by rw [hne l n1]; exact hl4
  have hR1 : get_state m1 (get_right_header m1 d) ≠ UNALLOCATED := by
    rw [hr1, get_state_congr _ _ _ (hne r n2)]; exact hR
  have hL1 : get_state m1 l = UNALLOCATED := by
    rw [get_state_congr _ _ _ (hne l n1)]; exact hL
  have hLst : ∀ y ∈ B, y + get_size s.mem y = l → get_state s.mem y ≠ UNALLOCATED := by
    intro y hy h hy'
    have := hcl y hy hy'
    rw [h] at this
    exact this hL
  by_cases hbig : 488 ≤ get_size s.mem l
  · have e := coalesce_left_inplace c m1 d l hR1 hl1 hL1 (by rw [gs]; exact hbig)
      (by rw [gs, gs]; exact n6)
    simp only [gs, e4, Nat.add_zero] at e
    have Lf : Lists c (coalesce c m1 d) FL := by
      rw [e]
      exact (L1.store _ lfl).store _ (by rw [eT]; exact lfr8)
    have hidx := list_index_big (get_size s.mem l) hbig (Nat.lt_of_le_of_lt n5 n8)
    have hidx2 := list_index_big (get_size s.mem l + get_size s.mem d)
      (Nat.le_trans hbig n5) n8
    refine ⟨_, Freed.of_view wf hd hst hlB hLnf n3 n4 hT8 n5
      (by rw [eT]; exact hrB) (by rw [eT]; exact hR) hLst hXsent Lf ?_ ?_⟩
    · intro j hj y
      constructor
      · intro h
        by_cases hyl : y = l
        · left
          refine ⟨hyl, ?_⟩
          have := (hnodeB j hj y h).2.2
          rw [hyl, hidx] at this
          rw [hidx2, this]
        · right
          exact ⟨h, outside_two _ _ _ _ _ hld (hnode j hj y h).2
            (hnodel y (hnodeB j hj y h).1) hyl⟩
      · rintro (⟨h1, h2⟩ | ⟨h, -⟩)
        · rw [h1, h2, hidx2, ← hidx]; exact hLin
        · exact h
    · intro a _ _ _
      rw [e, ← hm1]
  · have hsmall : get_size s.mem l < 488 := Nat.not_le.mp hbig
    obtain ⟨Lf, fr⟩ := coalesce_left_relink L1 hi hLin hR1 hl1 hL1 (by rw [gs]; exact hsmall)
      (by rw [gs]; exact hld) (by rw [gs]; exact n7) (by rw [gs, gs]; exact n6) lfl lfd lfd8
      (by rw [gs, gs, eT]; exact lfr8)
    rw [gs l, gs d] at Lf
    simp only [gs, e4, Nat.add_zero] at fr
    refine ⟨_, Freed.of_view wf hd hst hlB hLnf n3 n4 hT8 n5
      (by rw [eT]; exact hrB) (by rw [eT]; exact hR) hLst hXsent Lf ?_ ?_⟩
    · intro j hj y
      rw [mem_update_cons, L1.mem_update_erase hi hLin hj]
      constructor
      · rintro (⟨h1, h2⟩ | ⟨h, hyl⟩)
        · exact Or.inl ⟨h2, h1⟩
        · exact Or.inr ⟨h, outside_two _ _ _ _ _ hld (hnode j hj y h).2
            (hnodel y (hnodeB j hj y h).1) hyl⟩
      · rintro (⟨h1, h2⟩ | ⟨h, h'⟩)
        · exact Or.inl ⟨h2, h1⟩
        · exact Or.inr ⟨h, n10 y h'⟩
    · intro a ha _ _
      rw [fr a ha, ← hm1]

/-- `deallocate_object`, both neighbours free: the left neighbour absorbs the
block `d` and the right neighbour. -/
theorem freed_both {c : Config} {s : Alloc} {B : List Nat} {FL : Nat → List Nat}
    (wf : WF c s B FL) {d : Nat} (hd : d ∈ B) (hst : get_state s.mem d = ALLOCATED)
    (hL : get_state s.mem (get_left_header s.mem d) = UNALLOCATED)
    (hR : get_state s.mem (get_right_header s.mem d) = UNALLOCATED) :
    ∃ FL', Freed c s B FL (get_left_header s.mem d)
      (get_size s.mem (get_left_header s.mem d) + get_size s.mem d +
        get_size s.mem (get_right_header s.mem d))
      (coalesce c (set_state s.mem d UNALLOCATED) d) FL' := by
  obtain ⟨l, r, hlB, hrB, hld, hdr, hsl, hsd, hsr, hrW, hlh, hrh, hrl, L1, hl1, hr1, gs, hne,
    hm1d, hm1⟩ := wf.free_facts hd hst
  rw [hlh] at hL ⊢
  rw [hrh] at hR ⊢
  have hLnf : get_state s.mem l ≠ FENCEPOST := by rw [hL]; decide
  have hRnf : get_state s.mem r ≠ FENCEPOST := by rw [hR]; decide
  obtain ⟨-, hRRB, hRRW, -, -, -, -, -, -, -⟩ := wf.around hrB hRnf
  clear hRnf
  have n1 : l ≠ d := by omega
  have n2 : r ≠ d := by omega
  have n3 : l ≤ d := by omega
  have n4 : d + get_size s.mem d ≤
      l + (get_size s.mem l + get_size s.mem d + get_size s.mem r) := by omega
  have n5 : get_size s.mem l ≤ get_size s.mem l + get_size s.mem d + get_size s.mem r := by
    omega
  have n6 : l + (get_size s.mem l + get_size s.mem d + get_size s.mem r) + 8 < WORD := by omega
  have n7 : 0 < get_size s.mem d := by omega
  have n8 : get_size s.mem l + get_size s.mem d + get_size s.mem r < WORD := by omega
  have n9 : l ≠ r := by omega
  have eT : l + (get_size s.mem l + get_size s.mem d + get_size s.mem r) =
      r + get_size s.mem r := by omega
  have n10 : ∀ y, y < l ∨ l + (get_size s.mem l + get_size s.mem d + get_size s.mem r) ≤ y →
      y ≠ l ∧ y ≠ r := by
    intro y hy; omega
  have hT8 : (get_size s.mem l + get_size s.mem d + get_size s.mem r) % 8 = 0 := by
    have h1 := (wf.block d hd (by rw [hst]; decide)).2.1
    have h2 := (wf.block l hlB hLnf).2.1
    have h3 := (wf.block r hrB (by rw [hR]; decide)).2.1
    omega
  have hXsent : l + (get_size s.mem l + get_size s.mem d + get_size s.mem r) ≤
      c.freelistSentinels ∨ c.freelistSentinels + 1888 ≤ l := by
    have h1 := wf.block_sent l hlB
    have h2 := wf.block_sent d hd
    have h3 := wf.block_sent r hrB
    clear n1 n2 n3 n4 n5 n6 n7 n8 n9 n10 eT hT8
    omega
  obtain ⟨lfd, lfd8⟩ := wf.linkFree hd
  obtain ⟨lfl, -⟩ := wf.linkFree hlB
  obtain ⟨lfr, -⟩ := wf.linkFree hrB
  obtain ⟨-, lfrr8⟩ := wf.linkFree hRRB
  have hRRst := wf.coalesced r hrB hR
  have hLin := wf.free_listed l hlB hL
  have hRin := wf.free_listed r hrB hR
  have hnode := fun k hk y hy => wf.node_apart hd hst (k := k) (y := y) hk hy
  have hnodel := fun y (hy : y ∈ B) => wf.apart hy hlB
  have hnoder := fun y (hy : y ∈ B) => wf.apart hy hrB
  have hnodeB := fun k hk y hy => wf.listed_free k hk y hy
  have hcl := fun y hy => wf.coalesced y hy
  have hi := list_index_lt (get_size s.mem l)
  have hk := list_index_lt (get_size s.mem r)
  have hl4 : s.mem l % 4 = 0 := by
    have := hL; unfold get_state UNALLOCATED at this; exact this
  generalize set_state s.mem d UNALLOCATED = m1 at *
  have e4 : m1 l % 4 = 0 := by rw [hne l n1]; exact hl4
  have hR1 : get_state m1 r = UNALLOCATED := by
    rw [get_state_congr _ _ _ (hne r n2)]; exact hR
  have hL1 : get_state m1 l = UNALLOCATED := by
    rw [get_state_congr _ _ _ (hne l n1)]; exact hL
  have hLst : ∀ y ∈ B, y + get_size s.mem y = l → get_state s.mem y ≠ UNALLOCATED := by
    intro y hy h hy'
    have := hcl y hy hy'
    rw [h] at this
    exact this hL
  by_cases hbig : 488 ≤ get_size s.mem l
  · obtain ⟨Lf, fr⟩ := coalesce_both_inplace L1 hk hRin hr1 hR1 hl1 hL1 (by rw [gs]; exact hbig)
      (by rw [gs, gs, gs]; exact n6) lfd lfl lfr (by rw [gs, gs, gs, eT]; exact lfrr8)
    simp only [gs, e4, Nat.add_zero] at fr
    have hidx := list_index_big (get_size s.mem l) hbig (Nat.lt_of_le_of_lt n5 n8)
    have hidx2 := list_index_big (get_size s.mem l + get_size s.mem d + get_size s.mem r)
      (Nat.le_trans hbig n5) n8
    refine ⟨_, Freed.of_view wf hd hst hlB hLnf n3 n4 hT8 n5
      (by rw [eT]; exact hRRB) (by rw [eT]; exact hRRst) hLst hXsent Lf ?_ ?_⟩
    · intro j hj y
      rw [L1.mem_update_erase hk hRin hj]
      constructor
      · rintro ⟨h, hyr⟩
        by_cases hyl : y = l
        · left
          refine ⟨hyl, ?_⟩
          have := (hnodeB j hj y h).2.2
          rw [hyl, hidx] at this
          rw [hidx2, this]
        · right
          exact ⟨h, outside_three _ _ _ _ _ _ _ hld hdr (hnode j hj y h).2
            (hnodel y (hnodeB j hj y h).1) (hnoder y (hnodeB j hj y h).1) hyl hyr⟩
      · rintro (⟨h1, h2⟩ | ⟨h, h'⟩)
        · rw [h1, h2, hidx2, ← hidx]; exact ⟨hLin, n9⟩
        · exact ⟨h, (n10 y h').2⟩
    · intro a ha _ _
      rw [fr a ha, ← hm1]
  · have hsmall : get_size s.mem l < 488 := Nat.not_le.mp hbig
    obtain ⟨Lf, fr⟩ := coalesce_both_relink L1 hi hLin hk hRin n9 hr1 hR1 hl1 hL1
      (by rw [gs]; exact hsmall) (by rw [gs]; exact hld) (by rw [gs]; exact n7)
      (by rw [gs, gs, gs]; exact n6) lfd lfd8 lfl lfr (by rw [gs, gs, gs, eT]; exact lfrr8)
    rw [gs l, gs d, gs r] at Lf
    simp only [gs, e4, Nat.add_zero] at fr
    have Lb := (L1.break hi hLin).1
    have hr1' : r ∈ Function.update FL (list_index (get_size s.mem l))
        ((FL (list_index (get_size s.mem l))).erase l) (list_index (get_size s.mem r)) :=
      (L1.mem_update_erase hi hLin hk r).mpr ⟨hRin, n9.symm⟩
    refine ⟨_, Freed.of_view wf hd hst hlB hLnf n3 n4 hT8 n5
      (by rw [eT]; exact hRRB) (by rw [eT]; exact hRRst) hLst hXsent Lf ?_ ?_⟩
    · intro j hj y
      rw [mem_update_cons, Lb.mem_update_erase hk hr1' hj, L1.mem_update_erase hi hLin hj]
      constructor
      · rintro (⟨h1, h2⟩ | ⟨⟨h, hyl⟩, hyr⟩)
        · exact Or.inl ⟨h2, h1⟩
        · exact Or.inr ⟨h, outside_three _ _ _ _ _ _ _ hld hdr (hnode j hj y h).2
            (hnodel y (hnodeB j hj y h).1) (hnoder y (hnodeB j hj y h).1) hyl hyr⟩
      · rintro (⟨h1, h2⟩ | ⟨h, h'⟩)
        · exact Or.inl ⟨h2, h1⟩
        · exact Or.inr ⟨⟨h, (n10 y h').1⟩, (n10 y h').2⟩
    · intro a ha _ _
      rw [fr a ha, ← hm1]

/-- A block that starts inside the block `a` is `a`. -/
theorem inside_one (a sa x : Nat) (ha : x = a ∨ x + 16 ≤ a ∨ a + sa ≤ x) (h1 : a ≤ x)
    (h2 : x < a + sa) : x = a := by
  omega

/-- A block that starts inside the range of the adjacent blocks `a` and `b` is
one of them. -/
theorem inside_two (a b sa sb x : Nat) (hab : a + sa = b)
    (ha : x = a ∨ x + 16 ≤ a ∨ a + sa ≤ x) (hb : x = b ∨ x + 16 ≤ b ∨ b + sb ≤ x)
    (h1 : a ≤ x) (h2 : x < a + (sa + sb)) : x = a ∨ x = b := by
  omega

/-- A block that starts inside the range of the adjacent blocks `a`, `b` and
`e` is one of them. -/
theorem inside_three (a b e sa sb se x : Nat) (hab : a + sa = b) (hbe : b + sb = e)
    (ha : x = a ∨ x + 16 ≤ a ∨ a + sa ≤ x) (hb : x = b ∨ x + 16 ≤ b ∨ b + sb ≤ x)
    (he : x = e ∨ x + 16 ≤ e ∨ e + se ≤ x)
    (h1 : a ≤ x) (h2 : x < a + (sa + sb + se)) : x = a ∨ x = b ∨ x = e := by
  omega

/-- One call of `free` on the payload of a live block `d` of a well-formed
state: it returns, and the new state is well-formed, with one free block in the
range that `d` and its free neighbours covered.  Every block inside the range
was `d` or free, and a neighbour that was not free lies outside the range. -/
theorem free_step {c : Config} {s : Alloc} {B : List Nat} {FL : Nat → List Nat}
    (wf : WF c s B FL) {d : Nat} (hd : d ∈ B) (hst : get_state s.mem d = ALLOCATED) :
    ∃ m' FL', my_free c s (d + ALLOC_HEADER_SIZE) = FreeResult.returned { s with mem := m' } ∧
      Freed c s B FL (coalesced_start s.mem d) (coalesced_size s.mem d) m' FL' ∧
      coalesced_start s.mem d ≤ d ∧
      d + get_size s.mem d ≤ coalesced_start s.mem d + coalesced_size s.mem d ∧
      (∀ x ∈ B, coalesced_start s.mem d ≤ x →
        x < coalesced_start s.mem d + coalesced_size s.mem d →
        x = d ∨ get_state s.mem x = UNALLOCATED) ∧
      (get_state s.mem (get_left_header s.mem d) ≠ UNALLOCATED →
        coalesced_start s.mem d = d) ∧
      (get_state s.mem (get_right_header s.mem d) ≠ UNALLOCATED →
        coalesced_start s.mem d + coalesced_size s.mem d = d + get_size s.mem d) ∧
      (get_state s.mem (get_right_header s.mem d) = UNALLOCATED →
        get_right_header s.mem d < coalesced_start s.mem d + coalesced_size s.mem d) := by
  obtain ⟨l, r, hlB, hrB, hld, hdr, hsl, hsd, hsr, hrW, hlh, hrh, -, -, -, -, -, -, -, -⟩ :=
    wf.free_facts hd hst
  have hfree : my_free c s (d + ALLOC_HEADER_SIZE) =
      FreeResult.returned { s with mem := coalesce c (set_state s.mem d UNALLOCATED) d } := by
    have e : psub (d + 16) 16 = d := by rw [psub_eq _ _ (by omega) (by omega)]; omega
    unfold my_free deallocate_object ALLOC_HEADER_SIZE
    rw [if_neg (by unfold NULL; omega)]
    simp only [e]
    rw [if_neg (by rw [hst]; decide)]
  have al := fun x (hx : x ∈ B) => wf.apart hx hlB
  have ad := fun x (hx : x ∈ B) => wf.apart hx hd
  have ar := fun x (hx : x ∈ B) => wf.apart hx hrB
  rw [hlh, hrh]
  by_cases hL : get_state s.mem l = UNALLOCATED <;>
    by_cases hR : get_state s.mem r = UNALLOCATED
  · obtain ⟨FL', hF⟩ := freed_both wf hd hst (by rw [hlh]; exact hL) (by rw [hrh]; exact hR)
    have eX : coalesced_start s.mem d = l := by unfold coalesced_start; rw [hlh, if_pos hL]
    have eT : coalesced_size s.mem d = get_size s.mem l + get_size s.mem d + get_size s.mem r := by
      unfold coalesced_size; rw [hlh, hrh, if_pos hL, if_pos hR]
    rw [hlh, hrh] at hF
    rw [eX, eT]
    refine ⟨_, FL', hfree, hF, by omega, by omega, ?_, fun h => absurd hL h,
      fun h => absurd hR h, fun _ => by omega⟩
    intro x hx h1 h2
    rcases inside_three _ _ _ _ _ _ _ hld hdr (al x hx) (ad x hx) (ar x hx) h1 h2 with h | h | h
    · right; rw [h]; exact hL
    · left; exact h
    · right; rw [h]; exact hR
  · obtain ⟨FL', hF⟩ := freed_left wf hd hst (by rw [hlh]; exact hL) (by rw [hrh]; exact hR)
    have eX : coalesced_start s.mem d = l := by unfold coalesced_start; rw [hlh, if_pos hL]
    have eT : coalesced_size s.mem d = get_size s.mem l + get_size s.mem d := by
      unfold coalesced_size; rw [hlh, hrh, if_pos hL, if_neg hR, Nat.add_zero]
    rw [hlh] at hF
    rw [eX, eT]
    refine ⟨_, FL', hfree, hF, by omega, by omega, ?_, fun h => absurd hL h,
      fun _ => by omega, fun h => absurd h hR⟩
    intro x hx h1 h2
    rcases inside_two _ _ _ _ _ hld (al x hx) (ad x hx) h1 h2 with h | h
    · right; rw [h]; exact hL
    · left; exact h
  · obtain ⟨FL', hF⟩ := freed_right wf hd hst (by rw [hlh]; exact hL) (by rw [hrh]; exact hR)
    have eX : coalesced_start s.mem d = d := by unfold coalesced_start; rw [hlh, if_neg hL]
    have eT : coalesced_size s.mem d = get_size s.mem d + get_size s.mem r := by
      unfold coalesced_size; rw [hlh, hrh, if_neg hL, if_pos hR, Nat.zero_add]
    rw [hrh] at hF
    rw [eX, eT]
    refine ⟨_, FL', hfree, hF, by omega, by omega, ?_, fun _ => rfl,
      fun h => absurd hR h, fun _ => by omega⟩
    intro x hx h1 h2
    rcases inside_two _ _ _ _ _ hdr (ad x hx) (ar x hx) h1 h2 with h | h
    · left; exact h
    · right; rw [h]; exact hR
  · obtain ⟨FL', hF⟩ := freed_neither wf hd hst (by rw [hlh]; exact hL) (by rw [hrh]; exact hR)
    have eX : coalesced_start s.mem d = d := by unfold coalesced_start; rw [hlh, if_neg hL]
    have eT : coalesced_size s.mem d = get_size s.mem d := by
      unfold coalesced_size; rw [hlh, hrh, if_neg hL, if_neg hR, Nat.zero_add, Nat.add_zero]
    rw [eX, eT]
    refine ⟨_, FL', hfree, hF, by omega, by omega, ?_, fun _ => rfl, fun _ => rfl,
      fun h => absurd h hR⟩
    intro x hx h1 h2
    left
    exact inside_one _ _ _ (ad x hx) h1 h2

/-- Arithmetic of carving `r` bytes from the right end of a block `b` of
`q + r` bytes with the right neighbour of size `sR`. -/
theorem carve_arith (b q r sR : Nat) (hq32 : 32 ≤ q) (hr32 : 32 ≤ r) (hr8 : r % 8 = 0)
    (hb8 : (q + r) % 8 = 0) (hRhi : b + q + r + sR ≤ WORD) (hRs : 16 ≤ sR) :
    q % 8 = 0 ∧ b + q + 8 < WORD ∧ q / 4 * 4 = q ∧ q % 4 = 0 ∧ (r + 1) / 4 * 4 = r ∧
    (r + 1) % 4 = 1 ∧ b ≠ b + q + r ∧ b + q + r ≤ WORD ∧ b + q ≤ WORD := by
  refine ⟨?_, ?_, ?_, ?_, ?_, ?_, ?_, ?_, ?_⟩ <;> omega

/-- A header far from the carved block is none of the words that carving
writes. -/
theorem carve_ne (b q r x : Nat) (hr32 : 32 ≤ r)
    (h1 : x + 16 ≤ b ∨ b + q + r ≤ x)
    (h2 : x = b + q + r ∨ x + 16 ≤ b + q + r ∨ b + q + r + 16 ≤ x) :
    x ≠ b + q ∧ x ≠ b + q + 8 ∧ x ≠ b + q + r + 8 := by
  refine ⟨?_, ?_, ?_⟩ <;> omega

/-- The `left_size` word of a block other than the right neighbour is none of
the words that carving writes. -/
theorem carve_ne_left (b q r x : Nat) (hq32 : 32 ≤ q) (hr32 : 32 ≤ r)
    (h1 : x = b ∨ x + 16 ≤ b ∨ b + q + r ≤ x) (h2 : x ≠ b + q + r) :
    x + 8 ≠ b ∧ x + 8 ≠ b + q ∧ x + 8 ≠ b + q + 8 ∧ x + 8 ≠ b + q + r + 8 := by
  refine ⟨?_, ?_, ?_, ?_⟩ <;> omega

/-- The sentinel array lies outside both parts of a carved block. -/
theorem carve_sent (b q r G : Nat) (h : b + (q + r) ≤ G ∨ G + 1888 ≤ b) :
    (b + q + r ≤ G ∨ G + 1888 ≤ b + q) ∧ (b + q ≤ G ∨ G + 1888 ≤ b) := by
  constructor <;> omega

/-- A left neighbour is not the block itself. -/
theorem sub_ne_self (b l : Nat) (h16 : 16 ≤ l) (hle : l ≤ b) : b - l ≠ b := by
  omega

/-- The block whose left neighbour is `b`, of size `q + r`, starts at
`b + q + r`. -/
theorem right_of_left (x l b q r : Nat) (h1 : l ≤ x) (e : x - l = b) (h3 : q + r = l) :
    x = b + q + r := by
  omega

/-- Carving an allocated block from the right end of a free block keeps a
state well-formed, when the shrunk block stays on its list: the free block `b`
of size `q + r` becomes a free block of size `q`, followed by the new
`ALLOCATED` block `b + q` of size `r`. -/
theorem WF.carve {c : Config} {s : Alloc} {B : List Nat} {FL : Nat → List Nat}
    (wf : WF c s B FL) (m' : Mem) {b q r : Nat}
    (hb : b ∈ B) (hbst : get_state s.mem b = UNALLOCATED)
    (hq : get_size s.mem b = q + r) (hq32 : 32 ≤ q) (hr32 : 32 ≤ r) (hr8 : r % 8 = 0)
    (hidx : list_index q = list_index (q + r))
    (L' : Lists c m' FL)
    (hsw : ∀ i, i < 59 → m' (sentinel c i) = 0)
    (vb : m' b = q) (vA : m' (b + q) = r + 1) (vA8 : m' (b + q + 8) = q)
    (vR8 : m' (b + q + r + 8) = r)
    (vx : ∀ x, x ≠ b → x ≠ b + q → x ≠ b + q + 8 → x ≠ b + q + r + 8 → m' x = s.mem x) :
    WF c { s with mem := m' } ((b + q) :: B) FL ∧ ∀ x ∈ B, x ≠ b → m' x = s.mem x := by
  have hbnf : get_state s.mem b ≠ FENCEPOST := by rw [hbst]; decide
  obtain ⟨-, hb8, -⟩ := wf.block b hb hbnf
  obtain ⟨hRB, hRl⟩ := wf.right b hb hbnf
  rw [hq, ← Nat.add_assoc] at hRB hRl
  have hRhi := wf.block_hi _ hRB
  have hRs := wf.block_size hRB
  rw [hq] at hb8
  obtain ⟨hq8, a1, a2, a3, a4, a5, a6, a7, a8⟩ :=
    carve_arith b q r _ hq32 hr32 hr8 hb8 hRhi hRs
  have hbsent := carve_sent b q r c.freelistSentinels (hq ▸ wf.block_sent b hb)
  have hapb : ∀ x ∈ B, x ≠ b → x + 16 ≤ b ∨ b + q + r ≤ x := by
    intro x hx hxb
    rcases wf.apart hx hb with h | h | h
    · exact absurd h hxb
    · exact Or.inl h
    · rw [hq, ← Nat.add_assoc] at h; exact Or.inr h
  have hapR : ∀ x ∈ B, x = b + q + r ∨ x + 16 ≤ b + q + r ∨ b + q + r + 16 ≤ x := by
    intro x hx
    rcases wf.apart hx hRB with h | h | h
    · exact Or.inl h
    · exact Or.inr (Or.inl h)
    · exact Or.inr (Or.inr (le_trans (Nat.add_le_add_left hRs _) h))
  have hsz : ∀ x ∈ B, 16 ≤ get_size s.mem x := fun x hx => wf.block_size hx
  have hw : ∀ x ∈ B, x ≠ b → m' x = s.mem x := by
    intro x hx hxb
    obtain ⟨k1, k2, k3⟩ := carve_ne b q r x hr32 (hapb x hx hxb) (hapR x hx)
    exact vx x hxb k1 k2 k3
  have hl : ∀ x ∈ B, x ≠ b + q + r → m' (x + 8) = s.mem (x + 8) := by
    intro x hx hxR
    have h1 : x = b ∨ x + 16 ≤ b ∨ b + q + r ≤ x := by
      by_cases hxb : x = b
      · exact Or.inl hxb
      · exact Or.inr (hapb x hx hxb)
    obtain ⟨k1, k2, k3, k4⟩ := carve_ne_left b q r x hq32 hr32 h1 hxR
    exact vx _ k1 k2 k3 k4
  have hp8 : ∀ x ∈ B, padd x 8 = x + 8 := by
    intro x hx
    exact padd_eq _ _ (lt_of_lt_of_le
      (Nat.add_lt_add_left (lt_of_lt_of_le (by decide) (hsz x hx)) x) (wf.block_hi x hx))
  have hpA : padd (b + q) 8 = b + q + 8 := padd_eq _ _ a1
  have hsame : ∀ x ∈ B, x ≠ b →
      get_size m' x = get_size s.mem x ∧ get_state m' x = get_state s.mem x :=
    fun x hx h => ⟨get_size_congr _ _ _ (hw x hx h), get_state_congr _ _ _ (hw x hx h)⟩
  have hls : ∀ x ∈ B, x ≠ b + q + r → left_size m' x = left_size s.mem x := by
    intro x hx h
    unfold left_size
    rw [hp8 x hx, hl x hx h]
  have hbsz : get_size m' b = q := by unfold get_size; rw [vb]; exact a2
  have hbstate : get_state m' b = UNALLOCATED := by
    unfold get_state UNALLOCATED; rw [vb]; exact a3
  have hAsz : get_size m' (b + q) = r := by unfold get_size; rw [vA]; exact a4
  have hAstate : get_state m' (b + q) = ALLOCATED := by
    unfold get_state ALLOCATED; rw [vA]; exact a5
  have hAls : left_size m' (b + q) = q := by unfold left_size; rw [hpA, vA8]
  have hRls : left_size m' (b + q + r) = r := by unfold left_size; rw [hp8 _ hRB, vR8]
  have hsplit : ∀ x, x ∈ (b + q) :: B → x = b + q ∨ x = b ∨ (x ∈ B ∧ x ≠ b) := by
    intro x hx
    rcases List.mem_cons.mp hx with h | h
    · exact Or.inl h
    · by_cases hxb : x = b
      · exact Or.inr (Or.inl hxb)
      · exact Or.inr (Or.inr ⟨h, hxb⟩)
  have hAB : b + q ∈ (b + q) :: B := List.mem_cons_self _ _
  have hsub : ∀ x, x ∈ B → x ∈ (b + q) :: B := fun x hx => List.mem_cons_of_mem _ hx
  refine ⟨⟨L', hsw, ?_, ?_, ?_, ?_, ?_, ?_, ?_, ?_, ?_, ?_⟩, hw⟩
  · -- block_hi
    intro x hx
    rcases hsplit x hx with h | h | ⟨h, hxb⟩
    · simp only [h, hAsz]; exact a7
    · simp only [h, hbsz]; exact a8
    · simp only [(hsame x h hxb).1]; exact wf.block_hi x h
  · -- block_sent
    intro x hx
    rcases hsplit x hx with h | h | ⟨h, hxb⟩
    · simp only [h, hAsz]; exact hbsent.1
    · simp only [h, hbsz]; exact hbsent.2
    · simp only [(hsame x h hxb).1]; exact wf.block_sent x h
  · -- disjoint
    intro x hx y hy
    rcases hsplit x hx with h | h | ⟨h, hxb⟩ <;> rcases hsplit y hy with h' | h' | ⟨h', hyb⟩
    · left; rw [h, h']
    · simp only [h, h', hAsz, hbsz]; exact Or.inr (Or.inr (le_refl _))
    · simp only [h, hAsz, (hsame y h' hyb).1]
      rcases wf.disjoint y h' b hb with e | e | e
      · exact absurd e hyb
      · exact Or.inr (Or.inr (le_trans e (Nat.le_add_right b q)))
      · rw [hq, ← Nat.add_assoc] at e; exact Or.inr (Or.inl e)
    · simp only [h, h', hAsz, hbsz]; exact Or.inr (Or.inl (le_refl _))
    · left; rw [h, h']
    · simp only [h, hbsz, (hsame y h' hyb).1]
      rcases wf.disjoint y h' b hb with e | e | e
      · exact absurd e hyb
      · exact Or.inr (Or.inr e)
      · rw [hq] at e
        exact Or.inr (Or.inl (le_trans (Nat.add_le_add_left (Nat.le_add_right q r) b) e))
    · simp only [h', hAsz, (hsame x h hxb).1]
      rcases wf.disjoint x h b hb with e | e | e
      · exact absurd e hxb
      · exact Or.inr (Or.inl (le_trans e (Nat.le_add_right b q)))
      · rw [hq, ← Nat.add_assoc] at e; exact Or.inr (Or.inr e)
    · simp only [h', hbsz, (hsame x h hxb).1]
      rcases wf.disjoint x h b hb with e | e | e
      · exact absurd e hxb
      · exact Or.inr (Or.inl e)
      · rw [hq] at e
        exact Or.inr (Or.inr (le_trans (Nat.add_le_add_left (Nat.le_add_right q r) b) e))
    · simp only [(hsame x h hxb).1, (hsame y h' hyb).1]
      exact wf.disjoint x h y h'
  · -- fencepost
    intro x hx hst
    rcases hsplit x hx with h | h | ⟨h, hxb⟩
    · rw [h, hAstate] at hst; exact absurd hst (by decide)
    · rw [h, hbstate] at hst; exact absurd hst (by decide)
    · simp only [(hsame x h hxb).1]
      rw [(hsame x h hxb).2] at hst
      exact wf.fencepost x h hst
  · -- block
    intro x hx hst
    rcases hsplit x hx with h | h | ⟨h, hxb⟩
    · simp only [h, hAsz, hAstate]
      exact ⟨Or.inr trivial, hr8, hr32⟩
    · simp only [h, hbsz, hbstate]
      exact ⟨Or.inl trivial, hq8, hq32⟩
    · simp only [(hsame x h hxb).1, (hsame x h hxb).2] at hst ⊢
      exact wf.block x h hst
  · -- right
    intro x hx hst
    rcases hsplit x hx with h | h | ⟨h, hxb⟩
    · simp only [h, hAsz]
      exact ⟨hsub _ hRB, hRls⟩
    · simp only [h, hbsz]
      exact ⟨hAB, hAls⟩
    · simp only [(hsame x h hxb).1, (hsame x h hxb).2] at hst ⊢
      obtain ⟨hy, hyl⟩ := wf.right x h hst
      refine ⟨hsub _ hy, ?_⟩
      have hne : x + get_size s.mem x ≠ b + q + r := by
        intro e
        exact hxb (wf.same_end h hb (by rw [e, hq, Nat.add_assoc]))
      rw [hls _ hy hne]
      exact hyl
  · -- left
    intro x hx hst
    rcases hsplit x hx with h | h | ⟨h, hxb⟩
    · rw [h, hAls]
      refine ⟨Nat.le_add_left q b, ?_, ?_⟩
      · rw [Nat.add_sub_cancel]; exact hsub _ hb
      · rw [Nat.add_sub_cancel]; exact hbsz
    · rw [h]
      obtain ⟨h1, h2, h3⟩ := wf.left b hb hbnf
      have hys := hsz _ h2
      rw [h3] at hys
      rw [hls b hb a6]
      refine ⟨h1, hsub _ h2, ?_⟩
      rw [(hsame _ h2 (sub_ne_self b _ hys h1)).1]
      exact h3
    · by_cases hxR : x = b + q + r
      · rw [hxR, hRls]
        refine ⟨Nat.le_add_left r (b + q), ?_, ?_⟩
        · rw [Nat.add_sub_cancel]; exact hAB
        · rw [Nat.add_sub_cancel]; exact hAsz
      · simp only [(hsame x h hxb).2] at hst
        obtain ⟨h1, h2, h3⟩ := wf.left x h hst
        rw [hls x h hxR]
        have hne : x - left_size s.mem x ≠ b := by
          intro e
          rw [e, hq] at h3
          exact hxR (right_of_left x _ b q r h1 e h3)
        refine ⟨h1, hsub _ h2, ?_⟩
        rw [(hsame _ h2 hne).1]
        exact h3
  · -- coalesced
    intro x hx hst
    rcases hsplit x hx with h | h | ⟨h, hxb⟩
    · rw [h, hAstate] at hst; exact absurd hst (by decide)
    · simp only [h, hbsz, hAstate]; decide
    · simp only [(hsame x h hxb).1, (hsame x h hxb).2] at hst ⊢
      have hnf : get_state s.mem x ≠ FENCEPOST := by rw [hst]; decide
      obtain ⟨hy, -⟩ := wf.right x h hnf
      have hc := wf.coalesced x h hst
      have hne : x + get_size s.mem x ≠ b := fun e => hc (by rw [e]; exact hbst)
      rw [(hsame _ hy hne).2]
      exact hc
  · -- free_listed
    intro x hx hst
    rcases hsplit x hx with h | h | ⟨h, hxb⟩
    · rw [h, hAstate] at hst; exact absurd hst (by decide)
    · simp only [h, hbsz]
      have := wf.free_listed b hb hbst
      rw [hq, ← hidx] at this
      exact this
    · simp only [(hsame x h hxb).1, (hsame x h hxb).2] at hst ⊢
      exact wf.free_listed x h hst
  · -- listed_free
    intro i hi x hx
    obtain ⟨q1, q2, q3⟩ := wf.listed_free i hi x hx
    by_cases hxb : x = b
    · rw [hxb] at q3 ⊢
      simp only [hbsz, hbstate]
      rw [hq, ← hidx] at q3
      exact ⟨hsub _ hb, trivial, q3⟩
    · simp only [(hsame x q1 hxb).1, (hsame x q1 hxb).2]
      exact ⟨hsub _ q1, q2, q3⟩

/-- Arithmetic of serving `r` bytes in place from a block `b` of `q + r` bytes
on the last list. -/
theorem inplace_arith (b q r : Nat) (hr32 : 32 ≤ r) (hr8 : r % 8 = 0) (hq488 : 488 ≤ q)
    (hs8 : (q + r) % 8 = 0) (hRW : b + (q + r) + 16 ≤ WORD) :
    (q % 8 = 0 ∧ b + 32 ≤ b + q ∧ b + q < b + (q + r) ∧ b + 32 ≤ b + q + 8 ∧
      b + q + 8 < b + (q + r) ∧ r ≤ q + r ∧ q + r < WORD ∧ q + r - r = q ∧ q / 4 * 4 = q) ∧
    (q / 4 * 4 + (q + r) % 4 = q ∧ q + r ≠ r ∧ 0 < q ∧ r % 4 = 0 ∧ b + q + r + 8 < WORD ∧
      32 ≤ q ∧ q < WORD ∧ 488 ≤ q + r) ∧
    b ≠ b + q ∧ b ≠ b + q + 8 ∧ b ≠ b + q + r + 8 ∧ b + q ≠ b + q + 8 ∧
    b + q ≠ b + q + r + 8 ∧ b + q + 8 ≠ b + q + r + 8 := by
  refine ⟨⟨?_, ?_, ?_, ?_, ?_, ?_, ?_, ?_, ?_⟩, ⟨?_, ?_, ?_, ?_, ?_, ?_, ?_, ?_⟩,
    ?_, ?_, ?_, ?_, ?_, ?_⟩ <;> omega

/-- No sentinel is one of the words that serving in place writes. -/
theorem inplace_sent (G b q r sR i : Nat) (hi : i < 59)
    (h1 : b + (q + r) ≤ G ∨ G + 1888 ≤ b)
    (h2 : b + q + r + sR ≤ G ∨ G + 1888 ≤ b + q + r) (h3 : 16 ≤ sR) :
    G + 32 * i ≠ b ∧ G + 32 * i ≠ b + q ∧ G + 32 * i ≠ b + q + 8 ∧
    G + 32 * i ≠ b + q + r + 8 := by
  refine ⟨?_, ?_, ?_, ?_⟩ <;> omega

/-- The scan of `allocate_object` serving a request of `r` bytes from the block
`b` of the last list in place (the remainder `q` stays on the last list): the
new state is well-formed, with the new `ALLOCATED` block `b + q` of size `r`,
whose payload is returned. -/
theorem alloc_inplace_step {c : Config} {s : Alloc} {B : List Nat} {FL : Nat → List Nat}
    (wf : WF c s B FL) {b r q : Nat} (hb : b ∈ FL 58)
    (hr32 : 32 ≤ r) (hr8 : r % 8 = 0) (hq : get_size s.mem b = q + r) (hq488 : 488 ≤ q) :
    ∃ m', served c s.mem b r 58 = (b + q + 16, m') ∧
      WF c { s with mem := m' } ((b + q) :: B) FL ∧
      m' b = q ∧ m' (b + q) = r + 1 ∧ ∀ x ∈ B, x ≠ b → m' x = s.mem x := by
  have hi : (58 : Nat) < 59 := by decide
  obtain ⟨hbB, hword, hnf, -, -, -⟩ := wf.free_block hi hb
  obtain ⟨hsb, hRB, hRW, -, -, -, -, -, -, -⟩ := wf.around hbB hnf
  obtain ⟨lfb, -⟩ := wf.linkFree hbB
  obtain ⟨-, lfR8⟩ := wf.linkFree hRB
  have hbst := (wf.listed_free 58 hi b hb).2.1
  have hs8 := (wf.node_size hi hb).2.1
  rw [hq] at hs8 hRW
  obtain ⟨⟨hq8, g1, g2, g3, g4, g5, g6, g7, g8⟩, ⟨g9, g10, g11, g12, g13, g14, g15, g16⟩,
    n1, n2, n3, n4, n5, n6⟩ := inplace_arith b q r hr32 hr8 hq488 hs8 hRW
  clear hs8
  have lfA : LinkFree c FL (b + q) := wf.linkFree_inside hi hb g1 (by rw [hq]; exact g2)
  have lfA8 : LinkFree c FL (b + q + 8) := wf.linkFree_inside hi hb g3 (by rw [hq]; exact g4)
  rw [hq] at lfR8 hRB
  rw [← Nat.add_assoc] at hRW lfR8 hRB
  have hus : usub (q + r) r = q := by rw [usub_eq _ _ g5 g6]; exact g7
  have hm' : set_size s.mem b q = store s.mem b q := by
    unfold set_size
    rw [hword, hq, g9]
  have hserved : served c s.mem b r 58 =
      (b + q + 16, store (store (store (store (store s.mem b q) (b + q)
        (r + store s.mem b q (b + q) % 4)) (b + q) (r + 1)) (b + q + 8) q) (b + q + r + 8) r) := by
    unfold served
    rw [if_neg (by rw [hq]; exact g10), hq, hus, if_pos ⟨rfl, hq488⟩, hm']
    exact carve_eq _ b r q (by unfold get_size; rw [store_eq]; exact g8) g11 g12
      hr32 g13
  have hidx : list_index q = list_index (q + r) := by
    rw [list_index_big q hq488 g15, list_index_big (q + r) g16 g6]
  have hsent : ∀ i, i < 59 → c.freelistSentinels + 32 * i ≠ b ∧
      c.freelistSentinels + 32 * i ≠ b + q ∧ c.freelistSentinels + 32 * i ≠ b + q + 8 ∧
      c.freelistSentinels + 32 * i ≠ b + q + r + 8 := by
    intro i hi'
    exact inplace_sent c.freelistSentinels b q r _ i hi' (hq ▸ wf.block_sent b hbB)
      (wf.block_sent _ hRB) (wf.block_size hRB)
  rw [hserved]
  refine ⟨_, rfl, ?_⟩
  have key := wf.carve (store (store (store (store (store s.mem b q) (b + q)
      (r + store s.mem b q (b + q) % 4)) (b + q) (r + 1)) (b + q + 8) q) (b + q + r + 8) r)
    hbB hbst hq g14 hr32 hr8 hidx ?_ ?_ ?_ ?_ ?_ ?_ ?_
  · refine ⟨key.1, ?_, ?_, key.2⟩
    · rw [store_ne _ _ _ _ n3, store_ne _ _ _ _ n2, store_ne _ _ _ _ n1, store_ne _ _ _ _ n1,
        store_eq]
    · rw [store_ne _ _ _ _ n5, store_ne _ _ _ _ n4, store_eq]
  · apply wf.lists.congr
    intro a ha
    have h1 : a ≠ b := fun h => ha (h ▸ lfb)
    have h2 : a ≠ b + q := fun h => ha (h ▸ lfA)
    have h3 : a ≠ b + q + 8 := fun h => ha (h ▸ lfA8)
    have h4 : a ≠ b + q + r + 8 := fun h => ha (h ▸ lfR8)
    rw [store_ne _ _ _ _ h4, store_ne _ _ _ _ h3, store_ne _ _ _ _ h2, store_ne _ _ _ _ h2,
      store_ne _ _ _ _ h1]
  · intro i hi'
    have h0 := wf.sentinel_word i hi'
    rw [sentinel_eq c i wf.lists.sent_hi hi'] at h0 ⊢
    obtain ⟨h1, h2, h3, h4⟩ := hsent i hi'
    rw [store_ne _ _ _ _ h4, store_ne _ _ _ _ h3, store_ne _ _ _ _ h2, store_ne _ _ _ _ h2,
      store_ne _ _ _ _ h1]
    exact h0
  · rw [store_ne _ _ _ _ n3, store_ne _ _ _ _ n2, store_ne _ _ _ _ n1, store_ne _ _ _ _ n1,
      store_eq]
  · rw [store_ne _ _ _ _ n5, store_ne _ _ _ _ n4, store_eq]
  · rw [store_ne _ _ _ _ n6, store_eq]
  · rw [store_eq]
  · intro x h1 h2 h3 h4
    rw [store_ne _ _ _ _ h4, store_ne _ _ _ _ h3, store_ne _ _ _ _ h2, store_ne _ _ _ _ h2,
      store_ne _ _ _ _ h1]

/-- Requests of at most 1000 bytes need at most 1016. -/
theorem required_size_le (n : Nat) (h : n ≤ 1000) : required_size n ≤ 1016 := by
  unfold required_size uadd umul WORD
  simp only []
  split <;> split <;> omega

/-- `my_malloc` on a state whose only free blocks are on the last list, when the
head `b` of that list leaves a remainder `q` of 488 bytes or more: the block is
shrunk in place, and the new `ALLOCATED` block `b + q` follows it. -/
theorem malloc_inplace {c : Config} {s : Alloc} {B : List Nat} {FL : Nat → List Nat}
    (wf : WF c s B FL) {n fuel b q : Nat} {post : List Nat} (hn1 : 1 ≤ n) (hn2 : n < WORD)
    (hfuel : ∀ j, j < 59 → (FL j).length < fuel)
    (hFL : ∀ j, j < 58 → FL j = []) (h58 : FL 58 = b :: post)
    (hq : get_size s.mem b = q + required_size n) (hq488 : 488 ≤ q) :
    ∃ m', my_malloc c fuel s n = some (b + q + 16, { s with mem := m' }) ∧
      WF c { s with mem := m' } ((b + q) :: B) FL ∧
      m' b = q ∧ m' (b + q) = required_size n + 1 ∧ ∀ x ∈ B, x ≠ b → m' x = s.mem x := by
  obtain ⟨hr32, hr8, -⟩ := required_size_props n
  have hb : b ∈ FL 58 := by rw [h58]; exact List.mem_cons_self _ _
  have ff : FirstFit s.mem FL (required_size n) 58 [] b post := by
    refine ⟨by decide, by rw [h58]; rfl, ?_, ?_, by omega⟩
    · intro j hj x hx
      rw [hFL j hj] at hx
      exact absurd hx (List.not_mem_nil x)
    · intro x hx
      exact absurd hx (List.not_mem_nil x)
  obtain ⟨m', hs, hwf, h1, h2, h3⟩ := alloc_inplace_step wf hb hr32 hr8 hq hq488
  refine ⟨m', ?_, hwf, h1, h2, h3⟩
  rw [my_malloc_first_fit wf hn1 hn2 hfuel ff, hs]

/-- One call of `free` on the payload of a live block `d`, in the form for
sequences of calls: what the new state keeps of the old one. -/
theorem free_keeps {c : Config} {s : Alloc} {B : List Nat} {FL : Nat → List Nat}
    (wf : WF c s B FL) {d : Nat} (hd : d ∈ B) (hst : get_state s.mem d = ALLOCATED) :
    ∃ m' B' FL', my_free c s (d + ALLOC_HEADER_SIZE) =
        FreeResult.returned { s with mem := m' } ∧
      WF c { s with mem := m' } B' FL' ∧
      (∀ x ∈ B', x ∈ B) ∧
      (∀ x ∈ B, x ≠ d → get_state s.mem x ≠ UNALLOCATED → x ∈ B' ∧ m' x = s.mem x) ∧
      (∀ x ∈ B', get_state m' x ≠ UNALLOCATED → m' x = s.mem x ∧ x ≠ d) ∧
      (∃ X, X ∈ B' ∧ get_state m' X = UNALLOCATED) := by
  obtain ⟨m', FL', hfree, hF, hXd, hdT, hrange, -, -, -⟩ := free_step wf hd hst
  have hsd : 32 ≤ get_size s.mem d := (wf.block d hd (by rw [hst]; decide)).2.2
  generalize coalesced_start s.mem d = X at *
  generalize coalesced_size s.mem d = T at *
  have hXin : X ∈ FL' (list_index T) :=
    (hF.index _ (list_index_lt _) X).mpr (Or.inl ⟨rfl, rfl⟩)
  obtain ⟨hXB, hXst0, -⟩ := hF.wf.listed_free _ (list_index_lt _) X hXin
  have hXst : get_state m' X = UNALLOCATED := hXst0
  refine ⟨m', _, FL', hfree, hF.wf, fun x hx => (List.mem_filter.mp hx).1, ?_, ?_,
    ⟨X, hXB, hXst⟩⟩
  · intro x hx hxd hxs
    have hout : x < X ∨ X + T ≤ x := by
      by_contra hc
      rcases hrange x hx (by omega) (by omega) with h | h
      · exact hxd h
      · exact hxs h
    refine ⟨List.mem_filter.mpr ⟨hx, decide_eq_true (by omega)⟩, hF.same x hx hout⟩
  · intro x hx hxs
    obtain ⟨hxB, hdec⟩ := List.mem_filter.mp hx
    have hdec' := of_decide_eq_true hdec
    have hxX : x ≠ X := fun e => hxs (by rw [e]; exact hXst)
    exact ⟨hF.same x hxB (by omega), by omega⟩

/-- A list without repetition whose elements all equal `a` is `[a]` when it
holds `a`. -/
theorem eq_singleton_of_all_eq {l : List Nat} {a : Nat} (hnd : l.Nodup)
    (hall : ∀ y ∈ l, y = a) (ha : a ∈ l) : l = [a] := by
  cases l with
  | nil => exact absurd ha (List.not_mem_nil a)
  | cons x t =>
    have hx : x = a := hall x (List.mem_cons_self _ _)
    cases t with
    | nil => rw [hx]
    | cons y u =>
      have hy : y = a := hall y (List.mem_cons_of_mem _ (List.mem_cons_self _ _))
      have := (List.nodup_cons.mp hnd).1
      rw [hx, hy] at this
      exact absurd (List.mem_cons_self _ _) this

/-- A well-formed state between the fenceposts `LF` and `RF` in which no block
is `ALLOCATED` has one free block, filling the space between them, and that
block is the only node of the free-list index. -/
theorem WF.single_free {c : Config} {s : Alloc} {B : List Nat} {FL : Nat → List Nat}
    (wf : WF c s B FL) (LF RF : Nat)
    (hfp : ∀ x ∈ B, get_state s.mem x ≠ UNALLOCATED →
      (x = LF ∨ x = RF) ∧ get_state s.mem x = FENCEPOST)
    (hbd : ∀ x ∈ B, LF ≤ x ∧ x ≤ RF)
    (hex : ∃ X, X ∈ B ∧ get_state s.mem X = UNALLOCATED) :
    LF + 16 ∈ B ∧ get_state s.mem (LF + 16) = UNALLOCATED ∧
    get_size s.mem (LF + 16) = RF - LF - 16 ∧ LF + 16 < RF ∧
    (∀ x ∈ B, x = LF ∨ x = LF + 16 ∨ x = RF) ∧
    ∀ j, j < 59 → FL j = if j = list_index (RF - LF - 16) then [LF + 16] else [] := by
  have key : ∀ X ∈ B, get_state s.mem X = UNALLOCATED →
      X = LF + 16 ∧ get_size s.mem X = RF - LF - 16 ∧ LF + 16 < RF := by
    intro X hX hXst
    have hnf : get_state s.mem X ≠ FENCEPOST := by rw [hXst]; decide
    obtain ⟨h1, h2, h3⟩ := wf.left X hX hnf
    obtain ⟨h4, -⟩ := wf.right X hX hnf
    have h5 := wf.coalesced X hX hXst
    have hs := (wf.block X hX hnf).2.2
    have hLst : get_state s.mem (X - left_size s.mem X) ≠ UNALLOCATED := by
      intro e
      have := wf.coalesced _ h2 e
      rw [h3, Nat.sub_add_cancel h1] at this
      exact this hXst
    obtain ⟨hL1, hL2⟩ := hfp _ h2 hLst
    obtain ⟨hR1, -⟩ := hfp _ h4 h5
    have hL3 := wf.fencepost _ h2 hL2
    rw [h3] at hL3
    have b1 := hbd X hX
    have b2 := hbd _ h4
    clear hnf h5 hLst hL2 h3
    omega
  obtain ⟨X, hX, hXst⟩ := hex
  obtain ⟨k1, k2, k3⟩ := key X hX hXst
  rw [k1] at hX hXst k2
  have hall : ∀ j, j < 59 → ∀ y ∈ FL j, y = LF + 16 ∧ j = list_index (RF - LF - 16) := by
    intro j hj y hy
    obtain ⟨q1, q2, q3⟩ := wf.listed_free j hj y hy
    obtain ⟨e1, e2, -⟩ := key y q1 q2
    rw [e2] at q3
    exact ⟨e1, q3.symm⟩
  refine ⟨hX, hXst, k2, k3, ?_, ?_⟩
  · intro x hx
    by_cases hxs : get_state s.mem x = UNALLOCATED
    · exact Or.inr (Or.inl (key x hx hxs).1)
    · rcases (hfp x hx hxs).1 with h | h
      · exact Or.inl h
      · exact Or.inr (Or.inr h)
  · intro j hj
    by_cases hjx : j = list_index (RF - LF - 16)
    · rw [if_pos hjx]
      have hmem := wf.free_listed _ hX hXst
      rw [k2, ← hjx] at hmem
      exact eq_singleton_of_all_eq (wf.lists.nodup j hj) (fun y hy => (hall j hj y hy).1) hmem
    · rw [if_neg hjx]
      cases hl : FL j with
      | nil => rfl
      | cons y t =>
        have : y ∈ FL j := by rw [hl]; exact List.mem_cons_self _ _
        exact absurd (hall j hj y this).2 hjx

/-- Freeing three live blocks of a well-formed state whose other blocks are the
fenceposts `LF` and `RF` and free blocks: all three calls return, and the final
state is well-formed with the one free block `LF + 16`, which fills the space
between the fenceposts and is the only node of the index. -/
theorem three_frees {c : Config} {s : Alloc} {B : List Nat} {FL : Nat → List Nat}
    (wf : WF c s B FL) {d1 d2 d3 : Nat} (LF RF : Nat)
    (h1 : d1 ∈ B) (h2 : d2 ∈ B) (h3 : d3 ∈ B)
    (s1 : get_state s.mem d1 = ALLOCATED) (s2 : get_state s.mem d2 = ALLOCATED)
    (s3 : get_state s.mem d3 = ALLOCATED)
    (n12 : d1 ≠ d2) (n13 : d1 ≠ d3) (n23 : d2 ≠ d3)
    (hfp : ∀ x ∈ B, get_state s.mem x ≠ UNALLOCATED → x = d1 ∨ x = d2 ∨ x = d3 ∨
      ((x = LF ∨ x = RF) ∧ get_state s.mem x = FENCEPOST))
    (hbd : ∀ x ∈ B, LF ≤ x ∧ x ≤ RF)
    (hRF : RF ∈ B) (hRFst : get_state s.mem RF = FENCEPOST) :
    ∃ m4 m5 m6 B6 FL6,
      my_free c s (d1 + ALLOC_HEADER_SIZE) = FreeResult.returned { s with mem := m4 } ∧
      my_free c { s with mem := m4 } (d2 + ALLOC_HEADER_SIZE) =
        FreeResult.returned { s with mem := m5 } ∧
      my_free c { s with mem := m5 } (d3 + ALLOC_HEADER_SIZE) =
        FreeResult.returned { s with mem := m6 } ∧
      WF c { s with mem := m6 } B6 FL6 ∧
      get_state m6 (LF + 16) = UNALLOCATED ∧ get_size m6 (LF + 16) = RF - LF - 16 ∧
      LF + 16 < RF ∧ (∀ x ∈ B6, x = LF ∨ x = LF + 16 ∨ x = RF) ∧
      (∀ j, j < 59 → FL6 j = if j = list_index (RF - LF - 16) then [LF + 16] else []) ∧
      get_state m6 RF = FENCEPOST := by
  have a2 : get_state s.mem d2 ≠ UNALLOCATED := by rw [s2]; decide
  have a3 : get_state s.mem d3 ≠ UNALLOCATED := by rw [s3]; decide
  have aR : get_state s.mem RF ≠ UNALLOCATED := by rw [hRFst]; decide
  have nR1 : RF ≠ d1 := fun e => by rw [e, s1] at hRFst; exact absurd hRFst (by decide)
  have nR2 : RF ≠ d2 := fun e => by rw [e, s2] at hRFst; exact absurd hRFst (by decide)
  have nR3 : RF ≠ d3 := fun e => by rw [e, s3] at hRFst; exact absurd hRFst (by decide)
  -- the first call
  obtain ⟨m4, B4, FL4, f4, wf4, sub4, kept4, nf4, -⟩ := free_keeps wf h1 s1
  obtain ⟨h2', e2⟩ := kept4 d2 h2 n12.symm a2
  obtain ⟨h3', e3⟩ := kept4 d3 h3 n13.symm a3
  obtain ⟨hR', eR⟩ := kept4 RF hRF nR1 aR
  have s2' : get_state m4 d2 = ALLOCATED := (get_state_congr _ _ _ e2).trans s2
  have s3' : get_state m4 d3 = ALLOCATED := (get_state_congr _ _ _ e3).trans s3
  have sR' : get_state m4 RF = FENCEPOST := (get_state_congr _ _ _ eR).trans hRFst
  -- the second call
  obtain ⟨m5, B5, FL5, f5, wf5, sub5, kept5, nf5, -⟩ :=
    free_keeps (s := { s with mem := m4 }) wf4 h2' s2'
  obtain ⟨h3'', e3'⟩ := kept5 d3 h3' n23.symm (by
    show get_state m4 d3 ≠ UNALLOCATED
    rw [s3']; decide)
  obtain ⟨hR'', eR'⟩ := kept5 RF hR' nR2 (by
    show get_state m4 RF ≠ UNALLOCATED
    rw [sR']; decide)
  have s3'' : get_state m5 d3 = ALLOCATED := (get_state_congr _ _ _ e3').trans s3'
  have sR'' : get_state m5 RF = FENCEPOST := (get_state_congr _ _ _ eR').trans sR'
  -- the third call
  obtain ⟨m6, B6, FL6, f6, wf6, sub6, kept6, nf6, ex6⟩ :=
    free_keeps (s := { s with mem := m5 }) wf5 h3'' s3''
  obtain ⟨-, eR''⟩ := kept6 RF hR'' nR3 (by
    show get_state m5 RF ≠ UNALLOCATED
    rw [sR'']; decide)
  have sR6 : get_state m6 RF = FENCEPOST := (get_state_congr _ _ _ eR'').trans sR''
  have hfp6 : ∀ x ∈ B6, get_state m6 x ≠ UNALLOCATED →
      (x = LF ∨ x = RF) ∧ get_state m6 x = FENCEPOST := by
    intro x hx hxs
    obtain ⟨w6, x3⟩ := nf6 x hx hxs
    have hx5 := sub6 x hx
    have hxs5 : get_state m5 x ≠ UNALLOCATED := by
      rw [← get_state_congr _ _ _ w6]; exact hxs
    obtain ⟨w5, x2⟩ := nf5 x hx5 hxs5
    have hx4 := sub5 x hx5
    have hxs4 : get_state m4 x ≠ UNALLOCATED := by
      rw [← get_state_congr _ _ _ w5]; exact hxs5
    obtain ⟨w4, x1⟩ := nf4 x hx4 hxs4
    have hx0 := sub4 x hx4
    have hxs0 : get_state s.mem x ≠ UNALLOCATED := by
      rw [← get_state_congr _ _ _ w4]; exact hxs4
    rcases hfp x hx0 hxs0 with h | h | h | h
    · exact absurd h x1
    · exact absurd h x2
    · exact absurd h x3
    · refine ⟨h.1, ?_⟩
      rw [get_state_congr _ _ _ w6, get_state_congr _ _ _ w5, get_state_congr _ _ _ w4]
      exact h.2
  have hbd6 : ∀ x ∈ B6, LF ≤ x ∧ x ≤ RF :=
    fun x hx => hbd x (sub4 x (sub5 x (sub6 x hx)))
  obtain ⟨-, k2, k3, k4, k5, k6⟩ := wf6.single_free LF RF hfp6 hbd6 ex6
  exact ⟨m4, m5, m6, B6, FL6, f4, f5, f6, wf6, k2, k3, k4, k5, k6, sR6⟩

set_option maxRecDepth 100000 in
/-- The state after `init`: a free block of 4064 bytes between two
fenceposts. -/
theorem fresh_facts :
    get_size (fresh [65536]).mem 65552 = 4064 ∧ (fresh [65536]).mem 65536 = 18 ∧
    (fresh [65536]).mem 69616 = 18 ∧ (fresh [65536]).lastFencePost = 69616 := by
  decide!

/-- Three requests of at most 1000 bytes from the state after `init` are all
served in place from the one free block: the three `ALLOCATED` blocks `A1`,
`A2`, `A3` lie at its right end, in this order from the right. -/
theorem three_allocs (n1 n2 n3 : Nat) (h1 : 1 ≤ n1 ∧ n1 ≤ 1000) (h2 : 1 ≤ n2 ∧ n2 ≤ 1000)
    (h3 : 1 ≤ n3 ∧ n3 ≤ 1000) :
    ∃ m1 m2 m3 A1 A2 A3,
      my_malloc cfg 100 (fresh [65536]) n1 = some (A1 + 16, { fresh [65536] with mem := m1 }) ∧
      my_malloc cfg 100 { fresh [65536] with mem := m1 } n2 =
        some (A2 + 16, { fresh [65536] with mem := m2 }) ∧
      my_malloc cfg 100 { fresh [65536] with mem := m2 } n3 =
        some (A3 + 16, { fresh [65536] with mem := m3 }) ∧
      WF cfg { fresh [65536] with mem := m3 } [A3, A2, A1, 65536, 65552, 69616]
        (fun i => if i = 58 then [65552] else []) ∧
      get_state m3 A1 = ALLOCATED ∧ get_state m3 A2 = ALLOCATED ∧ get_state m3 A3 = ALLOCATED ∧
      get_state m3 65552 = UNALLOCATED ∧ get_state m3 65536 = FENCEPOST ∧
      get_state m3 69616 = FENCEPOST ∧
      65552 < A3 ∧ A3 < A2 ∧ A2 < A1 ∧ A1 < 69616 := by
  obtain ⟨f1, f2, f3, -⟩ := fresh_facts
  obtain ⟨a1, a2, -⟩ := required_size_props n1
  obtain ⟨b1, b2, -⟩ := required_size_props n2
  obtain ⟨c1, c2, -⟩ := required_size_props n3
  have a3 := required_size_le n1 h1.2
  have b3 := required_size_le n2 h2.2
  have c3 := required_size_le n3 h3.2
  have hfuel : ∀ j, j < 59 → ((fun i => if i = 58 then [65552] else []) j : List Nat).length <
      100 := by
    intro j _
    simp only []
    split <;> simp
  have hFL : ∀ j, j < 58 → (fun i => if i = 58 then [65552] else [] : Nat → List Nat) j = [] := by
    intro j hj
    simp only []
    rw [if_neg (by omega)]
  have h58 : (fun i => if i = 58 then [65552] else [] : Nat → List Nat) 58 = [65552] := rfl
  have hW : (1000 : Nat) < WORD := by decide
  -- the first request
  obtain ⟨m1, e1, wf1, v1, w1, x1⟩ := malloc_inplace (q := 4064 - required_size n1) fresh_wf h1.1
    (by omega) hfuel hFL h58 (by rw [f1]; omega) (by omega)
  have g1 : get_size m1 65552 = 4064 - required_size n1 - required_size n2 + required_size n2 := by
    unfold get_size; rw [v1]; omega
  -- the second request
  obtain ⟨m2, e2, wf2, v2, w2, x2⟩ := malloc_inplace (s := { fresh [65536] with mem := m1 })
    (q := 4064 - required_size n1 - required_size n2) wf1 h2.1 (by omega) hfuel hFL h58 g1 (by omega)
  have g2 : get_size m2 65552 = 4064 - required_size n1 - required_size n2 - required_size n3 + required_size n3 := by
    unfold get_size; rw [v2]; omega
  -- the third request
  obtain ⟨m3, e3, wf3, v3, w3, x3⟩ := malloc_inplace (s := { fresh [65536] with mem := m2 })
    (q := 4064 - required_size n1 - required_size n2 - required_size n3) wf2 h3.1 (by omega) hfuel hFL h58 g2 (by omega)
  have k1 : m3 (65552 + (4064 - required_size n1)) = required_size n1 + 1 := by
    rw [x3 _ (by simp) (by omega)]
    show m2 (65552 + (4064 - required_size n1)) = required_size n1 + 1
    rw [x2 _ (by simp) (by omega)]
    exact w1
  have k2 : m3 (65552 + (4064 - required_size n1 - required_size n2)) = required_size n2 + 1 := by
    rw [x3 _ (by simp) (by omega)]
    exact w2
  have k5 : m3 65536 = 18 := by
    rw [x3 _ (by simp) (by omega)]
    show m2 65536 = 18
    rw [x2 _ (by simp) (by omega)]
    show m1 65536 = 18
    rw [x1 _ (by simp) (by omega)]
    exact f2
  have k6 : m3 69616 = 18 := by
    rw [x3 _ (by simp) (by omega)]
    show m2 69616 = 18
    rw [x2 _ (by simp) (by omega)]
    show m1 69616 = 18
    rw [x1 _ (by simp) (by omega)]
    exact f3
  refine ⟨m1, m2, m3, _, _, _, e1, e2, e3, wf3, ?_, ?_, ?_, ?_, ?_, ?_, by omega, by omega,
    by omega, by omega⟩
  · unfold get_state ALLOCATED; rw [k1]; omega
  · unfold get_state ALLOCATED; rw [k2]; omega
  · unfold get_state ALLOCATED; rw [w3]; omega
  · unfold get_state UNALLOCATED; rw [v3]; omega
  · unfold get_state FENCEPOST; rw [k5]
  · unfold get_state FENCEPOST; rw [k6]

/-- The payload pointers of three blocks, by position. -/
theorem getD_three (a b e t : Nat) (ht : t < 3) :
    [a + 16, b + 16, e + 16].getD t NULL = [a, b, e].getD t 0 + 16 := by
  interval_cases t <;> rfl

/-- What `allocate_chunk` lays out when `sbrk` returns the address `a` of a
region of `size` bytes: the two fenceposts and the interior block between
them; every other word of the memory stays. -/
theorem allocate_chunk_cells (s : Alloc) (size a : Nat) (rest : List Nat)
    (hos : s.os = a :: rest) (ha : a + size ≤ WORD) (hW : size < WORD) (h64 : 64 ≤ size)
    (hs4 : size % 4 = 0) :
    (allocate_chunk s size).1 = a + 16 ∧ (allocate_chunk s size).2.os = rest ∧
    (allocate_chunk s size).2.lastFencePost = s.lastFencePost ∧
    (allocate_chunk s size).2.osChunkList = s.osChunkList ∧
    (allocate_chunk s size).2.mem a = 18 ∧ (allocate_chunk s size).2.mem (a + 8) = 16 ∧
    (allocate_chunk s size).2.mem (a + 16) = size - 32 ∧
    (allocate_chunk s size).2.mem (a + 24) = 16 ∧
    (allocate_chunk s size).2.mem (a + size - 16) = 18 ∧
    (allocate_chunk s size).2.mem (a + size - 8) = size - 32 ∧
    ∀ x, x ≠ a → x ≠ a + 8 → x ≠ a + 16 → x ≠ a + 24 → x ≠ a + size - 16 →
      x ≠ a + size - 8 → (allocate_chunk s size).2.mem x = s.mem x := by
  have hs : sbrk s = (a, { s with os := rest }) := by
    unfold sbrk; rw [hos]; simp only []; rw [Nat.mod_eq_of_lt (by omega)]
  have e16 : padd a 16 = a + 16 := padd_eq _ _ (by omega)
  have e8 : padd a 8 = a + 8 := padd_eq _ _ (by omega)
  have e24 : padd (a + 16) 8 = a + 24 := padd_eq _ _ (by omega)
  have eA : usub size 16 = size - 16 := usub_eq _ _ (by omega) hW
  have eB : usub size (umul 2 16) = size - 32 := by
    have : umul 2 16 = 32 := by decide
    rw [this]; exact usub_eq _ _ (by omega) hW
  have eR : padd a (size - 16) = a + size - 16 := by
    rw [padd_eq _ _ (by omega)]; omega
  have eR8 : padd (a + size - 16) 8 = a + size - 8 := by
    rw [padd_eq _ _ (by omega)]; omega
  have hfr : ∀ x, x ≠ a → x ≠ a + 8 → x ≠ a + 16 → x ≠ a + 24 → x ≠ a + size - 16 →
      x ≠ a + size - 8 → (allocate_chunk s size).2.mem x = s.mem x := by
    intro x h1 h2 h3 h4 h5 h6
    apply allocate_chunk_frame
    simp only [chunk_cells, ALLOC_HEADER_SIZE, hs, e16, e8, e24, eA, eR, eR8, List.mem_cons,
      List.mem_singleton,
      List.not_mem_nil, or_false, not_or]
    exact ⟨h1, h2, h3, h4, h5, h6⟩
  have v18 : ∀ w : Nat, 16 / 4 * 4 + (w / 4 * 4 + FENCEPOST) % 4 = 18 := by
    intro w; unfold FENCEPOST; omega
  have vsz : ∀ w : Nat, (size - 32) / 4 * 4 + (w / 4 * 4 + UNALLOCATED) % 4 = size - 32 := by
    intro w; unfold UNALLOCATED; omega
  obtain ⟨n1, n2, n3, n4, n5, n6, n7, n8, n9, n10, n11, n12, n13, n14, n15⟩ :
      (a + 8 ≠ a + size - 8) ∧
      (a + 8 ≠ a + size - 16) ∧
      (a + 8 ≠ a + 24) ∧
      (a + 8 ≠ a + 16) ∧
      (a ≠ a + size - 8) ∧
      (a ≠ a + size - 16) ∧
      (a ≠ a + 24) ∧
      (a ≠ a + 16) ∧
      (a ≠ a + 8) ∧
      (a + 16 ≠ a + 24) ∧
      (a + size - 16 ≠ a + 16) ∧
      (a + size - 16 ≠ a + 24) ∧
      (a + size - 8 ≠ a + 16) ∧
      (a + size - 8 ≠ a + 24) ∧
      (a + size - 16 ≠ a + size - 8) := by
    refine ⟨?_, ?_, ?_, ?_, ?_, ?_, ?_, ?_, ?_, ?_, ?_, ?_, ?_, ?_, ?_⟩ <;> omega
  refine ⟨?_, ?_, ?_, ?_, ?_, ?_, ?_, ?_, ?_, ?_, hfr⟩
  · simp only [allocate_chunk, ALLOC_HEADER_SIZE, hs, e16]
  · simp only [allocate_chunk, hs]
  · simp only [allocate_chunk, hs]
  · simp only [allocate_chunk, hs]
  all_goals
    simp only [allocate_chunk, insert_fenceposts, initialize_fencepost, get_header_from_offset,
      set_left_size, set_size, set_state, ALLOC_HEADER_SIZE, hs, e16, e8, e24, eA, eB, eR, eR8]
  · rw [store_ne _ _ _ _ n7, store_ne _ _ _ _ n8, store_ne _ _ _ _ n8, store_ne _ _ _ _ n5,
      store_ne _ _ _ _ n6, store_ne _ _ _ _ n6, store_ne _ _ _ _ n9, store_eq, store_eq]
    exact v18 _
  · rw [store_ne _ _ _ _ n3, store_ne _ _ _ _ n4, store_ne _ _ _ _ n4, store_ne _ _ _ _ n1,
      store_ne _ _ _ _ n2, store_ne _ _ _ _ n2, store_eq]
  · rw [store_ne _ _ _ _ n10, store_eq, store_eq]
    exact vsz _
  · rw [store_eq]
  · rw [store_ne _ _ _ _ n12, store_ne _ _ _ _ n11, store_ne _ _ _ _ n11,
      store_ne _ _ _ _ n15, store_eq, store_eq]
    exact v18 _
  · rw [store_ne _ _ _ _ n14, store_ne _ _ _ _ n13, store_ne _ _ _ _ n13, store_eq]

/-- Arithmetic of the adjacent growth: addresses of the new chunk lie above
the block left of the last fencepost. -/
theorem above_nodes (P y sy x : Nat) (h32 : 32 ≤ sy) (hx : P + 32 ≤ x)
    (h : y = P ∨ y + sy ≤ P) : x ≠ y + 16 ∧ x ≠ y + 24 := by
  constructor <;> omega

/-- An address between `lo` and `hi` is no sentinel link word when the
sentinel array lies outside that range. -/
theorem above_sentinels (G lo hi x j : Nat) (hj : j < 59) (h1 : lo ≤ x) (h2 : x < hi)
    (h : hi ≤ G ∨ G + 1888 ≤ lo) : x ≠ G + 32 * j + 16 ∧ x ≠ G + 32 * j + 24 := by
  constructor <;> omega

/-- An address at least 32 bytes past `P` is none of the first words of `P`. -/
theorem far_ne (P x : Nat) (h : P + 32 ≤ x) : x ≠ P ∧ x ≠ P + 16 ∧ x ≠ P + 24 := by
  refine ⟨?_, ?_, ?_⟩ <;> omega

/-- Arithmetic of the adjacent growth: the header words that are read or
written lie between `P + 32` and the end of the new chunk. -/
theorem grow_arith_range (P p N r L Z2 : Nat) (hPL : P + p = L) (hN : N + r = p + Z2 + 32)
    (hp32 : 32 ≤ p) (hr32 : 32 ≤ r) (hN32 : 32 ≤ N) :
    (P + 32 ≤ L ∧ L < L + 48 + Z2) ∧ (P + 32 ≤ L + 16 ∧ L + 16 < L + 48 + Z2) ∧
    (P + 32 ≤ L + 24 ∧ L + 24 < L + 48 + Z2) ∧ (P + 32 ≤ L + 32 ∧ L + 32 < L + 48 + Z2) ∧
    (P + 32 ≤ L + 40 ∧ L + 40 < L + 48 + Z2) ∧ (P + 32 ≤ P + N ∧ P + N < L + 48 + Z2) ∧
    (P + 32 ≤ P + N + 8 ∧ P + N + 8 < L + 48 + Z2) ∧
    (P + 32 ≤ P + N + r ∧ P + N + r < L + 48 + Z2) ∧
    (P + 32 ≤ P + N + r + 8 ∧ P + N + r + 8 < L + 48 + Z2) := by
  refine ⟨⟨?_, ?_⟩, ⟨?_, ?_⟩, ⟨?_, ?_⟩, ⟨?_, ?_⟩, ⟨?_, ?_⟩, ⟨?_, ?_⟩, ⟨?_, ?_⟩, ⟨?_, ?_⟩,
    ⟨?_, ?_⟩⟩ <;> omega

/-- Arithmetic of the adjacent growth: the words written last are distinct. -/
theorem grow_arith_ne (P N r : Nat) (hr32 : 32 ≤ r) (hN32 : 32 ≤ N) :
    P ≠ P + 16 ∧ P ≠ P + 24 ∧ P ≠ P + N ∧ P ≠ P + N + 8 ∧ P ≠ P + N + r + 8 ∧
    P + N ≠ P + N + 8 ∧ P + N ≠ P + N + r + 8 ∧ P + N + 8 ≠ P + N + r + 8 ∧
    P + N + r ≠ P + N ∧ P + N + r ≠ P + N + 8 ∧ P + N + r ≠ P + N + r + 8 := by
  refine ⟨?_, ?_, ?_, ?_, ?_, ?_, ?_, ?_, ?_, ?_, ?_⟩ <;> omega

/-- Arithmetic of the adjacent growth: bounds and sizes. -/
theorem grow_arith_size (P p N r L Z2 : Nat) (hPL : P + p = L) (hN : N + r = p + Z2 + 32)
    (hp8 : p % 8 = 0) (hp32 : 32 ≤ p) (hr8 : r % 8 = 0) (hr32 : 32 ≤ r) (hN32 : 32 ≤ N)
    (hZ8 : Z2 % 8 = 0) (hW : L + 48 + Z2 ≤ WORD) :
    (L + 32 + 8 < WORD ∧ 16 ≤ L + 32 ∧ L + 32 - 16 = L + 16 ∧ L + 16 + 8 < WORD ∧
      16 ≤ L + 16 ∧ L + 16 - 16 = L) ∧
    (L + 8 < WORD ∧ 0 < p ∧ p ≤ L ∧ L - p = P ∧ p % 4 = 0) ∧
    (p / 4 * 4 = p ∧ Z2 / 4 * 4 = Z2 ∧ p + 16 < WORD ∧ p + 16 + 16 < WORD ∧
      p + 16 + 16 + Z2 < WORD ∧ r ≤ p + 16 + 16 + Z2 ∧ p + 16 + 16 + Z2 - r = N) ∧
    (N / 4 * 4 = N ∧ N / 4 * 4 + p % 4 = N ∧ P + 32 ≤ WORD ∧ 0 < N ∧ r % 4 = 0 ∧
      P + N + r + 8 < WORD ∧ P + N < WORD ∧ (r + 1) / 4 * 4 = r ∧ P + N + r < WORD) := by
  refine ⟨⟨?_, ?_, ?_, ?_, ?_, ?_⟩, ⟨?_, ?_, ?_, ?_, ?_⟩, ⟨?_, ?_, ?_, ?_, ?_, ?_, ?_⟩,
    ⟨?_, ?_, ?_, ?_, ?_, ?_, ?_, ?_, ?_⟩⟩ <;> omega

/-- When the last fencepost ends the block list, the words from 32 bytes past
the start of the block left of it up to the end of an adjacent new chunk are no
link words. -/
theorem WF.linkFree_above {c : Config} {s : Alloc} {B : List Nat} {FL : Nat → List Nat}
    (wf : WF c s B FL) {P hi : Nat} (hP : P ∈ B)
    (hPL : P + get_size s.mem P = s.lastFencePost)
    (hLst : get_state s.mem s.lastFencePost = FENCEPOST)
    (htop : ∀ x ∈ B, x ≤ s.lastFencePost)
    (hsent : hi ≤ c.freelistSentinels ∨ c.freelistSentinels + 1888 ≤ P)
    {x : Nat} (h1 : P + 32 ≤ x) (h2 : x < hi) : LinkFree c FL x := by
  constructor
  · intro j hj y hy
    obtain ⟨hyB, hyS, -⟩ := wf.listed_free j hj y hy
    have hsz := (wf.node_size hj hy).1
    apply above_nodes P y (get_size s.mem y) x hsz h1
    rcases wf.disjoint y hyB P hP with h | h | h
    · exact Or.inl h
    · exact Or.inr h
    · exfalso
      have hy2 := htop y hyB
      have : y = s.lastFencePost := by omega
      rw [this, hLst] at hyS
      exact absurd hyS (by decide)
  · intro j hj
    exact above_sentinels c.freelistSentinels (P + 32) hi x j hj h1 h2
      (by rcases hsent with h | h
          · exact Or.inl h
          · right; omega)

/-- The growth part of `allocate_object` when the new chunk is adjacent to the
last fencepost and the block `P` left of that fencepost is `UNALLOCATED`: `P`
is unlinked, given the size `N`, linked again, and the allocated block is
carved from its right end as by `carve`. -/
theorem grow_prev_free (c : Config) (s s1 : Alloc) (r nc P N : Nat) (m1 m4 : Mem)
    (h0 : allocate_chunk s c.ARENA_SIZE = (nc, s1))
    (hadj : get_left_header s1.mem (get_left_header s1.mem nc) = s1.lastFencePost)
    (hst : get_state s1.mem (get_left_header s1.mem s1.lastFencePost) = UNALLOCATED)
    (hleft : get_left_header s1.mem (get_left_header s1.mem (get_left_header s1.mem nc)) = P)
    (hm1 : break_helper s1.mem P = m1)
    (hN : usub (uadd (uadd (uadd (get_size m1 P)
        (get_size m1 (get_left_header m1 (get_left_header m1 nc))))
        (get_size m1 (get_left_header m1 nc))) (get_size m1 nc)) r = N)
    (hm4 : insert_helper c (set_state (set_size m1 P N) P UNALLOCATED) P = m4) :
    grow c s r = some ((carve m4 P r).1,
      { s1 with mem := (carve m4 P r).2,
                lastFencePost := get_right_header (carve m4 P r).2 (get_right_header m4 P) }) := by
  subst hm4 hN hm1 hleft
  unfold grow
  rw [h0]
  dsimp only
  rw [if_neg (not_not.mpr hadj), if_neg (by rw [hst]; decide), if_pos hst]
  rfl

/-- The adjacent growth on the memory left by `allocate_chunk`: `P` is the free
block of size `p` that ends at the old last fencepost `L`, the new chunk of
`Z2 + 32` bytes starts at `L + 16`, and `N = p + Z2 + 32 - r` bytes stay free. -/
theorem grow_adjacent_core {c : Config} {s s1 : Alloc} {FL : Nat → List Nat}
    {P p N r L Z2 : Nat}
    (h0 : allocate_chunk s c.ARENA_SIZE = (L + 32, s1)) (elf : s1.lastFencePost = L)
    (L0 : Lists c s1.mem FL) (hPi : P ∈ FL (list_index p)) (lfP : LinkFree c FL P)
    (lfA : ∀ x, P + 32 ≤ x → x < L + 48 + Z2 → LinkFree c FL x)
    (hsentP : P + 32 ≤ c.freelistSentinels ∨ c.freelistSentinels + 1888 ≤ P)
    (w0P : s1.mem P = p) (w0L : s1.mem L / 4 * 4 = 16) (w0L8 : s1.mem (L + 8) = p)
    (c0 : s1.mem (L + 16) = 18) (c8 : s1.mem (L + 24) = 16) (c16 : s1.mem (L + 32) = Z2)
    (c24 : s1.mem (L + 40) = 16) (cR : s1.mem (P + N + r) = 18)
    (hPL : P + p = L) (hN : N + r = p + Z2 + 32) (hp8 : p % 8 = 0) (hp32 : 32 ≤ p)
    (hr8 : r % 8 = 0) (hr32 : 32 ≤ r) (hN32 : 32 ≤ N) (hZ8 : Z2 % 8 = 0)
    (hW : L + 48 + Z2 ≤ WORD) :
    ∃ m' FL', grow c s r =
        some (P + N + 16, { s1 with mem := m', lastFencePost := P + N + r }) ∧
      Lists c m' FL' ∧
      (∀ j, j < 59 → ∀ y, y ∈ FL' j ↔ (y = P ∧ j = list_index N) ∨ (y ∈ FL j ∧ y ≠ P)) ∧
      m' P = N ∧ m' (P + N) = r + 1 ∧ m' (P + N + 8) = N ∧
      m' (P + N + r) = 18 ∧ m' (P + N + r + 8) = r := by
  obtain ⟨rL, rL16, rL24, rL32, rL40, rA, rA8, rR, rR8⟩ :=
    grow_arith_range P p N r L Z2 hPL hN hp32 hr32 hN32
  obtain ⟨n1, n2, n3, n4, n5, n6, n7, n8, n9, n10, n11⟩ := grow_arith_ne P N r hr32 hN32
  obtain ⟨⟨b1, b2, b3, b4, b5, b6⟩, ⟨b7, b8, b9, b10, b11⟩, ⟨e1, e2, u1, u2, u3, u4, u5⟩,
    ⟨eN4, eN5, v1, v2, v3, v4, v5, v6, v7⟩⟩ :=
    grow_arith_size P p N r L Z2 hPL hN hp8 hp32 hr8 hr32 hN32 hZ8 hW
  have a24 : L + 16 + 8 = L + 24 := rfl
  have a40b : L + 32 + 8 = L + 40 := rfl
  have d16 : 0 < 16 := by decide
  have g1 : get_left_header s1.mem (L + 32) = L + 16 := by
    rw [get_left_header_eq s1.mem (L + 32) b1 (by rw [a40b, c24]; exact d16)
      (by rw [a40b, c24]; exact b2), a40b, c24]; exact b3
  have g2 : get_left_header s1.mem (L + 16) = L := by
    rw [get_left_header_eq s1.mem (L + 16) b4 (by rw [a24, c8]; exact d16)
      (by rw [a24, c8]; exact b5), a24, c8]; exact b6
  have g3 : get_left_header s1.mem L = P := by
    rw [get_left_header_eq s1.mem L b7 (by rw [w0L8]; exact b8)
      (by rw [w0L8]; exact b9), w0L8]; exact b10
  have hst0 : get_state s1.mem P = UNALLOCATED := by
    unfold get_state UNALLOCATED; rw [w0P]; exact b11
  have hi := list_index_lt p
  obtain ⟨Lb, fb⟩ := L0.break hi hPi
  have sep1 := erase_sep L0 hi hPi
  have hmemE := fun k hk y => L0.mem_update_erase hi hPi (k := k) hk y
  obtain ⟨m1, hm1⟩ : ∃ m1, break_helper s1.mem P = m1 := ⟨_, rfl⟩
  rw [hm1] at Lb fb
  have w1P : m1 P = p := by rw [fb P lfP]; exact w0P
  have w1L : m1 L / 4 * 4 = 16 := by rw [fb L (lfA _ rL.1 rL.2)]; exact w0L
  have w1a : m1 (L + 16) = 18 := by rw [fb _ (lfA _ rL16.1 rL16.2)]; exact c0
  have w1b : m1 (L + 24) = 16 := by rw [fb _ (lfA _ rL24.1 rL24.2)]; exact c8
  have w1c : m1 (L + 32) = Z2 := by rw [fb _ (lfA _ rL32.1 rL32.2)]; exact c16
  have w1d : m1 (L + 40) = 16 := by rw [fb _ (lfA _ rL40.1 rL40.2)]; exact c24
  have w1R : m1 (P + N + r) = 18 := by rw [fb _ (lfA _ rR.1 rR.2)]; exact cR
  have h1 : get_left_header m1 (L + 32) = L + 16 := by
    rw [get_left_header_eq m1 (L + 32) b1 (by rw [a40b, w1d]; exact d16)
      (by rw [a40b, w1d]; exact b2), a40b, w1d]; exact b3
  have h2 : get_left_header m1 (L + 16) = L := by
    rw [get_left_header_eq m1 (L + 16) b4 (by rw [a24, w1b]; exact d16)
      (by rw [a24, w1b]; exact b5), a24, w1b]; exact b6
  have hsum : usub (uadd (uadd (uadd (get_size m1 P)
        (get_size m1 (get_left_header m1 (get_left_header m1 (L + 32)))))
        (get_size m1 (get_left_header m1 (L + 32)))) (get_size m1 (L + 32))) r = N := by
    rw [h1, h2]
    unfold get_size
    rw [w1P, w1L, w1a, w1c]
    have e3 : 18 / 4 * 4 = 16 := by decide
    rw [e1, e2, e3, uadd_eq p 16 u1, uadd_eq (p + 16) 16 u2,
      uadd_eq (p + 16 + 16) Z2 u3, usub_eq _ _ u4 u3]
    exact u5
  have hgrow := grow_prev_free c s s1 r (L + 32) P N m1 _ h0 (by rw [g1, g2, elf])
    (by rw [elf, g3]; exact hst0) (by rw [g1, g2, g3]) hm1 hsum rfl
  -- the block `P` with its new size
  have hm3 : set_state (set_size m1 P N) P UNALLOCATED = store (store m1 P N) P N := by
    unfold set_size
    rw [w1P, set_state_unalloc, store_eq, eN5, eN4]
  rw [hm3] at hgrow
  have lfP1 := lfP.erase (list_index p) P
  have L3 := (Lb.store N lfP1).store N lfP1
  have sz3 : get_size (store (store m1 P N) P N) P = N := by
    unfold get_size; rw [store_eq, eN4]
  obtain ⟨Li, fi⟩ := L3.insert (h := P) (j := list_index N) v1 hsentP sep1
    (by rw [sz3])
  obtain ⟨m4, hm4⟩ : ∃ m4, insert_helper c (store (store m1 P N) P N) P = m4 := ⟨_, rfl⟩
  rw [hm4] at hgrow Li fi
  have w4P : m4 P = N := by rw [fi P lfP1 n1 n2, store_eq]
  have lfA1 : ∀ x, P + 32 ≤ x → x < L + 48 + Z2 →
      LinkFree c (Function.update FL (list_index p) ((FL (list_index p)).erase P)) x :=
    fun x h1 h2 => (lfA x h1 h2).erase _ _
  have w4R : m4 (P + N + r) = 18 := by
    rw [fi _ (lfA1 _ rR.1 rR.2) (far_ne P _ rR.1).2.1 (far_ne P _ rR.1).2.2,
      store_ne _ _ _ _ (far_ne P _ rR.1).1, store_ne _ _ _ _ (far_ne P _ rR.1).1]
    exact w1R
  have sz4 : get_size m4 P = N := by unfold get_size; rw [w4P, eN4]
  have hc := carve_eq m4 P r N sz4 v2 v3 hr32 v4
  have hr4 : get_right_header m4 P = P + N := by
    rw [get_right_header_eq m4 P (by rw [sz4]; exact v5), sz4]
  rw [hc, hr4] at hgrow
  have wA : store (store (store (store m4 (P + N) (r + m4 (P + N) % 4)) (P + N) (r + 1))
      (P + N + 8) N) (P + N + r + 8) r (P + N) = r + 1 := by
    rw [store_ne _ _ _ _ n7, store_ne _ _ _ _ n6, store_eq]
  have hlf : get_right_header (store (store (store (store m4 (P + N) (r + m4 (P + N) % 4))
      (P + N) (r + 1)) (P + N + 8) N) (P + N + r + 8) r) (P + N) = P + N + r := by
    have e : get_size (store (store (store (store m4 (P + N) (r + m4 (P + N) % 4))
        (P + N) (r + 1)) (P + N + 8) N) (P + N + r + 8) r) (P + N) = r := by
      unfold get_size; rw [wA]; exact v6
    rw [get_right_header_eq _ _ (by rw [e]; exact v7), e]
  rw [hlf] at hgrow
  simp only [] at hgrow
  have lfA2 : ∀ x, P + 32 ≤ x → x < L + 48 + Z2 →
      LinkFree c (Function.update (Function.update FL (list_index p)
        ((FL (list_index p)).erase P)) (list_index N)
        (P :: Function.update FL (list_index p) ((FL (list_index p)).erase P)
          (list_index N))) x :=
    fun x h1 h2 => (lfA1 x h1 h2).cons _ _ (far_ne P x h1).2.1 (far_ne P x h1).2.2
  refine ⟨_, Function.update (Function.update FL (list_index p)
        ((FL (list_index p)).erase P)) (list_index N)
        (P :: Function.update FL (list_index p) ((FL (list_index p)).erase P)
          (list_index N)), hgrow, ?_, ?_, ?_, wA, ?_, ?_, ?_⟩
  · exact (((Li.store _ (lfA2 _ rA.1 rA.2)).store _ (lfA2 _ rA.1 rA.2)).store _
      (lfA2 _ rA8.1 rA8.2)).store _ (lfA2 _ rR8.1 rR8.2)
  · intro j hj y
    rw [mem_update_cons, hmemE j hj y]
    constructor
    · rintro (⟨h1, h2⟩ | h)
      · exact Or.inl ⟨h2, h1⟩
      · exact Or.inr h
    · rintro (⟨h1, h2⟩ | h)
      · exact Or.inl ⟨h2, h1⟩
      · exact Or.inr h
  · rw [store_ne _ _ _ _ n5, store_ne _ _ _ _ n4, store_ne _ _ _ _ n3, store_ne _ _ _ _ n3]
    exact w4P
  · rw [store_ne _ _ _ _ n8, store_eq]
  · rw [store_ne _ _ _ _ n11, store_ne _ _ _ _ n10, store_ne _ _ _ _ n9, store_ne _ _ _ _ n9]
    exact w4R
  · rw [store_eq]

/-- An address below the region `[a, a + size)` is none of the header words
that `allocate_chunk` lays out there. -/
theorem below_cells (x a size : Nat) (hx : x < a) (h : 16 ≤ size) :
    x ≠ a ∧ x ≠ a + 8 ∧ x ≠ a + 16 ∧ x ≠ a + 24 ∧ x ≠ a + size - 16 ∧ x ≠ a + size - 8 := by
  refine ⟨?_, ?_, ?_, ?_, ?_, ?_⟩ <;> omega

/-- Arithmetic of the adjacent growth, in terms of the chunk size. -/
theorem grow_arith_chunk (P p N r L Z : Nat) (hPL : P + p = L) (hN : N + r = p + Z)
    (hp32 : 32 ≤ p) (hZ : 64 ≤ Z) (hZ8 : Z % 8 = 0) (hW : L + 16 + Z ≤ WORD) :
    Z - 32 + 32 = Z ∧ N + r = p + (Z - 32) + 32 ∧ (Z - 32) % 8 = 0 ∧
    L + 48 + (Z - 32) ≤ WORD ∧ L + 16 + Z - 16 = P + N + r ∧ Z < WORD ∧ Z % 4 = 0 ∧
    P < L + 16 ∧ L < L + 16 ∧ L + 8 < L + 16 ∧ 16 ≤ Z ∧ L + 8 < WORD ∧
    L + 48 + (Z - 32) = L + 16 + Z ∧ P + N + r = L + Z := by
  refine ⟨?_, ?_, ?_, ?_, ?_, ?_, ?_, ?_, ?_, ?_, ?_, ?_, ?_, ?_⟩ <;> omega

/-- Arithmetic of the adjacent growth: the header words of the new chunk lie
between `P + 32` and the end of the chunk. -/
theorem grow_arith_cells (P p L Z : Nat) (hPL : P + p = L) (hp32 : 32 ≤ p) (hZ : 64 ≤ Z) :
    (P + 32 ≤ L + 16 ∧ L + 16 < L + 16 + Z) ∧ (P + 32 ≤ L + 16 + 8 ∧ L + 16 + 8 < L + 16 + Z) ∧
    (P + 32 ≤ L + 16 + 16 ∧ L + 16 + 16 < L + 16 + Z) ∧
    (P + 32 ≤ L + 16 + 24 ∧ L + 16 + 24 < L + 16 + Z) ∧
    (P + 32 ≤ L + 16 + Z - 16 ∧ L + 16 + Z - 16 < L + 16 + Z) ∧
    (P + 32 ≤ L + 16 + Z - 8 ∧ L + 16 + Z - 8 < L + 16 + Z) := by
  refine ⟨⟨?_, ?_⟩, ⟨?_, ?_⟩, ⟨?_, ?_⟩, ⟨?_, ?_⟩, ⟨?_, ?_⟩, ⟨?_, ?_⟩⟩ <;> omega

/-- Well-formedness speaks of the memory only. -/
theorem WF.of_mem {c : Config} {s s' : Alloc} {B : List Nat} {FL : Nat → List Nat}
    (wf : WF c s B FL) (h : s'.mem = s.mem) : WF c s' B FL := by
  rw [wf_iff] at wf ⊢
  rw [h]
  exact wf

/-- Growth next to a free block.  In a well-formed state in which the block `P`
left of the last fencepost is `UNALLOCATED`, no block lies past that fencepost
and `sbrk` continues the heap right behind it, the growth part of
`allocate_object` returns for every required size `r` that leaves `N ≥ 32`
bytes of the `P.size + ARENA_SIZE` available: `P` keeps its address and gets the
size `N`, the allocated block follows at `P + N`, and the new right fencepost at
`P + N + r` becomes the last fencepost. -/
theorem grow_adjacent_free {c : Config} {s : Alloc} {B : List Nat} {FL : Nat → List Nat}
    (wf : WF c s B FL) {P N r : Nat} {rest : List Nat}
    (hP : P ∈ B) (hPst : get_state s.mem P = UNALLOCATED)
    (hPL : P + get_size s.mem P = s.lastFencePost)
    (hLst : get_state s.mem s.lastFencePost = FENCEPOST)
    (hos : s.os = (s.lastFencePost + 16) :: rest)
    (hZ : 64 ≤ c.ARENA_SIZE) (hZ8 : c.ARENA_SIZE % 8 = 0)
    (hW : s.lastFencePost + 16 + c.ARENA_SIZE ≤ WORD)
    (htop : ∀ x ∈ B, x ≤ s.lastFencePost)
    (hsent : s.lastFencePost + 16 + c.ARENA_SIZE ≤ c.freelistSentinels ∨
      c.freelistSentinels + 1888 ≤ P)
    (hr32 : 32 ≤ r) (hr8 : r % 8 = 0) (hN : N + r = get_size s.mem P + c.ARENA_SIZE)
    (hN32 : 32 ≤ N) :
    ∃ s' FL', grow c s r = some (P + N + 16, s') ∧
      s'.lastFencePost = P + N + r ∧ s'.os = rest ∧ s'.osChunkList = s.osChunkList ∧
      Lists c s'.mem FL' ∧
      (∀ j, j < 59 → ∀ y, y ∈ FL' j ↔ (y = P ∧ j = list_index N) ∨ (y ∈ FL j ∧ y ≠ P)) ∧
      s'.mem P = N ∧ s'.mem (P + N) = r + 1 ∧ s'.mem (P + N + 8) = N ∧
      s'.mem (P + N + r) = 18 ∧ s'.mem (P + N + r + 8) = r ∧
      get_size s.mem s.lastFencePost = 16 ∧
      get_size (allocate_chunk s c.ARENA_SIZE).2.mem (s.lastFencePost + 16) = 16 ∧
      get_size (allocate_chunk s c.ARENA_SIZE).2.mem (s.lastFencePost + 32) =
        c.ARENA_SIZE - 32 := by
  have hnf : get_state s.mem P ≠ FENCEPOST := by rw [hPst]; decide
  obtain ⟨-, hp8, hp32⟩ := wf.block P hP hnf
  obtain ⟨hLB, hLl⟩ := wf.right P hP hnf
  have hPi := wf.free_listed P hP hPst
  have lfP := (wf.linkFree hP).1
  have hPs := wf.block_sent P hP
  have hsentP : P + 32 ≤ c.freelistSentinels ∨ c.freelistSentinels + 1888 ≤ P := by
    rcases hPs with h | h
    · exact Or.inl (le_trans (Nat.add_le_add_left hp32 P) h)
    · exact Or.inr h
  rw [hPL] at hLB hLl
  have hLsz := wf.fencepost _ hLB hLst
  obtain ⟨z1, z2, z3, z4, z5, z6, z7, z8, z9, z10, z11, z12, z13, z14⟩ :=
    grow_arith_chunk P (get_size s.mem P) N r s.lastFencePost c.ARENA_SIZE hPL hN hp32 hZ hZ8 hW
  obtain ⟨q1, q2, q3, q4, q5, q6⟩ :=
    grow_arith_cells P (get_size s.mem P) s.lastFencePost c.ARENA_SIZE hPL hp32 hZ
  have lfA : ∀ x, P + 32 ≤ x → x < s.lastFencePost + 16 + c.ARENA_SIZE → LinkFree c FL x :=
    fun x h1 h2 => wf.linkFree_above hP hPL hLst htop hsent h1 h2
  have hPw : s.mem P = get_size s.mem P := by
    have h1 : s.mem P % 4 = 0 := hPst
    have h2 := Nat.div_add_mod (s.mem P) 4
    rw [h1, Nat.add_zero, Nat.mul_comm] at h2
    exact h2.symm
  have hLw : s.mem (s.lastFencePost + 8) = get_size s.mem P := by
    rw [← left_size_eq s.mem s.lastFencePost z12]; exact hLl
  obtain ⟨e1, eos, elf, ecl, c0, c8, c16, c24, cR, cR8, fr⟩ :=
    allocate_chunk_cells s c.ARENA_SIZE (s.lastFencePost + 16) rest hos hW z6 hZ z7
  have f0 : ∀ x, x < s.lastFencePost + 16 → (allocate_chunk s c.ARENA_SIZE).2.mem x = s.mem x :=
    fun x hx => by
      obtain ⟨k1, k2, k3, k4, k5, k6⟩ := below_cells x (s.lastFencePost + 16) c.ARENA_SIZE hx z11
      exact fr x k1 k2 k3 k4 k5 k6
  have L0m : Lists c (allocate_chunk s c.ARENA_SIZE).2.mem FL := by
    refine wf.lists.congr (fun a ha => fr a ?_ ?_ ?_ ?_ ?_ ?_) <;> intro h <;> apply ha <;>
      rw [h]
    · exact lfA _ q1.1 q1.2
    · exact lfA _ q2.1 q2.2
    · exact lfA _ q3.1 q3.2
    · exact lfA _ q4.1 q4.2
    · exact lfA _ q5.1 q5.2
    · exact lfA _ q6.1 q6.2
  have h0 : allocate_chunk s c.ARENA_SIZE =
      (s.lastFencePost + 32, (allocate_chunk s c.ARENA_SIZE).2) := Prod.ext e1 rfl
  have c16b : (allocate_chunk s c.ARENA_SIZE).2.mem (s.lastFencePost + 32) =
      c.ARENA_SIZE - 32 := c16
  obtain ⟨m', FL', hg, hL, hmem, w1, w2, w3, w4, w5⟩ :=
    grow_adjacent_core (c := c) (s := s)
      (P := P) (p := get_size s.mem P) (N := N) (r := r) (L := s.lastFencePost) h0 elf L0m hPi lfP
      (fun x h1 h2 => lfA x h1 (by rw [← z13]; exact h2)) hsentP
      (by rw [f0 P z8]; exact hPw) (by rw [f0 _ z9]; exact hLsz) (by rw [f0 _ z10]; exact hLw)
      c0 c8 c16b c24 (by rw [← z5]; exact cR) hPL z2 hp8 hp32 hr8 hr32 hN32 z3 z4
  refine ⟨_, FL', hg, rfl, eos, ecl, hL, hmem, w1, w2, w3, w4, w5, hLsz, ?_, ?_⟩
  · unfold get_size; rw [c0]
  · unfold get_size; rw [c16b]; omega

/-- Arithmetic of the adjacent growth: the size and state fields of the three
header words that the growth leaves behind. -/
theorem grow_arith_state (P p N r L Z : Nat) (hPL : P + p = L) (hN : N + r = p + Z)
    (hp8 : p % 8 = 0) (hr8 : r % 8 = 0) (hZ8 : Z % 8 = 0) (hN32 : 32 ≤ N) (hr32 : 32 ≤ r)
    (hZ : 64 ≤ Z) (hW : L + 16 + Z ≤ WORD) :
    N % 4 = 0 ∧ N / 4 * 4 = N ∧ (r + 1) % 4 = 1 ∧ (r + 1) / 4 * 4 = r ∧ P + N + 8 < WORD ∧
    P + N + r + 8 < WORD ∧ P + N < WORD ∧ N < WORD ∧ 24 ≤ N ∧
    p + 16 + 16 + (Z - 32) - r = N ∧ P + N + r = L + Z := by
  refine ⟨?_, ?_, ?_, ?_, ?_, ?_, ?_, ?_, ?_, ?_, ?_⟩ <;> omega

/-- On a walk, `next` of the `i`-th element of `p :: xs` is the `i`-th element
of `xs ++ [e]`. -/
theorem Walk.next_getD {m : Mem} {e : Nat} : ∀ {xs : List Nat} {p : Nat}, Walk m e p xs →
    ∀ i, i < xs.length + 1 → next m ((p :: xs).getD i 0) = (xs ++ [e]).getD i 0
  | [], p, h, i, hi => by
    have : i = 0 := Nat.lt_one_iff.mp (by simpa using hi)
    subst this
    exact h
  | x :: xs, p, h, 0, _ => h.1
  | x :: xs, p, h, i + 1, hi => by
    have := Walk.next_getD h.2 i (by simpa using hi)
    simpa using this

/-- On a circle, `next` leads from each place to the following one. -/
theorem Circular.next_place {m : Mem} {S : Nat} {xs : List Nat} (h : Circular m S xs)
    (j : Nat) : next m (place S xs j) = place S xs (j + 1) := by
  unfold place
  have hlt : j % (xs.length + 1) < xs.length + 1 := Nat.mod_lt _ (Nat.succ_pos _)
  rw [h.1.next_getD _ hlt]
  by_cases hk : j % (xs.length + 1) = xs.length
  · have e1 : (j + 1) % (xs.length + 1) = 0 := by
      rw [Nat.add_mod, hk]
      by_cases h0 : xs.length = 0
      · rw [h0]
      · rw [Nat.mod_eq_of_lt (by omega : 1 < xs.length + 1), Nat.mod_self]
    rw [e1, hk]
    simp
  · have e1 : (j + 1) % (xs.length + 1) = j % (xs.length + 1) + 1 := by
      rw [Nat.add_mod]
      by_cases h0 : xs.length = 0
      · omega
      · rw [Nat.mod_eq_of_lt (by omega : 1 < xs.length + 1), Nat.mod_eq_of_lt (by omega)]
    rw [e1, List.getD_cons_succ, List.getD_append _ _ _ _ (by omega)]

/-- Two places on a circle hold the same address exactly when they are the same
place. -/
theorem Circular.place_inj {m : Mem} {S : Nat} {xs : List Nat} (h : Circular m S xs)
    (a b : Nat) : place S xs a = place S xs b ↔
      a % (xs.length + 1) = b % (xs.length + 1) := by
  unfold place
  have ha : a % (xs.length + 1) < (S :: xs).length := by
    rw [List.length_cons]; exact Nat.mod_lt _ (Nat.succ_pos _)
  have hb : b % (xs.length + 1) < (S :: xs).length := by
    rw [List.length_cons]; exact Nat.mod_lt _ (Nat.succ_pos _)
  rw [List.getD_eq_getElem _ _ ha, List.getD_eq_getElem _ _ hb]
  exact h.2.getElem_inj_iff

/-- The place 0 of a circle is its sentinel. -/
theorem place_zero (S : Nat) (xs : List Nat) : place S xs 0 = S := by
  unfold place
  rw [Nat.zero_mod]
  rfl

/-- The loop of `detect_cycles` on a circle of `n = k + 1` places: from the
places `a` and `2 * a` the walk ends by its loop condition, within `n - a + 1`
tests of it; `slow` and `fast` meet only at the sentinel, where the loop has
ended. -/
theorem cycle_walk_circle {m : Mem} {S : Nat} {xs : List Nat} (h : Circular m S xs) :
    ∀ (fuel a : Nat), 1 ≤ a → a ≤ xs.length + 1 → xs.length + 1 - a < fuel →
      cycle_walk m S fuel (place S xs a) (place S xs (2 * a)) = some none
  | 0, a, _, _, hf => absurd hf (Nat.not_lt_zero _)
  | fuel + 1, a, h1, h2, hf => by
    unfold cycle_walk
    by_cases hz : (2 * a) % (xs.length + 1) = 0
    · have e : place S xs (2 * a) = S := by
        have := (h.place_inj (2 * a) 0).mpr (by rw [hz, Nat.zero_mod])
        rw [place_zero] at this
        exact this
      rw [e]
      simp
    · have hne : place S xs (2 * a) ≠ S := by
        intro e
        have e0 : place S xs (2 * a) = place S xs 0 := by rw [place_zero]; exact e
        rw [h.place_inj, Nat.zero_mod] at e0
        exact hz e0
      have han : a < xs.length + 1 := by
        rcases Nat.lt_or_ge a (xs.length + 1) with h3 | h3
        · exact h3
        · exfalso
          have : a = xs.length + 1 := by omega
          apply hz
          rw [this, Nat.mul_mod_left]
      have hsf : place S xs a ≠ place S xs (2 * a) := by
        intro e
        rw [h.place_inj, Nat.mod_eq_of_lt han] at e
        have e2 : (2 * a) % (xs.length + 1) = 2 * a - (xs.length + 1) ∨
            (2 * a) % (xs.length + 1) = 2 * a := by
          rcases Nat.lt_or_ge (2 * a) (xs.length + 1) with h3 | h3
          · exact Or.inr (Nat.mod_eq_of_lt h3)
          · left
            rw [Nat.mod_eq_sub_mod h3, Nat.mod_eq_of_lt (by omega)]
        omega
      rw [if_pos hne, if_neg hsf, h.next_place, h.next_place, h.next_place]
      have e3 : 2 * a + 1 + 1 = 2 * (a + 1) := by omega
      rw [e3]
      exact cycle_walk_circle h fuel (a + 1) (by omega) (by omega) (by omega)

/-- The loop of `detect_cycles` on one well-formed circular list ends by its
loop condition. -/
theorem cycle_walk_circular {m : Mem} {S : Nat} {xs : List Nat} (h : Circular m S xs)
    {fuel : Nat} (hf : xs.length < fuel) :
    cycle_walk m S fuel (next m S) (next m (next m S)) = some none := by
  have e0 := h.next_place 0
  rw [place_zero] at e0
  have e1 := h.next_place 1
  rw [e0, e1]
  exact cycle_walk_circle h fuel 1 (le_refl 1) (by omega) (by omega)

/-- With all lists from `i` on well-formed circular lists, `detect_cycles`
returns `NULL` on them. -/
theorem detect_cycles_from {c : Config} {m : Mem} {FL : Nat → List Nat} {fuel : Nat} :
    ∀ (k i : Nat), (∀ j, i ≤ j → j < i + k → Circular m (sentinel c j) (FL j)) →
      (∀ j, i ≤ j → j < i + k → (FL j).length < fuel) →
      detect_cycles c fuel m i k = some NULL
  | 0, _, _, _ => rfl
  | k + 1, i, h, hf => by
    unfold detect_cycles
    simp only []
    rw [cycle_walk_circular (h i (le_refl i) (by omega)) (hf i (le_refl i) (by omega))]
    exact detect_cycles_from k (i + 1) (fun j h1 h2 => h j (by omega) (by omega))
      (fun j h1 h2 => hf j (by omega) (by omega))

/-- A doubly linked segment is a walk along `next`. -/
theorem DL.walk {m : Mem} {e : Nat} : ∀ {xs : List Nat} {p : Nat}, DL m e p xs → Walk m e p xs
  | [], _, h => h.1
  | _ :: _, _, h => ⟨h.1, DL.walk h.2.2⟩

/-- Each list of a well-formed free-list index is a well-formed circular
list. -/
theorem Lists.circular {c : Config} {m : Mem} {FL : Nat → List Nat} (L : Lists c m FL)
    {i : Nat} (hi : i < 59) : Circular m (sentinel c i) (FL i) := by
  refine ⟨(L.chain i hi).walk, List.nodup_cons.mpr ⟨?_, L.nodup i hi⟩⟩
  intro hmem
  have h1 := L.node_sent i hi _ hmem
  have h2 := sentinel_eq c i L.sent_hi hi
  omega

/-- Arithmetic of a header `h` apart from the sentinel array: sentinel `j` and
`h` are disjoint headers below `WORD`. -/
theorem link_arith (G h j : Nat) (hj : j < 59) (hG : G + 1888 ≤ WORD) (hW : h + 32 ≤ WORD)
    (hsent : h + 32 ≤ G ∨ G + 1888 ≤ h) :
    G + 32 * j + 32 ≤ WORD ∧ (h + 32 ≤ G + 32 * j ∨ G + 32 * j + 32 ≤ h) ∧
    G + 32 * j + 16 < WORD ∧ G + 32 * j + 24 < WORD ∧ h + 16 < WORD ∧ h + 24 < WORD := by
  refine ⟨?_, ?_, ?_, ?_, ?_, ?_⟩ <;> omega

/-- Where `allocate_object_ub` has a result, it is the result of
`allocate_object`. -/
theorem allocate_object_ub_some (c : Config) (fuel : Nat) (s : Alloc) (n : Nat)
    (r : Nat × Alloc) (h : allocate_object_ub c fuel s n = some r) :
    allocate_object c fuel s n = some r := by
  unfold allocate_object_ub at h
  unfold allocate_object
  by_cases h0 : n % WORD = 0
  · rw [if_pos h0] at h ⊢; exact h
  · rw [if_neg h0] at h ⊢
    simp only [] at h ⊢
    cases hs : scan_lists c fuel (required_size (n % WORD)) s.mem 0 N_LISTS with
    | none => rw [hs] at h; exact absurd h (by simp)
    | some o =>
      cases o with
      | some x => rw [hs] at h; exact h
      | none =>
        rw [hs] at h
        simp only [] at h ⊢
        cases hc : allocate_chunk_ub s c.ARENA_SIZE with
        | none => rw [hc] at h; exact absurd h (by simp)
        | some y => rw [hc] at h; exact h

/-! ## The claims -/

/-- C9: in a well-formed state, freeing the payload of a live allocated block
`d` twice makes the second call abort on the double-free test, in the very state
the first call left (no header, no free list is written); and, for every state
and every non-null pointer `p`, `free p` aborts at once when the header at
`p - ALLOC_HEADER_SIZE` has state `UNALLOCATED`. -/
theorem double_free_aborts (c : Config) (s : Alloc) (B : List Nat) (FL : Nat → List Nat)
    (d : Nat) (wf : WF c s B FL) (hd : d ∈ B) (hst : get_state s.mem d = ALLOCATED) :
    (∃ s1, my_free c s (d + ALLOC_HEADER_SIZE) = FreeResult.returned s1 ∧
      my_free c s1 (d + ALLOC_HEADER_SIZE) = FreeResult.aborted s1) ∧
    (∀ (t : Alloc) (p : Nat), p ≠ NULL →
      get_state t.mem (psub p ALLOC_HEADER_SIZE) = UNALLOCATED →
      my_free c t p = FreeResult.aborted t) := by
  constructor
  · have hnf : get_state s.mem d ≠ FENCEPOST := by rw [hst]; decide
    have hW := (wf.around hd hnf).2.2.1
    have hsz := (wf.around hd hnf).1
    have hp : psub (d + ALLOC_HEADER_SIZE) ALLOC_HEADER_SIZE = d := by
      unfold ALLOC_HEADER_SIZE
      rw [psub_eq _ _ (by omega) (by omega)]; omega
    have hnull : d + ALLOC_HEADER_SIZE ≠ NULL := by unfold ALLOC_HEADER_SIZE NULL; omega
    refine ⟨{ s with mem := coalesce c (set_state s.mem d UNALLOCATED) d }, ?_, ?_⟩
    · unfold my_free deallocate_object
      rw [if_neg hnull]
      simp only [hp]
      rw [if_neg (by rw [hst]; decide)]
    · unfold my_free deallocate_object
      rw [if_neg hnull]
      simp only [hp]
      rw [if_pos (coalesce_keeps_unallocated wf hd hst)]
  · intro t p hp hs
    unfold my_free deallocate_object
    rw [if_neg hp]
    simp only []
    rw [if_pos hs]

set_option maxRecDepth 100000 in
theorem double_free_aborts_witness :
    (∃ s1, my_free cfg (after_calls [65536] [Call.allocate 24]) (69576 + ALLOC_HEADER_SIZE) =
        FreeResult.returned s1 ∧
      my_free cfg s1 (69576 + ALLOC_HEADER_SIZE) = FreeResult.aborted s1) ∧
    (∀ (t : Alloc) (p : Nat), p ≠ NULL →
      get_state t.mem (psub p ALLOC_HEADER_SIZE) = UNALLOCATED →
      my_free cfg t p = FreeResult.aborted t) :=
  double_free_aborts cfg (after_calls [65536] [Call.allocate 24]) [65536, 65552, 69576, 69616]
    (fun i => if i = 58 then [65552] else []) 69576 live_state_wf (by decide!) (by decide!)

/-- C3, as amended: in a well-formed state, when the request `n` (a nonzero
`size_t`) is served by the first-fit free block `b` without growth, and `b`
fits exactly or leaves a remainder of at least `MIN_BLOCK`, then `allocate n`
returns a pointer `p`, `free p` returns, and the set of free extents is the one
before the `allocate` call. -/
theorem alloc_free_restores_extents (c : Config) (s : Alloc) (B : List Nat)
    (FL : Nat → List Nat) (n fuel i : Nat) (pre : List Nat) (b : Nat) (post : List Nat)
    (wf : WF c s B FL) (hn1 : 1 ≤ n) (hn2 : n < WORD)
    (hfuel : ∀ j, j < 59 → (FL j).length < fuel)
    (ff : FirstFit s.mem FL (required_size n) i pre b post)
    (hrem : get_size s.mem b = required_size n ∨
      required_size n + MIN_BLOCK ≤ get_size s.mem b) :
    ∃ p s1 s2, my_malloc c fuel s n = some (p, s1) ∧
      my_free c s1 p = FreeResult.returned s2 ∧
      ∀ e, e ∈ free_extents c fuel s2.mem ↔ e ∈ free_extents c fuel s.mem := by
  obtain ⟨hr32, hr8, hrW⟩ := required_size_props n
  have hi := ff.index
  have hb : b ∈ FL i := by rw [ff.split]; simp
  have hscan : scan_lists c fuel (required_size n) s.mem 0 N_LISTS =
      some (some (served c s.mem b (required_size n) i)) := by
    have h := scan_lists_skip_many wf hi hr32 ff.earlier hfuel i (Nat.le_refl _)
    have e1 : i - i = 0 := by omega
    have e2 : 59 - i + i = 59 := by omega
    rw [e1, e2] at h
    unfold N_LISTS
    rw [h]
    exact scan_lists_hit wf ff (hfuel i hi)
  have hmalloc : my_malloc c fuel s n = some ((served c s.mem b (required_size n) i).1,
      { s with mem := (served c s.mem b (required_size n) i).2 }) := by
    unfold my_malloc allocate_object
    rw [Nat.mod_eq_of_lt hn2, if_neg (by omega)]
    simp only [hscan]
  have key : ∃ mF FLf, deallocate_object c
      { s with mem := (served c s.mem b (required_size n) i).2 }
      (served c s.mem b (required_size n) i).1 = FreeResult.returned { s with mem := mF } ∧
      Restored c s.mem mF FL FLf := by
    rcases hrem with hex | hsplit
    · have hs : served c s.mem b (required_size n) i =
          (padd b ALLOC_HEADER_SIZE, set_state (break_helper s.mem b) b ALLOCATED) := by
        unfold served; rw [if_pos hex]
      rw [hs]
      exact roundtrip_exact wf hi hb
    · unfold MIN_BLOCK at hsplit
      obtain ⟨q, hq⟩ : ∃ q, get_size s.mem b = q + required_size n :=
        ⟨get_size s.mem b - required_size n, by omega⟩
      by_cases hcond : i = 58 ∧ 488 ≤ usub (get_size s.mem b) (required_size n)
      · exact roundtrip_inplace wf hi hb hr32 hr8 hq (by omega) hcond
      · exact roundtrip_relink wf hi hb hr32 hr8 hq (by omega) hcond
  obtain ⟨mF, FLf, hfree, hres⟩ := key
  exact ⟨_, _, _, hmalloc, hfree, fun e => hres.extents wf.lists hfuel e⟩

set_option maxRecDepth 100000 in
theorem alloc_free_restores_extents_witness :
    ∃ p s1 s2, my_malloc cfg 100 (fresh [65536]) 24 = some (p, s1) ∧
      my_free cfg s1 p = FreeResult.returned s2 ∧
      ∀ e, e ∈ free_extents cfg 100 s2.mem ↔ e ∈ free_extents cfg 100 (fresh [65536]).mem :=
  alloc_free_restores_extents cfg (fresh [65536]) [65536, 65552, 69616]
    (fun i => if i = 58 then [65552] else []) 24 100 58 [] 65552 [] fresh_wf (by decide)
    (by decide!) (by decide!) fresh_first_fit (by decide!)

/-- C3 (counterexample): the state after `init` and `allocate 4048` is
well-formed and has no free extent; there `allocate 1` has to grow by a chunk,
and after `free` of the returned pointer the free extent 69616 to 73712 exists:
the set of free extents is not the one before the `allocate` call. -/
theorem growth_round_trip_changes_extents :
    WF cfg (after_calls [65536, 69632] [Call.allocate 4048]) [65536, 65552, 69616] (fun _ => []) ∧
    free_extents cfg 100 (after_calls [65536, 69632] [Call.allocate 4048]).mem = [] ∧
    round_trip_extents cfg 100 (after_calls [65536, 69632] [Call.allocate 4048]) 1 =
      some [(69616, 73712)] :=
  ⟨full_state_wf, by decide!, by decide!⟩

/-- C8 (code defect): when `allocate` has to grow (its scan of the free lists
ends without a fit) and `sbrk` fails, no failure path is taken.  `sbrk` returns
the failure value `(void *) -1` and leaves the state as it is; `allocate` goes
on to the growth part, whose call of `allocate_chunk` passes that value
untested to `initialize_fencepost`.  The first access there, to the header
word at `(void *) -1`, is undefined behaviour in C: the 8 bytes of that word
do not lie in the address space.  So `allocate` has no defined result; it does
not return `NULL` with the state unchanged. -/
theorem sbrk_failure_is_dereferenced (c : Config) (s : Alloc) (fuel n : Nat)
    (hn1 : 1 ≤ n) (hn2 : n < WORD)
    (hscan : scan_lists c fuel (required_size n) s.mem 0 N_LISTS = some none)
    (hos : s.os = []) :
    sbrk s = (WORD - 1, s) ∧
    my_malloc c fuel s n = grow c s (required_size n) ∧
    ¬ (sbrk s).1 + 8 ≤ WORD ∧
    allocate_chunk_ub s c.ARENA_SIZE = none ∧
    allocate_object_ub c fuel s n = none ∧
    allocate_object_ub c fuel s n ≠ some (NULL, s) := by
  have hs : sbrk s = (WORD - 1, s) := by unfold sbrk; rw [hos]
  have hub : ¬ (sbrk s).1 + 8 ≤ WORD := by
    intro h; rw [hs] at h
    exact (by decide : ¬ (WORD - 1 + 8 ≤ WORD)) h
  have hc : allocate_chunk_ub s c.ARENA_SIZE = none := by
    unfold allocate_chunk_ub; rw [if_neg hub]
  have hn0 : ¬ n % WORD = 0 := by rw [Nat.mod_eq_of_lt hn2]; omega
  have ho : allocate_object_ub c fuel s n = none := by
    unfold allocate_object_ub
    rw [if_neg hn0, Nat.mod_eq_of_lt hn2]
    simp only [hscan, hc]
  refine ⟨hs, ?_, hub, hc, ho, by rw [ho]; simp⟩
  unfold my_malloc allocate_object
  rw [if_neg hn0, Nat.mod_eq_of_lt hn2]
  simp only [hscan]

set_option maxRecDepth 100000 in
theorem sbrk_failure_is_dereferenced_witness :
    (sbrk (after_calls [65536] [Call.allocate 4048])).1 = WORD - 1 ∧
    scan_lists cfg 100 (required_size 1) (after_calls [65536] [Call.allocate 4048]).mem 0
      N_LISTS = some none ∧
    allocate_chunk_ub (after_calls [65536] [Call.allocate 4048]) cfg.ARENA_SIZE = none ∧
    allocate_object_ub cfg 100 (after_calls [65536] [Call.allocate 4048]) 1 = none :=
  ⟨congrArg Prod.fst
      (sbrk_failure_is_dereferenced cfg (after_calls [65536] [Call.allocate 4048]) 100 1
        (by decide) (by decide!)
        (scan_lists_none exhausted_state_wf (by decide) (by decide!) (by decide!))
        (by decide!)).1,
    scan_lists_none exhausted_state_wf (by decide) (by decide!) (by decide!),
    (sbrk_failure_is_dereferenced cfg (after_calls [65536] [Call.allocate 4048]) 100 1
      (by decide) (by decide!)
      (scan_lists_none exhausted_state_wf (by decide) (by decide!) (by decide!))
      (by decide!)).2.2.2.1,
    (sbrk_failure_is_dereferenced cfg (after_calls [65536] [Call.allocate 4048]) 100 1
      (by decide) (by decide!)
      (scan_lists_none exhausted_state_wf (by decide) (by decide!) (by decide!))
      (by decide!)).2.2.2.2.1⟩
/-! ## Concrete runs -/

open Call

/-- C1 (code defect shown at a concrete run): with `ARENA_SIZE = 4096` and an
adjacent second chunk, the trace `allocate 4048; allocate 4080; allocate 4080`
returns the payload 69632 twice while nothing has been freed: the two live
blocks share the header 69616 (state `ALLOCATED`, size 4096), so their byte
ranges are not disjoint. -/
theorem growth_exact_fit_returns_block_twice :
    (run cfg 100 (fresh [65536, 69632]) [] [allocate 4048, allocate 4080, allocate 4080]).map
      (fun r => (r.2, get_state r.1.mem 69616, get_size r.1.mem 69616)) =
    some ([65568, 69632, 69632], ALLOCATED, 4096) := by
  decide!

/-- C2 (code defect shown at a concrete run): for the request `n = 2^64 - 1`
the sum `n + 16` wraps around, and `allocate` returns the payload of an
`ALLOCATED` block of size 32, far below `round_up_8 (n + ALLOC_HEADER_SIZE)`. -/
theorem huge_request_gets_min_block :
    (my_malloc cfg 100 (fresh [65536]) (WORD - 1)).map
      (fun r => (r.1, get_state r.2.mem (psub r.1 ALLOC_HEADER_SIZE),
        get_size r.2.mem (psub r.1 ALLOC_HEADER_SIZE))) = some (69600, ALLOCATED, 32) ∧
    32 < round_up_8 (WORD - 1 + ALLOC_HEADER_SIZE) := by
  decide!

/-- C4 (code defect shown at a concrete run): the state after `allocate 1` is
well-formed, and its free block 65552 has the `ALLOCATED` right neighbour 69584
(its other blocks are the two fenceposts); a following `allocate 4120`,
served by an adjacent chunk, leaves 65552 free and turns the header of its right
neighbour 69584 into an `UNALLOCATED` one: two address-adjacent blocks are both
`UNALLOCATED`. -/
theorem oversized_growth_breaks_coalescing :
    WF cfg (after_calls [65536, 69632] [allocate 1]) [65536, 65552, 69584, 69616]
      (fun i => if i = 58 then [65552] else []) ∧
    (run cfg 100 (fresh [65536, 69632]) [] [allocate 1]).map
      (fun r => (get_state r.1.mem 65552, get_right_header r.1.mem 65552,
        get_state r.1.mem 69584)) = some (UNALLOCATED, 69584, ALLOCATED) ∧
    (run cfg 100 (fresh [65536, 69632]) [] [allocate 1, allocate 4120]).map
      (fun r => (get_state r.1.mem 65552, get_right_header r.1.mem 65552,
        get_state r.1.mem 69584)) = some (UNALLOCATED, 69584, UNALLOCATED) := by
  exact ⟨one_byte_state_wf, by decide!, by decide!⟩

/-- C5 (code defect shown at a concrete run): the state after `a = allocate 20;
allocate 1; free a` is well-formed (all boundary tags agree); after a further
`allocate 1` the block 69544 has size 32 and right neighbour 69576, whose
`left_size` is 33: the boundary tag no longer matches. -/
theorem small_remainder_breaks_boundary_tag :
    WF cfg (after_calls [65536] [allocate 20, allocate 1, free 0])
      [65536, 65552, 69544, 69576, 69616]
      (fun i => if i = 58 then [65552] else if i = 2 then [69576] else []) ∧
    (run cfg 100 (fresh [65536]) [] [allocate 20, allocate 1, free 0, allocate 1]).map
      (fun r => (get_size r.1.mem 69544, get_right_header r.1.mem 69544,
        left_size r.1.mem 69576)) = some (32, 69576, 33) := by
  exact ⟨refreed_state_wf, by decide!⟩

/-- C6 (code defect shown at a concrete run): after the trace `a = allocate 20;
allocate 1; free a; allocate 1` the split of the free block of size 40 for the
required size 32 leaves the `UNALLOCATED` block 69576 of size 8, below
`MIN_BLOCK`, at the head of the last free list. -/
theorem split_leaves_remainder_below_min_block :
    (run cfg 100 (fresh [65536]) [] [allocate 20, allocate 1, free 0]).map
      (fun r => (get_state r.1.mem 69576, get_size r.1.mem 69576,
        next r.1.mem (sentinel cfg 2))) = some (UNALLOCATED, 40, 69576) ∧
    (run cfg 100 (fresh [65536]) [] [allocate 20, allocate 1, free 0, allocate 1]).map
      (fun r => (get_state r.1.mem 69576, get_size r.1.mem 69576,
        next r.1.mem (sentinel cfg 58))) = some (UNALLOCATED, 8, 69576) := by
  decide!

/-- C7 (code defect shown at a concrete run): `verify` returns false in the
state produced by `init`, and also after the calls `a = allocate 24;
allocate 24; free a`. -/
theorem verify_is_false_after_init :
    verify cfg 100 (fresh [65536]) = some false ∧
    (run cfg 100 (fresh [65536]) [] [allocate 24, allocate 24, free 0]).bind
      (fun r => verify cfg 100 r.1) = some false := by
  decide!

/-- C10: for every allocator state, `allocate 0` returns `NULL` and leaves the
whole state as it was: the memory (all headers and free lists),
`lastFencePost`, the chunk list, and the environment of `sbrk`, which is not
called. -/
theorem allocate_zero_is_noop (c : Config) (fuel : Nat) (s : Alloc) :
    my_malloc c fuel s 0 = some (NULL, s) ∧ allocate_object c fuel s 0 = some (NULL, s) := by
  simp [my_malloc, allocate_object]


/-- C11: `free(NULL)` returns normally and leaves the whole allocator state as
it was: the memory (so every block header and every free list),
`lastFencePost` and the chunk list. -/
theorem free_null_is_noop (c : Config) (s : Alloc) :
    my_free c s NULL = FreeResult.returned s ∧
    deallocate_object c s NULL = FreeResult.returned s := by
  constructor <;> rfl

/-- C13, the claim as stated fails: after `a = allocate 24; b = allocate 24` from
the fresh arena the two blocks and the free block do not have the sizes 32, 32
and 4000. -/
theorem split_twice_sizes_differ :
    (run cfg 100 (fresh [65536]) [] [allocate 24, allocate 24]).map
      (fun r => (get_size r.1.mem (psub (r.2.getD 0 NULL) ALLOC_HEADER_SIZE),
        get_size r.1.mem (psub (r.2.getD 1 NULL) ALLOC_HEADER_SIZE),
        get_size r.1.mem 65552)) ≠ some (32, 32, 4000) := by
  decide!

/-- C13, as amended: after `a = allocate 24; b = allocate 24` from the fresh
arena (interior 65552 .. 69616) the payloads are 69592 and 69552; the blocks of
`a` (header 69576) and `b` (header 69536) are `ALLOCATED` with size
`round_up_8 (24 + 16) = 40`; `a` ends at the right fencepost 69616 and `b` ends
at `a`; the last free list holds the single block 65552 of size
`4064 - 80 = 3984`, and every other free list is empty. -/
theorem split_twice_layout :
    (run cfg 100 (fresh [65536]) [] [allocate 24, allocate 24]).map
      (fun r => (r.2, r.1.lastFencePost, get_state r.1.mem 69616)) =
      some ([69592, 69552], 69616, FENCEPOST) ∧
    (run cfg 100 (fresh [65536]) [] [allocate 24, allocate 24]).map
      (fun r => (get_state r.1.mem 69576, get_size r.1.mem 69576,
        get_right_header r.1.mem 69576)) = some (ALLOCATED, 40, 69616) ∧
    (run cfg 100 (fresh [65536]) [] [allocate 24, allocate 24]).map
      (fun r => (get_state r.1.mem 69536, get_size r.1.mem 69536,
        get_right_header r.1.mem 69536)) = some (ALLOCATED, 40, 69576) ∧
    (run cfg 100 (fresh [65536]) [] [allocate 24, allocate 24]).map
      (fun r => (get_state r.1.mem 65552, get_size r.1.mem 65552,
        get_right_header r.1.mem 65552)) = some (UNALLOCATED, 3984, 69536) ∧
    (run cfg 100 (fresh [65536]) [] [allocate 24, allocate 24]).map
      (fun r => (List.range N_LISTS).map
        (fun i => list_blocks r.1.mem (sentinel cfg i) 100 (next r.1.mem (sentinel cfg i)))) =
      some ((List.range N_LISTS).map (fun i => if i = 58 then [65552] else [])) ∧
    round_up_8 (24 + ALLOC_HEADER_SIZE) = 40 := by
  decide!

/-- C14 (code defect shown at a concrete run): `p = allocate 8` returns the
payload 69600 of a block with 16 payload cells, which ends at the right
fencepost 69616.  `my_realloc p 24` returns the payload 69560, and its cell 16
holds the header word of that fencepost: `memcpy` went on past the 16 cells of
the old payload, reading `new_size = 24` cells instead of `min old new = 16`. -/
theorem realloc_reads_past_old_payload :
    (my_malloc cfg 100 (fresh [65536]) 8).map
      (fun r => (r.1, get_size r.2.mem (psub r.1 ALLOC_HEADER_SIZE) - ALLOC_HEADER_SIZE,
        get_right_header r.2.mem (psub r.1 ALLOC_HEADER_SIZE),
        get_state r.2.mem 69616, r.2.mem 69616)) = some (69600, 16, 69616, FENCEPOST, 18) ∧
    (my_malloc cfg 100 (fresh [65536]) 8).bind
      (fun r => (my_realloc cfg 100 r.2 r.1 24).map
        (fun q => (q.1, q.2.mem (q.1 + 16)))) = some (69560, 18) := by
  decide!

/-- C17 (code defect shown at a concrete run): `allocate 4040` needs a block of
4056 bytes and takes it from the block 65552 of size 4064 on the last list,
leaving the remainder 8.  The remainder is put back at the head of the last
list, index 58, since `8 / 8 - 3` wraps around in `size_t`; it is no list index.
The `next` field of the remainder lies inside the allocated block 65560 and
holds its `left_size`, 8. -/
theorem tiny_remainder_goes_to_last_list :
    (run cfg 100 (fresh [65536]) [] [allocate 4040]).map
      (fun r => (r.2, get_state r.1.mem 65552, get_size r.1.mem 65552,
        next r.1.mem (sentinel cfg 58), next r.1.mem 65552)) =
      some ([65576], UNALLOCATED, 8, 65552, 8) ∧
    (run cfg 100 (fresh [65536]) [] [allocate 4040]).map
      (fun r => (get_state r.1.mem 65560, get_size r.1.mem 65560)) = some (ALLOCATED, 4056) ∧
    required_size 4040 = 4056 ∧ usub (8 / 8) 3 = WORD - 2 := by
  decide!

/-- C19 (code defect shown at a concrete run): `allocate 4064` needs 4080 bytes,
more than the free block of the fresh arena, and the second chunk, at 131072,
is not adjacent to the first.  Afterwards the chunk 131072 is recorded and
`lastFencePost` is its right fencepost 135152, but the header at 131072 is an
`ALLOCATED` block of size 4080: the left fencepost of the new chunk has been
overwritten, and the returned payload 131088 is the header of the block put on
the free list. -/
theorem oversized_growth_overwrites_left_fencepost :
    (run cfg 100 (fresh [65536, 131072]) [] [allocate 4064]).map
      (fun r => (r.2, r.1.osChunkList, r.1.lastFencePost, get_state r.1.mem 135152)) =
      some ([131088], [65536, 131072], 135152, FENCEPOST) ∧
    (run cfg 100 (fresh [65536, 131072]) [] [allocate 4064]).map
      (fun r => (get_state r.1.mem 131072, get_size r.1.mem 131072,
        next r.1.mem (sentinel cfg 58))) = some (ALLOCATED, 4080, 131088) ∧
    required_size 4064 = 4080 := by
  decide!

/-- C20: let the memory carry a well-formed free-list index and let `h` be a
block whose header lies apart from every node and sentinel (so `h` is on no
list), of size `s ≥ 32` (a `size_t`).  Then `insert_helper` makes `h` the head
of list `min (s / 8 - 3) 58` and changes no other list: the index afterwards is
the old one with `h` in front of that list, with `sentinel.next == h`,
`h.prev == sentinel`, `h.next` the former head and the former head's `prev`
equal to `h`.  A following `break_helper` on `h` gives the old index back, sets
`h.next` and `h.prev` to `NULL`, and restores every other word of the memory. -/
theorem insert_then_remove (c : Config) (m : Mem) (FL : Nat → List Nat) (h : Nat)
    (L : Lists c m FL) (hW : h + 32 ≤ WORD)
    (hsent : h + 32 ≤ c.freelistSentinels ∨ c.freelistSentinels + 1888 ≤ h)
    (hsep : ∀ k, k < 59 → ∀ y ∈ FL k, h + 32 ≤ y ∨ y + 32 ≤ h)
    (hs32 : 32 ≤ get_size m h) (hsW : get_size m h < WORD) :
    list_index (get_size m h) = min (get_size m h / 8 - 3) 58 ∧
    Lists c (insert_helper c m h)
      (Function.update FL (list_index (get_size m h)) (h :: FL (list_index (get_size m h)))) ∧
    next (insert_helper c m h) (sentinel c (list_index (get_size m h))) = h ∧
    prev (insert_helper c m h) h = sentinel c (list_index (get_size m h)) ∧
    next (insert_helper c m h) h = next m (sentinel c (list_index (get_size m h))) ∧
    prev (insert_helper c m h) (next m (sentinel c (list_index (get_size m h)))) = h ∧
    Lists c (break_helper (insert_helper c m h) h) FL ∧
    next (break_helper (insert_helper c m h) h) h = NULL ∧
    prev (break_helper (insert_helper c m h) h) h = NULL ∧
    ∀ a, a ≠ h + 16 → a ≠ h + 24 → break_helper (insert_helper c m h) h a = m a := by
  have hidx := list_index_eq (get_size m h) (le_trans (by decide) hs32) hsW
  generalize hj : list_index (get_size m h) = j at hidx ⊢
  have hjlt : j < 59 := hj ▸ list_index_lt _
  have hG := L.sent_hi
  obtain ⟨a1, a2, a3, a4, a5, a6⟩ := link_arith c.freelistSentinels h j hjlt hG hW hsent
  refine ⟨hidx, ?_⟩
  clear hidx hs32 hsW
  obtain ⟨L1, -⟩ := L.insert hW hsent hsep hj
  have hs := sentinel_eq c j L.sent_hi hjlt
  -- the links around the new head
  have hch1 := L1.chain j hjlt
  simp only [Function.update_same, DL] at hch1
  obtain ⟨hSn, hHp, hrest⟩ := hch1
  have hhead := DL_head _ _ _ _ hrest
  have hhead0 := DL_head _ _ _ _ (L.chain j hjlt)
  have hHn : next (insert_helper c m h) h = next m (sentinel c j) := by
    rw [hhead.1, hhead0.1]
  have hDp : prev (insert_helper c m h) (next m (sentinel c j)) = h := by
    rw [hhead0.1]; exact hhead.2
  -- removing the head again
  have hmem : h ∈ Function.update FL j (h :: FL j) j := by simp
  obtain ⟨L2, -⟩ := L1.break hjlt hmem
  have hFL : Function.update (Function.update FL j (h :: FL j)) j
      ((Function.update FL j (h :: FL j) j).erase h) = FL := by
    funext k
    by_cases hk : k = j
    · subst hk; simp
    · simp [Function.update_noteq hk]
  rw [hFL] at L2
  have e16 : padd h 16 = h + 16 := padd_eq _ _ a5
  have e24 : padd h 24 = h + 24 := padd_eq _ _ a6
  have hn0 : next (break_helper (insert_helper c m h) h) h = NULL := by
    simp only [break_helper, set_next, set_prev, next, e16, e24]
    rw [store_ne _ _ _ _ (Nat.ne_of_lt (Nat.add_lt_add_left (by decide) h)), store_eq]
  have hp0 : prev (break_helper (insert_helper c m h) h) h = NULL := by
    simp only [break_helper, set_next, set_prev, prev, e24]
    rw [store_eq]
  -- the memory after both steps
  have hne0 : FL j ++ [sentinel c j] ≠ [] := by simp
  have hhm := List.head_mem hne0
  have oS : Obj c FL (sentinel c j) := Or.inr ⟨j, hjlt, hs⟩
  generalize hde : (FL j ++ [sentinel c j]).head (by simp) = hd at hhead0 hhm
  have oH : Obj c FL hd := by
    rcases List.mem_append.mp hhm with h' | h'
    · exact Or.inl ⟨j, hjlt, h'⟩
    · rw [List.mem_singleton.mp h']; exact oS
  have hdW := L.obj_hi oH
  have shs := L.obj_sep oH oS
  rw [hs] at shs
  have shh : hd + 32 ≤ h ∨ h + 32 ≤ hd := by
    rcases oH with ⟨k, hk, hz⟩ | ⟨k, hk, hz⟩
    · exact (hsep k hk hd hz).symm
    · rw [hz]
      exact (link_arith c.freelistSentinels h k hk hG hW hsent).2.1.symm
  have hm1 := insert_helper_eq c m h j hd hj hG hhead0.1 hW hdW shs
  have hHn2 : next (insert_helper c m h) h = hd := by rw [hHn, hhead0.1]
  rw [hs] at hHp
  have hm2 := break_helper_eq (insert_helper c m h) h (c.freelistSentinels + 32 * j) hd hHp hHn2
    hW a1 hdW a2
  have hSnext : m (c.freelistSentinels + 32 * j + 16) = hd := by
    have := hhead0.1
    simp only [next] at this
    rw [hs, padd_eq _ 16 a3] at this
    exact this
  have hDprev : m (hd + 24) = c.freelistSentinels + 32 * j := by
    have := hhead0.2
    simp only [prev] at this
    rw [hs, padd_eq _ 24 (Nat.lt_of_lt_of_le (Nat.add_lt_add_left (by decide) hd) hdW)] at this
    exact this
  refine ⟨L1, hSn, ?_, hHn, hDp, L2, hn0, hp0, ?_⟩
  · rw [hs]; exact hHp
  · intro a h1 h2
    rw [hm2, store_ne _ _ _ _ h2, store_ne _ _ _ _ h1]
    by_cases ha : a = hd + 24
    · rw [ha, store_eq, hDprev]
    · rw [store_ne _ _ _ _ ha]
      by_cases hb : a = c.freelistSentinels + 32 * j + 16
      · rw [hb, store_eq, hSnext]
      · rw [store_ne _ _ _ _ hb, hm1, store_ne _ _ _ _ h2, store_ne _ _ _ _ hb,
          store_ne _ _ _ _ h1, store_ne _ _ _ _ ha]

theorem insert_then_remove_witness :
    list_index (get_size (after_calls [65536] [Call.allocate 24]).mem 69576) =
      min (get_size (after_calls [65536] [Call.allocate 24]).mem 69576 / 8 - 3) 58 ∧
    Lists cfg (insert_helper cfg (after_calls [65536] [Call.allocate 24]).mem 69576)
      (Function.update (fun i => if i = 58 then [65552] else [])
        (list_index (get_size (after_calls [65536] [Call.allocate 24]).mem 69576))
        (69576 :: (fun i => if i = 58 then [65552] else [])
          (list_index (get_size (after_calls [65536] [Call.allocate 24]).mem 69576)))) ∧
    next (insert_helper cfg (after_calls [65536] [Call.allocate 24]).mem 69576)
      (sentinel cfg (list_index (get_size (after_calls [65536] [Call.allocate 24]).mem 69576))) =
      69576 ∧
    prev (insert_helper cfg (after_calls [65536] [Call.allocate 24]).mem 69576) 69576 =
      sentinel cfg (list_index (get_size (after_calls [65536] [Call.allocate 24]).mem 69576)) ∧
    next (insert_helper cfg (after_calls [65536] [Call.allocate 24]).mem 69576) 69576 =
      next (after_calls [65536] [Call.allocate 24]).mem
        (sentinel cfg (list_index (get_size (after_calls [65536] [Call.allocate 24]).mem 69576))) ∧
    prev (insert_helper cfg (after_calls [65536] [Call.allocate 24]).mem 69576)
      (next (after_calls [65536] [Call.allocate 24]).mem
        (sentinel cfg (list_index (get_size (after_calls [65536] [Call.allocate 24]).mem 69576)))) =
      69576 ∧
    Lists cfg (break_helper (insert_helper cfg (after_calls [65536] [Call.allocate 24]).mem 69576)
      69576) (fun i => if i = 58 then [65552] else []) ∧
    next (break_helper (insert_helper cfg (after_calls [65536] [Call.allocate 24]).mem 69576)
      69576) 69576 = NULL ∧
    prev (break_helper (insert_helper cfg (after_calls [65536] [Call.allocate 24]).mem 69576)
      69576) 69576 = NULL ∧
    ∀ a, a ≠ 69576 + 16 → a ≠ 69576 + 24 →
      break_helper (insert_helper cfg (after_calls [65536] [Call.allocate 24]).mem 69576) 69576 a =
        (after_calls [65536] [Call.allocate 24]).mem a :=
  insert_then_remove cfg (after_calls [65536] [Call.allocate 24]).mem
    (fun i => if i = 58 then [65552] else []) 69576 live_state_wf.lists (by decide)
    (by decide) (by decide) (by decide!) (by decide!)

/-- C16: in a well-formed state, `free` on the payload of a live block `d`
returns, and the new state is well-formed again, with one block in place of `d`
and its `UNALLOCATED` neighbours.  That block is `UNALLOCATED`; it starts at the
left neighbour when that was `UNALLOCATED` and at `d` otherwise; its size is the
size of `d` plus the sizes of the neighbours that were `UNALLOCATED`; the
`left_size` of its right neighbour is that size; it is on the list
`min (size / 8 - 3) 58` and on no other.  A right neighbour that was absorbed is
on no list, and a neighbour that was not `UNALLOCATED` keeps its header word. -/
theorem free_coalesces (c : Config) (s : Alloc) (B : List Nat) (FL : Nat → List Nat) (d : Nat)
    (wf : WF c s B FL) (hd : d ∈ B) (hst : get_state s.mem d = ALLOCATED) :
    ∃ m' FL', my_free c s (d + ALLOC_HEADER_SIZE) = FreeResult.returned { s with mem := m' } ∧
      WF c { s with mem := m' }
        (B.filter (fun x => decide (x ≤ coalesced_start s.mem d ∨
          coalesced_start s.mem d + coalesced_size s.mem d ≤ x))) FL' ∧
      get_state m' (coalesced_start s.mem d) = UNALLOCATED ∧
      get_size m' (coalesced_start s.mem d) = coalesced_size s.mem d ∧
      left_size m' (get_right_header m' (coalesced_start s.mem d)) = coalesced_size s.mem d ∧
      list_index (coalesced_size s.mem d) = min (coalesced_size s.mem d / 8 - 3) 58 ∧
      (∀ j, j < 59 →
        (coalesced_start s.mem d ∈ FL' j ↔ j = list_index (coalesced_size s.mem d))) ∧
      (get_state s.mem (get_right_header s.mem d) = UNALLOCATED →
        ∀ j, j < 59 → get_right_header s.mem d ∉ FL' j) ∧
      (get_state s.mem (get_left_header s.mem d) ≠ UNALLOCATED →
        m' (get_left_header s.mem d) = s.mem (get_left_header s.mem d)) ∧
      (get_state s.mem (get_right_header s.mem d) ≠ UNALLOCATED →
        m' (get_right_header s.mem d) = s.mem (get_right_header s.mem d)) := by
  obtain ⟨m', FL', hfree, hF, hXd, hdT, -, hLn, hRn, hRf⟩ := free_step wf hd hst
  obtain ⟨l, r, hlB, hrB, hld, hdr, hsl, hsd, hsr, -, hlh, hrh, -, -, -, -, -, -, -, -⟩ :=
    wf.free_facts hd hst
  rw [hlh] at hLn ⊢
  rw [hrh] at hRn hRf ⊢
  generalize coalesced_start s.mem d = X at *
  generalize coalesced_size s.mem d = T at *
  have hXin : X ∈ FL' (list_index T) :=
    (hF.index _ (list_index_lt _) X).mpr (Or.inl ⟨rfl, rfl⟩)
  obtain ⟨hXB, hXst0, -⟩ := hF.wf.listed_free _ (list_index_lt _) X hXin
  have hXst : get_state m' X = UNALLOCATED := hXst0
  have hXnf : get_state m' X ≠ FENCEPOST := by rw [hXst]; decide
  have hsz : get_size m' X = T := by
    have h1 := hF.size_word
    have h2 := hXst
    unfold get_state UNALLOCATED at h2
    unfold get_size
    omega
  obtain ⟨hT32', -, hTW', -, -, -, -, -, hrhX', -⟩ := hF.wf.around hXB hXnf
  obtain ⟨-, hls'⟩ := hF.wf.right X hXB hXnf
  have hT32 : 32 ≤ get_size m' X := hT32'
  have hTW : X + get_size m' X + 16 ≤ WORD := hTW'
  have hrhX : get_right_header m' X = X + get_size m' X := hrhX'
  have hls : left_size m' (X + get_size m' X) = get_size m' X := hls'
  rw [hsz] at hT32 hTW hrhX hls
  clear hT32' hTW' hrhX' hls' hXst0
  have n1 : l < d := by omega
  have n2 : d < r := by omega
  refine ⟨m', FL', hfree, hF.wf, hXst, hsz, ?_, list_index_eq T (by omega) (by omega), ?_, ?_,
    ?_, ?_⟩
  · rw [hrhX]; exact hls
  · intro j hj
    constructor
    · intro h
      rcases (hF.index j hj X).mp h with ⟨-, h'⟩ | ⟨-, h'⟩
      · exact h'
      · omega
    · intro h; rw [h]; exact hXin
  · intro hR j hj h
    have h1 := hRf hR
    rcases (hF.index j hj r).mp h with ⟨h', -⟩ | ⟨-, h'⟩
    · omega
    · omega
  · intro hL
    have := hLn hL
    exact hF.same l hlB (Or.inl (by omega))
  · intro hR
    have := hRn hR
    exact hF.same r hrB (Or.inr (by omega))

set_option maxRecDepth 100000 in
theorem free_coalesces_witness :
    ∃ m' FL', my_free cfg (after_calls [65536] [Call.allocate 24]) (69576 + ALLOC_HEADER_SIZE) =
        FreeResult.returned { after_calls [65536] [Call.allocate 24] with mem := m' } ∧
      WF cfg { after_calls [65536] [Call.allocate 24] with mem := m' }
        ([65536, 65552, 69576, 69616].filter (fun x => decide
          (x ≤ coalesced_start (after_calls [65536] [Call.allocate 24]).mem 69576 ∨
            coalesced_start (after_calls [65536] [Call.allocate 24]).mem 69576 +
              coalesced_size (after_calls [65536] [Call.allocate 24]).mem 69576 ≤ x))) FL' ∧
      coalesced_start (after_calls [65536] [Call.allocate 24]).mem 69576 = 65552 ∧
      coalesced_size (after_calls [65536] [Call.allocate 24]).mem 69576 = 4064 :=
  match free_coalesces cfg (after_calls [65536] [Call.allocate 24]) [65536, 65552, 69576, 69616]
    (fun i => if i = 58 then [65552] else []) 69576 live_state_wf (by decide) (by decide!) with
  | ⟨m', FL', h1, h2, _⟩ => ⟨m', FL', h1, h2, by decide!, by decide!⟩

/-- C12: from the state after `init` with `ARENA_SIZE = 4096` (interior
65552 .. 69616), for all request sizes `n1`, `n2`, `n3` from 1 to 1000 and each
order `i`, `j`, `k` of freeing the three blocks, the trace of the three
`allocate` calls and the three `free` calls runs through, and in the final
state each free list is what the claim says: the last list holds the block
65552 alone and every other list is empty.  That block is `UNALLOCATED` with
size 4064 and ends at the right fencepost 69616; the final state is well-formed
and its only blocks are the two fenceposts and that block. -/
theorem coalesce_chain_any_order (n1 n2 n3 i j k : Nat) (h1 : 1 ≤ n1 ∧ n1 ≤ 1000)
    (h2 : 1 ≤ n2 ∧ n2 ≤ 1000) (h3 : 1 ≤ n3 ∧ n3 ≤ 1000) (hperm : [i, j, k].Perm [0, 1, 2]) :
    ∃ s' ptrs B' FL',
      run cfg 100 (fresh [65536]) []
        [allocate n1, allocate n2, allocate n3, free i, free j, free k] = some (s', ptrs) ∧
      (∀ l, l < 59 → list_blocks s'.mem (sentinel cfg l) 100 (next s'.mem (sentinel cfg l)) =
        if l = 58 then [65552] else []) ∧
      get_state s'.mem 65552 = UNALLOCATED ∧ get_size s'.mem 65552 = 4064 ∧
      get_right_header s'.mem 65552 = 69616 ∧ get_state s'.mem 69616 = FENCEPOST ∧
      WF cfg s' B' FL' ∧ (∀ x ∈ B', x = 65536 ∨ x = 65552 ∨ x = 69616) ∧
      ∀ l, l < 59 → FL' l = if l = 58 then [65552] else [] := by
  obtain ⟨m1, m2, m3, A1, A2, A3, e1, e2, e3, wf3, sA1, sA2, sA3, sF, sL, sR, o1, o2, o3, o4⟩ :=
    three_allocs n1 n2 n3 h1 h2 h3
  generalize fresh [65536] = s0 at *
  -- the blocks that are freed, in the order of the calls
  have hmem : ∀ t, t ∈ [i, j, k] → t < 3 := by
    intro t ht
    have := hperm.mem_iff.mp ht
    simp only [List.mem_cons, List.mem_singleton, List.not_mem_nil, or_false] at this
    omega
  have hi := hmem i (by simp)
  have hj := hmem j (by simp)
  have hk := hmem k (by simp)
  have hd : [[A1, A2, A3].getD i 0, [A1, A2, A3].getD j 0, [A1, A2, A3].getD k 0].Perm
      [A1, A2, A3] := hperm.map (fun t => [A1, A2, A3].getD t 0)
  generalize hd1 : [A1, A2, A3].getD i 0 = d1 at hd
  generalize hd2 : [A1, A2, A3].getD j 0 = d2 at hd
  generalize hd3 : [A1, A2, A3].getD k 0 = d3 at hd
  have hnd : [d1, d2, d3].Nodup := hd.nodup_iff.mpr (by
    simp only [List.nodup_cons, List.mem_cons, List.mem_singleton, List.not_mem_nil,
      or_false, not_or, List.nodup_nil, and_true, not_false_eq_true]
    omega)
  simp only [List.nodup_cons, List.mem_cons, List.mem_singleton, List.not_mem_nil,
    or_false, not_or, List.nodup_nil, and_true, not_false_eq_true] at hnd
  have hin : ∀ x, x ∈ [d1, d2, d3] ↔ x ∈ [A1, A2, A3] := fun x => hd.mem_iff
  simp only [List.mem_cons, List.mem_singleton, List.not_mem_nil, or_false] at hin
  have hstate : ∀ x, x = A1 ∨ x = A2 ∨ x = A3 → get_state m3 x = ALLOCATED := by
    rintro x (h | h | h) <;> rw [h] <;> assumption
  have hB : ∀ x, x = A1 ∨ x = A2 ∨ x = A3 → x ∈ [A3, A2, A1, 65536, 65552, 69616] := by
    rintro x (h | h | h) <;> rw [h] <;> simp
  have q1 := (hin d1).mp (Or.inl rfl)
  have q2 := (hin d2).mp (Or.inr (Or.inl rfl))
  have q3 := (hin d3).mp (Or.inr (Or.inr rfl))
  obtain ⟨m4, m5, m6, B6, FL6, f4, f5, f6, wf6, k1, k2, -, k4, k5, k6⟩ :=
    three_frees (s := { s0 with mem := m3 }) wf3 65536 69616
      (hB d1 q1) (hB d2 q2) (hB d3 q3) (hstate d1 q1) (hstate d2 q2) (hstate d3 q3)
      hnd.1.1 hnd.1.2 hnd.2 (by
        intro x hx hxs
        simp only [List.mem_cons, List.mem_singleton, List.not_mem_nil, or_false] at hx
        have hxs' : get_state m3 x ≠ UNALLOCATED := hxs
        rcases hx with h | h | h | h | h | h
        · rcases (hin x).mpr (Or.inr (Or.inr h)) with h' | h' | h'
          · exact Or.inl h'
          · exact Or.inr (Or.inl h')
          · exact Or.inr (Or.inr (Or.inl h'))
        · rcases (hin x).mpr (Or.inr (Or.inl h)) with h' | h' | h'
          · exact Or.inl h'
          · exact Or.inr (Or.inl h')
          · exact Or.inr (Or.inr (Or.inl h'))
        · rcases (hin x).mpr (Or.inl h) with h' | h' | h'
          · exact Or.inl h'
          · exact Or.inr (Or.inl h')
          · exact Or.inr (Or.inr (Or.inl h'))
        · right; right; right; rw [h]; exact ⟨Or.inl rfl, sL⟩
        · rw [h] at hxs'; exact absurd sF hxs'
        · right; right; right; rw [h]; exact ⟨Or.inr rfl, sR⟩)
      (by
        intro x hx
        simp only [List.mem_cons, List.mem_singleton, List.not_mem_nil, or_false] at hx
        omega)
      (by simp) sR
  have hidx : list_index (69616 - 65536 - 16) = 58 := by decide
  rw [hidx] at k5
  have f4' : my_free cfg { s0 with mem := m3 } (d1 + 16) =
      FreeResult.returned { s0 with mem := m4 } := f4
  have f5' : my_free cfg { s0 with mem := m4 } (d2 + 16) =
      FreeResult.returned { s0 with mem := m5 } := f5
  have f6' : my_free cfg { s0 with mem := m5 } (d3 + 16) =
      FreeResult.returned { s0 with mem := m6 } := f6
  have hrun : run cfg 100 s0 []
      [allocate n1, allocate n2, allocate n3, free i, free j, free k] =
      some ({ s0 with mem := m6 }, [A1 + 16, A2 + 16, A3 + 16]) := by
    simp only [run, e1, e2, e3, List.nil_append, List.singleton_append, List.cons_append,
      getD_three _ _ _ _ hi, getD_three _ _ _ _ hj, getD_three _ _ _ _ hk, hd1, hd2, hd3,
      f4', f5', f6']
  have e16 : 65536 + 16 = 65552 := rfl
  have e64 : 69616 - 65536 - 16 = 4064 := rfl
  rw [e16] at k1 k4
  rw [e16, e64] at k2
  simp only [e16] at k5
  refine ⟨{ s0 with mem := m6 }, _, B6, FL6, hrun, ?_, k1, k2, ?_, k6, wf6, k4, k5⟩
  · intro l hl
    have hs : sentinel cfg l = 8192 + 32 * l := sentinel_eq cfg l (by decide) hl
    have h := list_blocks_eq m6 (sentinel cfg l) (FL6 l) 100 (sentinel cfg l)
      (wf6.lists.chain l hl)
      (by
        rw [k5 l hl, hs]
        split
        · simp only [List.mem_singleton]; omega
        · exact List.not_mem_nil _)
      (by
        rw [k5 l hl]
        split <;> simp)
    rw [k5 l hl] at h
    exact h
  · show get_right_header m6 65552 = 69616
    rw [get_right_header_eq m6 65552 (by rw [k2]; decide), k2]

theorem coalesce_chain_any_order_witness :
    ∃ s' ptrs B' FL',
      run cfg 100 (fresh [65536]) []
        [allocate 24, allocate 24, allocate 24, free 1, free 0, free 2] = some (s', ptrs) ∧
      (∀ l, l < 59 → list_blocks s'.mem (sentinel cfg l) 100 (next s'.mem (sentinel cfg l)) =
        if l = 58 then [65552] else []) ∧
      get_state s'.mem 65552 = UNALLOCATED ∧ get_size s'.mem 65552 = 4064 ∧
      get_right_header s'.mem 65552 = 69616 ∧ get_state s'.mem 69616 = FENCEPOST ∧
      WF cfg s' B' FL' ∧ (∀ x ∈ B', x = 65536 ∨ x = 65552 ∨ x = 69616) ∧
      ∀ l, l < 59 → FL' l = if l = 58 then [65552] else [] :=
  coalesce_chain_any_order 24 24 24 1 0 2 (by decide) (by decide) (by decide) (by decide)

/-- C18: in a well-formed state whose last block before the last fencepost `L`
is the `UNALLOCATED` block `P` (so `P + P.size = L`), with `sbrk` handing out the
address right behind `L` (the new chunk is adjacent) and the sentinel array
outside the heap range, the growth part of `allocate` returns for every
required size `r` (a multiple of 8, at least 32) that leaves
`N = P.size + ARENA_SIZE - r ≥ 32`.  Afterwards `P` is `UNALLOCATED` at its
old address with size `N`, which is
`P.size + L.size + NLF.size + C.size - r` for the sizes 16, 16 and
`ARENA_SIZE - 32` of the old last fencepost, the new left fencepost and the
new chunk's block; `P` is on the list `min (N / 8 - 3) 58` and on no other, and
the other blocks stay on their lists; the allocated block of size `r` starts
at `P + N`, the right neighbour of `P`, with `left_size = N`; and
`lastFencePost` is the right fencepost of the new chunk at `P + N + r`, with
state `FENCEPOST`, size `ALLOC_HEADER_SIZE` and `left_size = r`.  A call
`allocate n` whose required size is `r` and that finds no fit on the lists
returns exactly this result. -/
theorem adjacent_growth_extends_free_block (c : Config) (s : Alloc) (B : List Nat)
    (FL : Nat → List Nat) (P N r : Nat) (rest : List Nat) (wf : WF c s B FL)
    (hP : P ∈ B) (hPst : get_state s.mem P = UNALLOCATED)
    (hPL : P + get_size s.mem P = s.lastFencePost)
    (hLst : get_state s.mem s.lastFencePost = FENCEPOST)
    (hos : s.os = (s.lastFencePost + 16) :: rest)
    (hZ : 64 ≤ c.ARENA_SIZE) (hZ8 : c.ARENA_SIZE % 8 = 0)
    (hW : s.lastFencePost + 16 + c.ARENA_SIZE ≤ WORD)
    (htop : ∀ x ∈ B, x ≤ s.lastFencePost)
    (hsent : s.lastFencePost + 16 + c.ARENA_SIZE ≤ c.freelistSentinels ∨
      c.freelistSentinels + 1888 ≤ P)
    (hr32 : 32 ≤ r) (hr8 : r % 8 = 0) (hN : N + r = get_size s.mem P + c.ARENA_SIZE)
    (hN32 : 32 ≤ N) :
    ∃ s' FL', grow c s r = some (P + N + 16, s') ∧
      (∀ n fuel, 1 ≤ n → n < WORD → required_size n = r →
        (∀ j, j < 59 → (FL j).length < fuel) →
        (∀ j, j < 59 → ∀ x ∈ FL j, get_size s.mem x < r) →
        my_malloc c fuel s n = some (P + N + 16, s')) ∧
      get_state s'.mem P = UNALLOCATED ∧ get_size s'.mem P = N ∧
      get_size s.mem P + get_size s.mem s.lastFencePost +
        get_size (allocate_chunk s c.ARENA_SIZE).2.mem (s.lastFencePost + 16) +
        get_size (allocate_chunk s c.ARENA_SIZE).2.mem (s.lastFencePost + 32) - r = N ∧
      get_right_header s'.mem P = P + N ∧
      Lists c s'.mem FL' ∧ (∀ j, j < 59 → (P ∈ FL' j ↔ j = list_index N)) ∧
      (∀ j, j < 59 → ∀ y, y ≠ P → (y ∈ FL' j ↔ y ∈ FL j)) ∧
      list_index N = min (N / 8 - 3) 58 ∧
      get_state s'.mem (P + N) = ALLOCATED ∧ get_size s'.mem (P + N) = r ∧
      left_size s'.mem (P + N) = N ∧
      s'.lastFencePost = P + N + r ∧ P + N + r = s.lastFencePost + c.ARENA_SIZE ∧
      get_state s'.mem s'.lastFencePost = FENCEPOST ∧
      get_size s'.mem s'.lastFencePost = ALLOC_HEADER_SIZE ∧
      left_size s'.mem s'.lastFencePost = r ∧ s'.os = rest := by
  obtain ⟨s', FL', hg, hlf, hosr, -, hL, hmem, w1, w2, w3, w4, w5, k1, k2, k3⟩ :=
    grow_adjacent_free wf hP hPst hPL hLst hos hZ hZ8 hW htop hsent hr32 hr8 hN hN32
  have hnf : get_state s.mem P ≠ FENCEPOST := by rw [hPst]; decide
  obtain ⟨-, hp8, -⟩ := wf.block P hP hnf
  obtain ⟨a1, a2, a3, a4, a5, a6, a7, a8, a9, a10, a11⟩ :=
    grow_arith_state P (get_size s.mem P) N r s.lastFencePost c.ARENA_SIZE hPL hN hp8 hr8 hZ8
      hN32 hr32 hZ hW
  have sP : get_size s'.mem P = N := by unfold get_size; rw [w1]; exact a2
  refine ⟨s', FL', hg, ?_, ?_, sP, ?_, ?_, hL, ?_, ?_, list_index_eq N a9 a8, ?_, ?_, ?_, hlf,
    a11, ?_, ?_, ?_, hosr⟩
  · intro n fuel hn1 hn2 hr hfuel hno
    rw [my_malloc_no_fit wf hn1 hn2 hfuel (by rw [hr]; exact hno), hr]
    exact hg
  · unfold get_state UNALLOCATED; rw [w1]; exact a1
  · rw [k1, k2, k3]; exact a10
  · rw [get_right_header_eq _ _ (by rw [sP]; exact a7), sP]
  · intro j hj
    rw [hmem j hj P]
    constructor
    · rintro (⟨-, h⟩ | ⟨-, h⟩)
      · exact h
      · exact absurd rfl h
    · intro h
      exact Or.inl ⟨rfl, h⟩
  · intro j hj y hy
    rw [hmem j hj y]
    constructor
    · rintro (⟨h, -⟩ | ⟨h, -⟩)
      · exact absurd h hy
      · exact h
    · intro h
      exact Or.inr ⟨h, hy⟩
  · unfold get_state ALLOCATED; rw [w2]; exact a3
  · unfold get_size; rw [w2]; exact a4
  · rw [left_size_eq _ _ a5]; exact w3
  · rw [hlf]; unfold get_state FENCEPOST; rw [w4]
  · rw [hlf]; unfold get_size ALLOC_HEADER_SIZE; rw [w4]
  · rw [hlf, left_size_eq _ _ a6]; exact w5

theorem adjacent_growth_extends_free_block_witness :
    ∃ s', grow cfg (fresh [65536, 69632]) 4072 = some (69656, s') ∧
      my_malloc cfg 100 (fresh [65536, 69632]) 4056 = some (69656, s') ∧
      get_state s'.mem 65552 = UNALLOCATED ∧ get_size s'.mem 65552 = 4088 ∧
      get_size s'.mem 69640 = 4072 ∧ s'.lastFencePost = 73712 ∧
      get_state s'.mem s'.lastFencePost = FENCEPOST := by
  obtain ⟨s', FL', h1, h2, h3, h4, -, -, -, -, -, -, -, h5, -, h6, -, h7, -⟩ :=
    adjacent_growth_extends_free_block cfg (fresh [65536, 69632]) [65536, 65552, 69616]
      (fun i => if i = 58 then [65552] else []) 65552 4088 4072 [] fresh_two_wf
      (by decide) (by decide!) (by decide!) (by decide!) (by decide!) (by decide) (by decide)
      (by decide!) (by decide!) (by decide!) (by decide) (by decide) (by decide!) (by decide)
  exact ⟨s', h1, h2 4056 100 (by decide) (by decide!) (by decide!) (by decide) (by decide!),
    h3, h4, h5, h6, h7⟩

/-- C21: when each of the 59 lists is a well-formed circular list (following
`next` from the sentinel visits the blocks `FL i`, which are distinct and
differ from the sentinel, and then returns to the sentinel), `detect_cycles`
terminates and returns `NULL`, whatever the lengths of the lists are: with the
fuel above every length, the loop over each list ends by its condition
`fast == freelist`, never by `return slow`. -/
theorem detect_cycles_null_on_circular_lists (c : Config) (m : Mem) (FL : Nat → List Nat)
    (fuel : Nat) (h : ∀ i, i < N_LISTS → Circular m (sentinel c i) (FL i))
    (hf : ∀ i, i < N_LISTS → (FL i).length < fuel) :
    detect_cycles c fuel m 0 N_LISTS = some NULL ∧
    ∀ i, i < N_LISTS →
      cycle_walk m (sentinel c i) fuel (next m (sentinel c i))
        (next m (next m (sentinel c i))) = some none :=
  ⟨detect_cycles_from N_LISTS 0 (fun j _ h2 => h j (by omega)) (fun j _ h2 => hf j (by omega)),
    fun i hi => cycle_walk_circular (h i hi) (hf i hi)⟩

set_option maxRecDepth 100000 in
theorem detect_cycles_null_on_circular_lists_witness :
    detect_cycles cfg 3
      (after_calls [65536]
        [allocate 24, allocate 24, allocate 24, allocate 24, free 0, free 2]).mem
      0 N_LISTS = some NULL ∧
    ∀ i, i < N_LISTS →
      cycle_walk
        (after_calls [65536]
          [allocate 24, allocate 24, allocate 24, allocate 24, free 0, free 2]).mem
        (sentinel cfg i) 3
        (next (after_calls [65536]
          [allocate 24, allocate 24, allocate 24, allocate 24, free 0, free 2]).mem
          (sentinel cfg i))
        (next (after_calls [65536]
          [allocate 24, allocate 24, allocate 24, allocate 24, free 0, free 2]).mem
          (next (after_calls [65536]
            [allocate 24, allocate 24, allocate 24, allocate 24, free 0, free 2]).mem
            (sentinel cfg i))) = some none :=
  detect_cycles_null_on_circular_lists cfg
    (after_calls [65536]
      [allocate 24, allocate 24, allocate 24, allocate 24, free 0, free 2]).mem
    (fun i => if i = 2 then [69496, 69576] else if i = 58 then [65552] else []) 3
    (by decide!) (by decide!)

end MyMalloc
